import Mathlib

/-!
Verification development for the readiness-notification poller
(src/src/aio/poller.c).  The file shallowly embeds the three backends
(epoll-style under NN_USE_EPOLL, kqueue-style under NN_USE_KQUEUE, and the
poll-array fallback under NN_USE_POLL) as pure state-transition functions.
Machine integers become Nat bitmasks (the code only ever sets bits below
2^32, and bit clearing with a C complement mask is rendered as a land with
the 32-bit complement constant).  Kernel facilities (epoll_wait, kevent,
poll) are modelled from their documented semantics via readiness oracles;
the registration bookkeeping itself is translated from the source.
-/

/-- Event kinds returned by nn_poller_event: NN_POLLER_IN, NN_POLLER_OUT,
NN_POLLER_ERR. -/
inductive NnEv
  | IN
  | OUT
  | ERR
deriving DecidableEq, Repr

/-- EPOLLIN bit (0x1). -/
def EPOLLIN : Nat := 1

/-- EPOLLOUT bit (0x4). -/
def EPOLLOUT : Nat := 4

/-- EPOLLERR (0x8) together with EPOLLHUP (0x10): the conditions epoll
reports regardless of the registered interest mask. -/
def EPOLLERRHUP : Nat := 24

/-- 32-bit complement of EPOLLIN, the mask used by events and= ~EPOLLIN. -/
def NOT_EPOLLIN : Nat := 4294967294

/-- 32-bit complement of EPOLLOUT, the mask used by events and= ~EPOLLOUT. -/
def NOT_EPOLLOUT : Nat := 4294967291

/-- Modelled from the spec: the fixed maximum batch length requested per
wait (NN_POLLER_MAX_EVENTS, defined in the poller header which is not part
of the sources given). -/
def NN_POLLER_MAX_EVENTS : Nat := 32

/-- errno value ENFILE. -/
def ENFILE : Nat := 23

/-- errno value EMFILE. -/
def EMFILE : Nat := 24

/-- Pointwise update of a function-represented array. -/
def upd {α : Type} (f : Nat → α) (i : Nat) (a : α) : Nat → α :=
  fun j => if j = i then a else f j

theorem upd_same {α : Type} (f : Nat → α) (i : Nat) (a : α) : upd f i a i = a := by
  simp [upd]

theorem upd_other {α : Type} (f : Nat → α) (i j : Nat) (a : α) (h : j ≠ i) :
    upd f i a j = f j := by
  simp [upd, h]

theorem land_land (m a b : Nat) : m &&& a &&& b = m &&& (a &&& b) :=
  Nat.land_assoc m a b

theorem land_notin_in (m : Nat) : m &&& NOT_EPOLLIN &&& EPOLLIN = 0 := by
  rw [land_land]
  have h : NOT_EPOLLIN &&& EPOLLIN = 0 := by decide
  rw [h, Nat.and_zero]

theorem land_notout_out (m : Nat) : m &&& NOT_EPOLLOUT &&& EPOLLOUT = 0 := by
  rw [land_land]
  have h : NOT_EPOLLOUT &&& EPOLLOUT = 0 := by decide
  rw [h, Nat.and_zero]

theorem land_notin_out (m : Nat) : m &&& NOT_EPOLLIN &&& EPOLLOUT = m &&& EPOLLOUT := by
  rw [land_land]
  have h : NOT_EPOLLIN &&& EPOLLOUT = EPOLLOUT := by decide
  rw [h]

theorem land_notout_in (m : Nat) : m &&& NOT_EPOLLOUT &&& EPOLLIN = m &&& EPOLLIN := by
  rw [land_land]
  have h : NOT_EPOLLOUT &&& EPOLLIN = EPOLLIN := by decide
  rw [h]

theorem lor_land_distrib (m a b : Nat) :
    (m ||| a) &&& b = (m &&& b) ||| (a &&& b) := by
  apply Nat.eq_of_testBit_eq
  intro i
  simp only [Nat.testBit_land, Nat.testBit_lor]
  cases m.testBit i <;> cases a.testBit i <;> cases b.testBit i <;> rfl

theorem lor_in_has_in (m : Nat) : (m ||| EPOLLIN) &&& EPOLLIN ≠ 0 := by
  intro h
  have ht : ((m ||| EPOLLIN) &&& EPOLLIN).testBit 0 = true := by
    simp [Nat.testBit_land, Nat.testBit_lor, EPOLLIN]
  rw [h] at ht
  simp [Nat.zero_testBit] at ht

theorem lor_out_has_out (m : Nat) : (m ||| EPOLLOUT) &&& EPOLLOUT ≠ 0 := by
  intro h
  have ht : ((m ||| EPOLLOUT) &&& EPOLLOUT).testBit 2 = true := by
    simp only [Nat.testBit_land, Nat.testBit_lor, EPOLLOUT]
    have h4 : Nat.testBit 4 2 = true := by decide
    rw [h4, Bool.or_true, Bool.true_and]
  rw [h] at ht
  simp [Nat.zero_testBit] at ht

theorem land_ne_zero_ne_zero {m b : Nat} (h : m &&& b ≠ 0) : m ≠ 0 := by
  intro hm
  apply h
  rw [hm, Nat.zero_and]

/-! ## Epoll-style backend (NN_USE_EPOLL)

A struct nn_poller_hndl is caller-owned and referenced by address; we name
handles by a Nat identity and keep their mutable contents in a heap map.
The epoll kernel object is a registration table keyed by file descriptor,
each entry holding the full interest mask and the opaque data pointer; this
mirrors epoll_ctl ADD/MOD/DEL semantics.  epoll_wait reports, for each
registered descriptor, the ready conditions intersected with the mask plus
the unmaskable EPOLLERR and EPOLLHUP conditions.  kcalls counts the
epoll_ctl registration calls issued, so that claims about the number of
kernel registration calls can be stated. -/

/-- Contents of a struct nn_poller_hndl in the epoll backend: fd plus the
currently requested events mask. -/
structure EpHndl where
  fd : Int
  events : Nat
deriving DecidableEq

/-- One struct epoll_event in the self.events buffer: events bits plus the
data.ptr handle reference. -/
structure EpEntry where
  events : Nat
  ptr : Nat
deriving DecidableEq

/-- State of struct nn_poller for the epoll backend, together with the
handle heap and the modelled kernel registration table. -/
structure EpState where
  kernel : List (Int × Nat × Nat)
  buf : Nat → EpEntry
  nevents : Nat
  index : Nat
  heap : Nat → EpHndl
  kcalls : Nat

/-- nn_poller_init, epoll backend: epoll_create1 may fail; ENFILE and
EMFILE surface as -EMFILE, other errors hit errno_assert.  On success
nevents and index start at zero.  The outcome of the descriptor
allocation is the argument. -/
inductive InitOut (σ : Type)
  | ok (s : σ)
  | emfile
  | fatal

def ep_poller_init (r : Except Nat Nat) : InitOut EpState :=
  match r with
  | .ok _ =>
      .ok { kernel := [], buf := fun _ => ⟨0, 0⟩, nevents := 0, index := 0,
            heap := fun _ => ⟨0, 0⟩, kcalls := 0 }
  | .error e => if e = ENFILE ∨ e = EMFILE then .emfile else .fatal

/-- nn_poller_add, epoll backend: set hndl.fd and hndl.events, then
epoll_ctl ADD with an all-zero mask and data.ptr pointing at the handle. -/
def ep_poller_add (s : EpState) (fd : Int) (h : Nat) : EpState :=
  { s with heap := upd s.heap h ⟨fd, 0⟩,
           kernel := s.kernel ++ [(fd, 0, h)],
           kcalls := s.kcalls + 1 }

/-- Scrub of the live suffix of the event buffer: the for loops from
self.index to self.nevents that the remove and reset operations run,
matching entries whose data.ptr is the given handle. -/
def epScrub (s : EpState) (h : Nat) (f : EpEntry → EpEntry) :
    Nat → EpEntry :=
  fun j =>
    if s.index ≤ j ∧ j < s.nevents ∧ (s.buf j).ptr = h then f (s.buf j)
    else s.buf j

/-- nn_poller_rm, epoll backend: epoll_ctl DEL on hndl.fd, then zero the
events word of every live buffer entry whose data.ptr is this handle. -/
def ep_poller_rm (s : EpState) (h : Nat) : EpState :=
  { s with kernel := s.kernel.filter (fun r => r.1 ≠ (s.heap h).fd),
           kcalls := s.kcalls + 1,
           buf := epScrub s h (fun e => ⟨0, e.ptr⟩) }

/-- nn_poller_set_in, epoll backend: no-op when EPOLLIN is already set,
else or the bit in and issue one epoll_ctl MOD with the whole mask. -/
def ep_poller_set_in (s : EpState) (h : Nat) : EpState :=
  let e := s.heap h
  if e.events &&& EPOLLIN ≠ 0 then s
  else
    let ev := e.events ||| EPOLLIN
    { s with heap := upd s.heap h ⟨e.fd, ev⟩,
             kernel := s.kernel.map (fun r => if r.1 = e.fd then (r.1, ev, h) else r),
             kcalls := s.kcalls + 1 }

/-- nn_poller_set_out, epoll backend. -/
def ep_poller_set_out (s : EpState) (h : Nat) : EpState :=
  let e := s.heap h
  if e.events &&& EPOLLOUT ≠ 0 then s
  else
    let ev := e.events ||| EPOLLOUT
    { s with heap := upd s.heap h ⟨e.fd, ev⟩,
             kernel := s.kernel.map (fun r => if r.1 = e.fd then (r.1, ev, h) else r),
             kcalls := s.kcalls + 1 }

/-- nn_poller_reset_in, epoll backend: no-op when EPOLLIN is not set, else
clear the bit, issue one epoll_ctl MOD, and clear EPOLLIN from every live
buffer entry whose data.ptr is this handle. -/
def ep_poller_reset_in (s : EpState) (h : Nat) : EpState :=
  let e := s.heap h
  if e.events &&& EPOLLIN = 0 then s
  else
    let ev := e.events &&& NOT_EPOLLIN
    { s with heap := upd s.heap h ⟨e.fd, ev⟩,
             kernel := s.kernel.map (fun r => if r.1 = e.fd then (r.1, ev, h) else r),
             kcalls := s.kcalls + 1,
             buf := epScrub s h (fun x => ⟨x.events &&& NOT_EPOLLIN, x.ptr⟩) }

/-- nn_poller_reset_out, epoll backend. -/
def ep_poller_reset_out (s : EpState) (h : Nat) : EpState :=
  let e := s.heap h
  if e.events &&& EPOLLOUT = 0 then s
  else
    let ev := e.events &&& NOT_EPOLLOUT
    { s with heap := upd s.heap h ⟨e.fd, ev⟩,
             kernel := s.kernel.map (fun r => if r.1 = e.fd then (r.1, ev, h) else r),
             kcalls := s.kcalls + 1,
             buf := epScrub s h (fun x => ⟨x.events &&& NOT_EPOLLOUT, x.ptr⟩) }

/-- OS model of one successful epoll_wait: for each registered descriptor,
report the ready conditions intersected with the mask extended by the
unmaskable EPOLLERR and EPOLLHUP bits, keep nonzero reports in
registration order, truncated at NN_POLLER_MAX_EVENTS. -/
def epBatch (kernel : List (Int × Nat × Nat)) (ready : Int → Nat) :
    List EpEntry :=
  (kernel.filterMap (fun r =>
    let rev := ready r.1 &&& (r.2.1 ||| EPOLLERRHUP)
    if rev ≠ 0 then some ⟨rev, r.2.2⟩ else none)).take NN_POLLER_MAX_EVENTS

/-- Oracle for one epoll wait call: how many times epoll_wait reports
EINTR before a call completes, and the readiness of each descriptor at the
completing call. -/
structure EpOracle where
  eintrs : Nat
  ready : Int → Nat

/-- The while loop of nn_poller_wait, epoll backend: an EINTR outcome
loops back to epoll_wait, any other outcome leaves the loop. -/
def epWaitLoop : Nat → List (Int × Nat × Nat) → (Int → Nat) → List EpEntry
  | 0, k, ready => epBatch k ready
  | n + 1, k, ready => epWaitLoop n k ready

/-- Millisecond timeout as handed to the kernel by epoll_wait: a negative
value blocks indefinitely, a nonnegative value bounds the wait. -/
inductive BlockSpec
  | indefinite
  | boundedNs (ns : Int)
deriving DecidableEq

/-- OS model of how epoll_wait interprets the timeout argument the source
passes through verbatim. -/
def epWaitBlock (timeout : Int) : BlockSpec :=
  if timeout < 0 then .indefinite else .boundedNs (timeout * 1000000)

/-- nn_poller_wait, epoll backend: clear nevents and index first, then
loop on epoll_wait until it does not report EINTR, and store the batch.
Always returns 0. -/
def ep_poller_wait (s : EpState) (timeout : Int) (g : EpOracle) :
    Int × EpState :=
  let b := epWaitLoop g.eintrs s.kernel g.ready
  (0, { s with nevents := b.length, index := 0,
               buf := fun j => b.getD j ⟨0, 0⟩ })

/-- The skip loop at the top of nn_poller_event: advance index past
entries whose events word is zero. -/
def epSkipGo : Nat → (Nat → EpEntry) → Nat → Nat → Nat
  | 0, _, _, i => i
  | f + 1, buf, nev, i =>
      if i < nev then (if (buf i).events ≠ 0 then i else epSkipGo f buf nev (i + 1))
      else i

def epSkip (buf : Nat → EpEntry) (nev i : Nat) : Nat :=
  epSkipGo (nev - i) buf nev i

/-- nn_poller_event, epoll backend: skip empty entries; return -EAGAIN
(modelled none) when exhausted; otherwise deliver IN before OUT before
ERR from the entry under the cursor, clearing the delivered bit, and
advance the cursor only on the ERR branch. -/
def ep_poller_event (s : EpState) : Option (NnEv × Nat) × EpState :=
  let i := epSkip s.buf s.nevents s.index
  if i ≥ s.nevents then (none, { s with index := i })
  else
    let e := s.buf i
    if e.events &&& EPOLLIN ≠ 0 then
      (some (.IN, e.ptr),
       { s with index := i, buf := upd s.buf i ⟨e.events &&& NOT_EPOLLIN, e.ptr⟩ })
    else if e.events &&& EPOLLOUT ≠ 0 then
      (some (.OUT, e.ptr),
       { s with index := i, buf := upd s.buf i ⟨e.events &&& NOT_EPOLLOUT, e.ptr⟩ })
    else
      (some (.ERR, e.ptr), { s with index := i + 1 })

/-- Caller-visible operations on an epoll-backend poller between two
lifecycle points.  The wait operation carries its oracle. -/
inductive EpOp
  | add (fd : Int) (h : Nat)
  | rm (h : Nat)
  | setIn (h : Nat)
  | setOut (h : Nat)
  | resetIn (h : Nat)
  | resetOut (h : Nat)
  | wait (t : Int) (g : EpOracle)
  | drain

def epApply : EpOp → EpState → EpState
  | .add fd h, s => ep_poller_add s fd h
  | .rm h, s => ep_poller_rm s h
  | .setIn h, s => ep_poller_set_in s h
  | .setOut h, s => ep_poller_set_out s h
  | .resetIn h, s => ep_poller_reset_in s h
  | .resetOut h, s => ep_poller_reset_out s h
  | .wait t g, s => (ep_poller_wait s t g).2
  | .drain, s => (ep_poller_event s).2

/-- Run a list of operations, collecting every event that the drain calls
hand to the caller. -/
def epRun : EpState → List EpOp → List (NnEv × Nat)
  | _, [] => []
  | s, op :: rest =>
    match op with
    | .drain =>
      match ep_poller_event s with
      | (some p, s2) => p :: epRun s2 rest
      | (none, s2) => epRun s2 rest
    | _ => epRun (epApply op s) rest

/-- True for every operation except wait. -/
def epNonWait : EpOp → Bool
  | .wait _ _ => false
  | _ => true

/-! ## Kqueue-style backend (NN_USE_KQUEUE)

Read and write readiness are independent filter registrations.  The
kernel registration table lists (ident, filter, udata) triples; kevent
with EV_ADD appends, EV_DELETE removes by (ident, filter).  A delivered
struct kevent carries ident, filter, the EV_EOF flag and udata; a NULL
udata is modelled as none.  kcalls counts registration kevent calls. -/

/-- The two filters the source registers. -/
inductive KFilter
  | read
  | write
deriving DecidableEq

/-- NN_POLLER_EVENT_IN bit of hndl.events in the kqueue backend. -/
def NN_POLLER_EVENT_IN : Nat := 1

/-- NN_POLLER_EVENT_OUT bit of hndl.events in the kqueue backend. -/
def NN_POLLER_EVENT_OUT : Nat := 2

/-- 32-bit complement of NN_POLLER_EVENT_IN. -/
def NOT_EVENT_IN : Nat := 4294967294

/-- 32-bit complement of NN_POLLER_EVENT_OUT. -/
def NOT_EVENT_OUT : Nat := 4294967293

/-- Contents of a struct nn_poller_hndl in the kqueue backend. -/
structure KqHndl where
  fd : Int
  events : Nat
deriving DecidableEq

/-- One delivered struct kevent in the self.events buffer. -/
structure KqEntry where
  ident : Int
  filter : KFilter
  eof : Bool
  udata : Option Nat
deriving DecidableEq

/-- State of struct nn_poller for the kqueue backend. -/
structure KqState where
  kreg : List (Int × KFilter × Nat)
  buf : Nat → KqEntry
  nevents : Nat
  index : Nat
  heap : Nat → KqHndl
  kcalls : Nat

/-- nn_poller_init, kqueue backend: kqueue() may fail; ENFILE and EMFILE
surface as -EMFILE, everything else hits errno_assert. -/
def kq_poller_init (r : Except Nat Nat) : InitOut KqState :=
  match r with
  | .ok _ =>
      .ok { kreg := [], buf := fun _ => ⟨0, .read, false, none⟩, nevents := 0,
            index := 0, heap := fun _ => ⟨0, 0⟩, kcalls := 0 }
  | .error e => if e = ENFILE ∨ e = EMFILE then .emfile else .fatal

/-- nn_poller_add, kqueue backend: only initialises the handle, no kernel
call at all. -/
def kq_poller_add (s : KqState) (fd : Int) (h : Nat) : KqState :=
  { s with heap := upd s.heap h ⟨fd, 0⟩ }

/-- Scrub of the live suffix of the kqueue event buffer matching on the
ident alone (the remove loop). -/
def kqScrubFd (s : KqState) (fd : Int) : Nat → KqEntry :=
  fun j =>
    if s.index ≤ j ∧ j < s.nevents ∧ (s.buf j).ident = fd then
      { s.buf j with udata := none }
    else s.buf j

/-- Scrub of the live suffix of the kqueue event buffer matching on ident
and filter (the reset loops). -/
def kqScrubFdF (s : KqState) (fd : Int) (fl : KFilter) : Nat → KqEntry :=
  fun j =>
    if s.index ≤ j ∧ j < s.nevents ∧ (s.buf j).ident = fd ∧ (s.buf j).filter = fl then
      { s.buf j with udata := none }
    else s.buf j

/-- nn_poller_rm, kqueue backend: EV_DELETE for each filter whose interest
bit is set, then NULL the udata of every live buffer entry whose ident is
this file descriptor. -/
def kq_poller_rm (s : KqState) (h : Nat) : KqState :=
  let e := s.heap h
  let s1 :=
    if e.events &&& NN_POLLER_EVENT_IN ≠ 0 then
      { s with kreg := s.kreg.filter (fun r => ¬(r.1 = e.fd ∧ r.2.1 = .read)),
               kcalls := s.kcalls + 1 }
    else s
  let s2 :=
    if e.events &&& NN_POLLER_EVENT_OUT ≠ 0 then
      { s1 with kreg := s1.kreg.filter (fun r => ¬(r.1 = e.fd ∧ r.2.1 = .write)),
                kcalls := s1.kcalls + 1 }
    else s1
  { s2 with buf := kqScrubFd s2 e.fd }

/-- nn_poller_set_in, kqueue backend: guarded EV_ADD of the read filter;
the interest bit is set only when the kevent call succeeds, which the
model takes for granted. -/
def kq_poller_set_in (s : KqState) (h : Nat) : KqState :=
  let e := s.heap h
  if e.events &&& NN_POLLER_EVENT_IN = 0 then
    { s with kreg := s.kreg ++ [(e.fd, .read, h)],
             kcalls := s.kcalls + 1,
             heap := upd s.heap h ⟨e.fd, e.events ||| NN_POLLER_EVENT_IN⟩ }
  else s

/-- nn_poller_set_out, kqueue backend. -/
def kq_poller_set_out (s : KqState) (h : Nat) : KqState :=
  let e := s.heap h
  if e.events &&& NN_POLLER_EVENT_OUT = 0 then
    { s with kreg := s.kreg ++ [(e.fd, .write, h)],
             kcalls := s.kcalls + 1,
             heap := upd s.heap h ⟨e.fd, e.events ||| NN_POLLER_EVENT_OUT⟩ }
  else s

/-- nn_poller_reset_in, kqueue backend: guarded EV_DELETE of the read
filter, then an unconditional scrub that NULLs the udata of every live
read-filter entry for this file descriptor. -/
def kq_poller_reset_in (s : KqState) (h : Nat) : KqState :=
  let e := s.heap h
  let s1 :=
    if e.events &&& NN_POLLER_EVENT_IN ≠ 0 then
      { s with kreg := s.kreg.filter (fun r => ¬(r.1 = e.fd ∧ r.2.1 = .read)),
               kcalls := s.kcalls + 1,
               heap := upd s.heap h ⟨e.fd, e.events &&& NOT_EVENT_IN⟩ }
    else s
  { s1 with buf := kqScrubFdF s1 e.fd .read }

/-- nn_poller_reset_out, kqueue backend. -/
def kq_poller_reset_out (s : KqState) (h : Nat) : KqState :=
  let e := s.heap h
  let s1 :=
    if e.events &&& NN_POLLER_EVENT_OUT ≠ 0 then
      { s with kreg := s.kreg.filter (fun r => ¬(r.1 = e.fd ∧ r.2.1 = .write)),
               kcalls := s.kcalls + 1,
               heap := upd s.heap h ⟨e.fd, e.events &&& NOT_EVENT_OUT⟩ }
    else s
  { s1 with buf := kqScrubFdF s1 e.fd .write }

/-- Oracle for one kevent wait call: whether the call is interrupted by a
signal, and for each registered (fd, filter) whether it fires and with
which EV_EOF flag. -/
structure KqOracle where
  interrupted : Bool
  ready : Int → KFilter → Option Bool

/-- OS model of one successful kevent wait: one record per firing
registered filter, in registration order, truncated at
NN_POLLER_MAX_EVENTS. -/
def kqBatch (kreg : List (Int × KFilter × Nat)) (ready : Int → KFilter → Option Bool) :
    List KqEntry :=
  (kreg.filterMap (fun r =>
    match ready r.1 r.2.1 with
    | some eof => some ⟨r.1, r.2.1, eof, some r.2.2⟩
    | none => none)).take NN_POLLER_MAX_EVENTS

/-- OS model of the struct timespec the source builds from the timeout:
tv_sec = timeout / 1000 and tv_nsec = (timeout % 1000) * 1000000, passed
to kevent only when timeout is nonnegative, NULL otherwise.  C integer
division is rendered with Euclidean division, which agrees with it on the
nonnegative values that are the only ones ever dereferenced. -/
def kqWaitBlock (timeout : Int) : BlockSpec :=
  if 0 ≤ timeout then
    .boundedNs ((timeout.ediv 1000) * 1000000000 + (timeout.emod 1000) * 1000000)
  else .indefinite

/-- nn_poller_wait, kqueue backend, compiled without NN_IGNORE_EINTR when
cfg is false: clear nevents and index, then either surface -EINTR (cfg
false) or retry past the interruption (cfg true). -/
def kq_poller_wait (cfg : Bool) (s : KqState) (timeout : Int) (g : KqOracle) :
    Int × KqState :=
  let cleared := { s with nevents := 0, index := 0 }
  if g.interrupted ∧ cfg = false then (-4, cleared)
  else
    let b := kqBatch s.kreg g.ready
    (0, { cleared with nevents := b.length,
                       buf := fun j => b.getD j ⟨0, .read, false, none⟩ })

/-- The skip loop of nn_poller_event, kqueue backend: advance past entries
with a NULL udata. -/
def kqSkipGo : Nat → (Nat → KqEntry) → Nat → Nat → Nat
  | 0, _, _, i => i
  | f + 1, buf, nev, i =>
      if i < nev then (if (buf i).udata ≠ none then i else kqSkipGo f buf nev (i + 1))
      else i

def kqSkip (buf : Nat → KqEntry) (nev i : Nat) : Nat :=
  kqSkipGo (nev - i) buf nev i

/-- nn_poller_event, kqueue backend: skip NULL-udata entries; EV_EOF maps
to ERR regardless of the filter, otherwise the write filter maps to OUT
and the read filter to IN; the cursor always advances past the entry. -/
def kq_poller_event (s : KqState) : Option (NnEv × Nat) × KqState :=
  let i := kqSkip s.buf s.nevents s.index
  if i ≥ s.nevents then (none, { s with index := i })
  else
    let e := s.buf i
    let k := if e.eof then NnEv.ERR
             else if e.filter = .write then NnEv.OUT else NnEv.IN
    (some (k, e.udata.getD 0), { s with index := i + 1 })

/-- Caller-visible operations on a kqueue-backend poller. -/
inductive KqOp
  | add (fd : Int) (h : Nat)
  | rm (h : Nat)
  | setIn (h : Nat)
  | setOut (h : Nat)
  | resetIn (h : Nat)
  | resetOut (h : Nat)
  | wait (cfg : Bool) (t : Int) (g : KqOracle)
  | drain

def kqApply : KqOp → KqState → KqState
  | .add fd h, s => kq_poller_add s fd h
  | .rm h, s => kq_poller_rm s h
  | .setIn h, s => kq_poller_set_in s h
  | .setOut h, s => kq_poller_set_out s h
  | .resetIn h, s => kq_poller_reset_in s h
  | .resetOut h, s => kq_poller_reset_out s h
  | .wait cfg t g, s => (kq_poller_wait cfg s t g).2
  | .drain, s => (kq_poller_event s).2

/-- Run a list of operations on the kqueue backend, collecting every
event handed to the caller. -/
def kqRun : KqState → List KqOp → List (NnEv × Nat)
  | _, [] => []
  | s, op :: rest =>
    match op with
    | .drain =>
      match kq_poller_event s with
      | (some p, s2) => p :: kqRun s2 rest
      | (none, s2) => kqRun s2 rest
    | _ => kqRun (kqApply op s) rest

/-- True for every kqueue operation except wait. -/
def kqNonWait : KqOp → Bool
  | .wait _ _ _ => false
  | _ => true

/-! ## Poll-array backend (NN_USE_POLL)

The registration set is explicit: a pollset array of struct pollfd and a
parallel hndls array of struct nn_hndls_item with the handle back
reference and the free-list links.  The int fields prev, next and removed
use -1 as a sentinel, modelled as none.  A struct nn_poller_hndl holds
only the slot index, kept in the heap map.  Both arrays are modelled as
total functions; slots at or beyond size are garbage the same way
unwritten array cells are. -/

/-- POLLIN bit (0x1). -/
def POLLIN : Nat := 1

/-- POLLOUT bit (0x4). -/
def POLLOUT : Nat := 4

/-- POLLERR (0x8), POLLHUP (0x10), POLLNVAL (0x20): conditions poll
reports in revents regardless of the requested events. -/
def POLLERRBITS : Nat := 56

/-- 32-bit complement of POLLIN. -/
def NOT_POLLIN : Nat := 4294967294

/-- 32-bit complement of POLLOUT. -/
def NOT_POLLOUT : Nat := 4294967291

/-- NN_POLLER_GRANULARITY, the initial capacity. -/
def NN_POLLER_GRANULARITY : Nat := 16

theorem land_const (m a b c : Nat) (h : a &&& b = c) :
    m &&& a &&& b = m &&& c := by
  rw [Nat.land_assoc, h]

/-- One struct pollfd. -/
structure PollFd where
  fd : Int
  events : Nat
  revents : Nat
deriving DecidableEq

/-- One struct nn_hndls_item: handle back reference and free-list links. -/
structure HItem where
  hndl : Option Nat
  prev : Option Nat
  next : Option Nat
deriving DecidableEq

/-- State of struct nn_poller for the poll backend; heap carries the index
field of each struct nn_poller_hndl. -/
structure PollState where
  pollset : Nat → PollFd
  hndls : Nat → HItem
  size : Nat
  capacity : Nat
  index : Nat
  removed : Option Nat
  heap : Nat → Nat

/-- nn_poller_init, poll backend: the two nn_alloc calls either both
succeed (alloc_assert aborts otherwise, modelled fatal); there is no
kernel resource and no resource-exhaustion return. -/
def pl_poller_init (allocOk : Bool) : InitOut PollState :=
  if allocOk then
    .ok { pollset := fun _ => ⟨0, 0, 0⟩, hndls := fun _ => ⟨none, none, none⟩,
          size := 0, capacity := NN_POLLER_GRANULARITY, index := 0,
          removed := none, heap := fun _ => 0 }
  else .fatal

/-- nn_poller_add, poll backend: double the capacity when full (realloc
keeps contents), append the descriptor with empty events and revents, set
the handle index, store the back reference. -/
def pl_poller_add (s : PollState) (fd : Int) (h : Nat) : PollState :=
  let cap := if s.size ≥ s.capacity then s.capacity * 2 else s.capacity
  { s with capacity := cap,
           pollset := upd s.pollset s.size ⟨fd, 0, 0⟩,
           heap := upd s.heap h s.size,
           hndls := upd s.hndls s.size { s.hndls s.size with hndl := some h },
           size := s.size + 1 }

/-- nn_poller_rm, poll backend: zero revents of the slot, then thread the
slot onto the removed list: the old head (if any) gets prev pointing at
the slot, the slot gets hndl NULL, prev -1, next the old head, and
removed points at the slot. -/
def pl_poller_rm (s : PollState) (h : Nat) : PollState :=
  let i := s.heap h
  let ps := upd s.pollset i { s.pollset i with revents := 0 }
  let h1 :=
    match s.removed with
    | some r => upd s.hndls r { s.hndls r with prev := some i }
    | none => s.hndls
  let h2 := upd h1 i ⟨none, none, s.removed⟩
  { s with pollset := ps, hndls := h2, removed := some i }

/-- nn_poller_set_in, poll backend: or POLLIN into events of the slot. -/
def pl_poller_set_in (s : PollState) (h : Nat) : PollState :=
  let i := s.heap h
  let pf := s.pollset i
  { s with pollset := upd s.pollset i { pf with events := pf.events ||| POLLIN } }

/-- nn_poller_reset_in, poll backend: clear POLLIN from both events and
revents of the slot. -/
def pl_poller_reset_in (s : PollState) (h : Nat) : PollState :=
  let i := s.heap h
  let pf := s.pollset i
  let pf2 := { pf with events := pf.events &&& NOT_POLLIN,
                       revents := pf.revents &&& NOT_POLLIN }
  { s with pollset := upd s.pollset i pf2 }

/-- nn_poller_set_out, poll backend. -/
def pl_poller_set_out (s : PollState) (h : Nat) : PollState :=
  let i := s.heap h
  let pf := s.pollset i
  { s with pollset := upd s.pollset i { pf with events := pf.events ||| POLLOUT } }

/-- nn_poller_reset_out, poll backend. -/
def pl_poller_reset_out (s : PollState) (h : Nat) : PollState :=
  let i := s.heap h
  let pf := s.pollset i
  let pf2 := { pf with events := pf.events &&& NOT_POLLOUT,
                       revents := pf.revents &&& NOT_POLLOUT }
  { s with pollset := upd s.pollset i pf2 }

/-- The pollset writes of one iteration of the removed-fds loop: unless
the popped slot i is the last one, the last struct pollfd is moved into
slot i. -/
def plStepPS (s : PollState) (i : Nat) : Nat → PollFd :=
  if i ≠ s.size - 1 then upd s.pollset i (s.pollset (s.size - 1))
  else s.pollset

/-- First hndls write of the move branch: when the popped head has a
successor on the removed list, that successor gets prev reset to the
sentinel. -/
def plStepHA (s : PollState) (i : Nat) : Nat → HItem :=
  if i ≠ s.size - 1 then
    match (s.hndls i).next with
    | some nx => upd s.hndls nx { s.hndls nx with prev := none }
    | none => s.hndls
  else s.hndls

/-- Second hndls write of the move branch: the last struct nn_hndls_item
is copied into slot i. -/
def plStepHB (s : PollState) (i : Nat) : Nat → HItem :=
  if i ≠ s.size - 1 then upd (plStepHA s i) i (plStepHA s i (s.size - 1))
  else plStepHA s i

/-- Index fixup of the move branch: a live moved handle gets its stored
index updated to i. -/
def plStepHeap (s : PollState) (i : Nat) : Nat → Nat :=
  if i ≠ s.size - 1 then
    match (plStepHB s i i).hndl with
    | some g => upd s.heap g i
    | none => s.heap
  else s.heap

/-- First free-list fixup: when slot i now holds a removed item with a
predecessor link, the predecessor gets next pointed at i. -/
def plStepHC (s : PollState) (i : Nat) : Nat → HItem :=
  if (plStepHB s i i).hndl = none then
    match (plStepHB s i i).prev with
    | some p => upd (plStepHB s i) p { plStepHB s i p with next := some i }
    | none => plStepHB s i
  else plStepHB s i

/-- Second free-list fixup: the successor link of the item now in slot i
gets prev pointed at i. -/
def plStepHD (s : PollState) (i : Nat) : Nat → HItem :=
  if (plStepHB s i i).hndl = none then
    match (plStepHC s i i).next with
    | some nx => upd (plStepHC s i) nx { plStepHC s i nx with prev := some i }
    | none => plStepHC s i
  else plStepHC s i

/-- The removed-list head after one iteration: normally the next link of
the popped head, redirected to i when the moved item was itself the head
of the remaining removed list. -/
def plStepRem (s : PollState) (i : Nat) : Option Nat :=
  if (plStepHB s i i).hndl = none ∧ (s.hndls i).next = some (s.size - 1) then
    some i
  else (s.hndls i).next

/-- One iteration of the removed-fds loop at the top of nn_poller_wait,
translated write for write, with the head i of the removed list already
popped into the argument: shrink size, and unless i was the last slot,
move the last slot into i, fixing the moved handle index (live slot) or
the free-list links (removed slot). -/
def plCompactStep (s : PollState) (i : Nat) : PollState :=
  { s with pollset := plStepPS s i, hndls := plStepHD s i,
           heap := plStepHeap s i, size := s.size - 1,
           removed := plStepRem s i }

/-- The removed-fds while loop: pop heads until the list is empty. -/
def plCompactGo : Nat → PollState → PollState
  | 0, s => s
  | fuel + 1, s =>
    match s.removed with
    | none => s
    | some i => plCompactGo fuel (plCompactStep s i)

/-- Oracle for one poll call. -/
structure PlOracle where
  interrupted : Bool
  ready : Int → Nat

/-- OS model of how poll interprets the timeout argument the source
passes through verbatim. -/
def plWaitBlock (timeout : Int) : BlockSpec :=
  if timeout < 0 then .indefinite else .boundedNs (timeout * 1000000)

/-- nn_poller_wait, poll backend, compiled without NN_IGNORE_EINTR when
cfg is false: first drain the removed list (the only place physical
compaction happens), reset the cursor, then poll; an interrupted call
either surfaces -EINTR or is retried.  On success every slot below size
gets revents equal to the ready conditions intersected with its events
mask extended by the unmaskable POLLERR, POLLHUP and POLLNVAL bits. -/
def pl_poller_wait (cfg : Bool) (s : PollState) (timeout : Int) (g : PlOracle) :
    Int × PollState :=
  let sc := { plCompactGo s.size s with index := 0 }
  if g.interrupted ∧ cfg = false then (-4, sc)
  else
    (0, { sc with pollset := fun j =>
        if j < sc.size then
          { sc.pollset j with
            revents := g.ready (sc.pollset j).fd &&&
                         ((sc.pollset j).events ||| POLLERRBITS) }
        else sc.pollset j })

/-- The skip loop of nn_poller_event, poll backend: advance past slots
with zero revents (which includes every slot marked removed). -/
def plSkipGo : Nat → (Nat → PollFd) → Nat → Nat → Nat
  | 0, _, _, i => i
  | f + 1, ps, size, i =>
      if i < size then (if (ps i).revents ≠ 0 then i else plSkipGo f ps size (i + 1))
      else i

def plSkip (ps : Nat → PollFd) (size i : Nat) : Nat :=
  plSkipGo (size - i) ps size i

/-- nn_poller_event, poll backend: same delivery priority as the epoll
backend, reading the handle from the parallel hndls array. -/
def pl_poller_event (s : PollState) : Option (NnEv × Nat) × PollState :=
  let i := plSkip s.pollset s.size s.index
  if i ≥ s.size then (none, { s with index := i })
  else
    let pf := s.pollset i
    let hd := (s.hndls i).hndl.getD 0
    if pf.revents &&& POLLIN ≠ 0 then
      (some (.IN, hd),
       { s with index := i,
                pollset := upd s.pollset i
                  { pf with revents := pf.revents &&& NOT_POLLIN } })
    else if pf.revents &&& POLLOUT ≠ 0 then
      (some (.OUT, hd),
       { s with index := i,
                pollset := upd s.pollset i
                  { pf with revents := pf.revents &&& NOT_POLLOUT } })
    else
      (some (.ERR, hd), { s with index := i + 1 })

/-- Caller-visible operations on a poll-backend poller. -/
inductive PlOp
  | add (fd : Int) (h : Nat)
  | rm (h : Nat)
  | setIn (h : Nat)
  | setOut (h : Nat)
  | resetIn (h : Nat)
  | resetOut (h : Nat)
  | wait (cfg : Bool) (t : Int) (g : PlOracle)
  | drain

def plApply : PlOp → PollState → PollState
  | .add fd h, s => pl_poller_add s fd h
  | .rm h, s => pl_poller_rm s h
  | .setIn h, s => pl_poller_set_in s h
  | .setOut h, s => pl_poller_set_out s h
  | .resetIn h, s => pl_poller_reset_in s h
  | .resetOut h, s => pl_poller_reset_out s h
  | .wait cfg t g, s => (pl_poller_wait cfg s t g).2
  | .drain, s => (pl_poller_event s).2

/-- Run a list of operations on the poll backend, collecting every event
handed to the caller. -/
def plRun : PollState → List PlOp → List (NnEv × Nat)
  | _, [] => []
  | s, op :: rest =>
    match op with
    | .drain =>
      match pl_poller_event s with
      | (some p, s2) => p :: plRun s2 rest
      | (none, s2) => plRun s2 rest
    | _ => plRun (plApply op s) rest

/-- True for every poll-backend operation except wait. -/
def plNonWait : PlOp → Bool
  | .wait _ _ _ => false
  | _ => true

/-! ## Lifecycle resource view for nn_poller_term

nn_poller_term calls nn_closefd on the owned queue descriptor (epoll and
kqueue backends) or nn_free on the two backend arrays (poll backend).
Those helpers live outside the given sources, so they are modelled from
the spec.  A none outcome is a fatal abort or undefined behaviour. -/

/-- Modelled from the spec: nn_closefd (utils/closefd.c, not among the
given sources) closes a descriptor and treats failure as fatal, matching
section 7 of the spec where any unexpected kernel-call failure aborts;
closing an already-closed descriptor fails with EBADF.  The Bool is
whether the descriptor is open. -/
def nn_closefd (fdOpen : Bool) : Option Bool :=
  if fdOpen then some false else none

/-- Modelled from the spec: nn_free (utils/alloc.c, not among the given
sources) releases a heap allocation; releasing it twice is undefined
behaviour, modelled as the none outcome.  The Bool is whether the
allocation is live. -/
def nn_free (alive : Bool) : Option Bool :=
  if alive then some false else none

/-- Resource view of an epoll or kqueue poller context: the owned queue
descriptor and the registered caller-owned descriptors. -/
structure QRes where
  qOpen : Bool
  regFds : List Int
deriving DecidableEq

/-- nn_poller_term, epoll backend: close the owned epoll descriptor;
registered descriptors are not touched. -/
def ep_poller_term (s : QRes) : Option QRes :=
  match nn_closefd s.qOpen with
  | some b => some { s with qOpen := b }
  | none => none

/-- nn_poller_term, kqueue backend: close the owned kqueue descriptor. -/
def kq_poller_term (s : QRes) : Option QRes :=
  match nn_closefd s.qOpen with
  | some b => some { s with qOpen := b }
  | none => none

/-- Resource view of a poll-backend context: liveness of the two owned
arrays and the registered caller-owned descriptors. -/
structure PlRes where
  pollsetAlive : Bool
  hndlsAlive : Bool
  regFds : List Int
deriving DecidableEq

/-- nn_poller_term, poll backend: nn_free the pollset array, then the
hndls array. -/
def pl_poller_term (s : PlRes) : Option PlRes :=
  match nn_free s.pollsetAlive with
  | some a =>
    match nn_free s.hndlsAlive with
    | some b => some { s with pollsetAlive := a, hndlsAlive := b }
    | none => none
  | none => none

/-! ## Neutralization machinery, epoll backend -/

/-- No live buffer entry of the epoll backend still carries events for
handle h. -/
def epNoH (h : Nat) (s : EpState) : Prop :=
  ∀ j, s.index ≤ j → j < s.nevents → (s.buf j).ptr = h → (s.buf j).events = 0

theorem epSkipGo_ge (f : Nat) (buf : Nat → EpEntry) (nev : Nat) :
    ∀ i, i ≤ epSkipGo f buf nev i := by
  induction f with
  | zero => intro i; simp [epSkipGo]
  | succ f ih =>
    intro i
    simp only [epSkipGo]
    split
    · split
      · exact Nat.le_refl i
      · exact Nat.le_trans (Nat.le_succ i) (ih (i + 1))
    · exact Nat.le_refl i

theorem epSkipGo_spec (f : Nat) (buf : Nat → EpEntry) (nev : Nat) :
    ∀ i, nev - i ≤ f →
      nev ≤ epSkipGo f buf nev i ∨
      (epSkipGo f buf nev i < nev ∧ (buf (epSkipGo f buf nev i)).events ≠ 0) := by
  induction f with
  | zero =>
    intro i hf
    left
    simp only [epSkipGo]
    omega
  | succ f ih =>
    intro i hf
    simp only [epSkipGo]
    split
    · split
      · right
        exact ⟨by assumption, by assumption⟩
      · exact ih (i + 1) (by omega)
    · left
      omega

theorem epSkip_ge (buf : Nat → EpEntry) (nev i : Nat) : i ≤ epSkip buf nev i :=
  epSkipGo_ge (nev - i) buf nev i

theorem epSkip_spec (buf : Nat → EpEntry) (nev i : Nat) :
    nev ≤ epSkip buf nev i ∨
    (epSkip buf nev i < nev ∧ (buf (epSkip buf nev i)).events ≠ 0) :=
  epSkipGo_spec (nev - i) buf nev i (Nat.le_refl (nev - i))

theorem ep_event_char (s : EpState) (i : Nat)
    (hi : i = epSkip s.buf s.nevents s.index) :
    (s.nevents ≤ i ∧ ep_poller_event s = (none, { s with index := i })) ∨
    (i < s.nevents ∧ (s.buf i).events ≠ 0 ∧
      (((s.buf i).events &&& EPOLLIN ≠ 0 ∧
        ep_poller_event s = (some (.IN, (s.buf i).ptr),
          { s with index := i,
                   buf := upd s.buf i
                     ⟨(s.buf i).events &&& NOT_EPOLLIN, (s.buf i).ptr⟩ })) ∨
       ((s.buf i).events &&& EPOLLIN = 0 ∧ (s.buf i).events &&& EPOLLOUT ≠ 0 ∧
        ep_poller_event s = (some (.OUT, (s.buf i).ptr),
          { s with index := i,
                   buf := upd s.buf i
                     ⟨(s.buf i).events &&& NOT_EPOLLOUT, (s.buf i).ptr⟩ })) ∨
       ((s.buf i).events &&& EPOLLIN = 0 ∧ (s.buf i).events &&& EPOLLOUT = 0 ∧
        ep_poller_event s = (some (.ERR, (s.buf i).ptr),
          { s with index := i + 1 })))) := by
  have hspec := epSkip_spec s.buf s.nevents s.index
  rw [← hi] at hspec
  unfold ep_poller_event
  rw [← hi]
  rcases hspec with hdone | ⟨hlt, hnz⟩
  · left
    exact ⟨hdone, by rw [if_pos hdone]⟩
  · right
    refine ⟨hlt, hnz, ?_⟩
    rw [if_neg (by omega)]
    by_cases h1 : (s.buf i).events &&& EPOLLIN ≠ 0
    · left
      exact ⟨h1, by simp only [if_pos h1]⟩
    · push_neg at h1
      by_cases h2 : (s.buf i).events &&& EPOLLOUT ≠ 0
      · right; left
        refine ⟨h1, h2, ?_⟩
        simp only [h1, if_pos h2]
        simp
      · push_neg at h2
        right; right
        refine ⟨h1, h2, ?_⟩
        simp only [h1, h2]
        simp


theorem ep_event_ne (h : Nat) (s : EpState) (hno : epNoH h s) (p : NnEv × Nat)
    (s2 : EpState) (he : ep_poller_event s = (some p, s2)) : p.2 ≠ h := by
  have hge := epSkip_ge s.buf s.nevents s.index
  rcases ep_event_char s _ rfl with ⟨_, hc⟩ | ⟨hlt, hnz, hcase⟩
  · rw [hc] at he
    simp at he
  · intro hph
    have hptr : (s.buf (epSkip s.buf s.nevents s.index)).ptr = h := by
      rcases hcase with ⟨_, hc⟩ | ⟨_, _, hc⟩ | ⟨_, _, hc⟩ <;>
        (rw [hc] at he
         have h1 := (Prod.mk.injEq _ _ _ _).mp he
         have hp := (Option.some.injEq _ _).mp h1.1
         rw [← hp] at hph
         exact hph)
    exact hnz (hno _ hge hlt hptr)

theorem ep_event_preserves (h : Nat) (s : EpState) (hno : epNoH h s) :
    epNoH h (ep_poller_event s).2 := by
  have hge := epSkip_ge s.buf s.nevents s.index
  rcases ep_event_char s _ rfl with ⟨_, hc⟩ | ⟨hlt, hnz, hcase⟩
  · rw [hc]
    intro j hj1 hj2 hj3
    dsimp only at hj1 hj2 hj3 ⊢
    exact hno j (by omega) hj2 hj3
  · have hih : (s.buf (epSkip s.buf s.nevents s.index)).ptr ≠ h := by
      intro hph
      exact hnz (hno _ hge hlt hph)
    rcases hcase with ⟨_, hc⟩ | ⟨_, _, hc⟩ | ⟨_, _, hc⟩ <;> rw [hc] <;>
      (intro j hj1 hj2 hj3
       dsimp only at hj1 hj2 hj3 ⊢)
    · by_cases hji : j = epSkip s.buf s.nevents s.index
      · subst hji
        rw [upd_same] at hj3
        exact absurd hj3 hih
      · rw [upd_other _ _ _ _ hji] at hj3 ⊢
        exact hno j (by omega) hj2 hj3
    · by_cases hji : j = epSkip s.buf s.nevents s.index
      · subst hji
        rw [upd_same] at hj3
        exact absurd hj3 hih
      · rw [upd_other _ _ _ _ hji] at hj3 ⊢
        exact hno j (by omega) hj2 hj3
    · exact hno j (by omega) hj2 hj3

theorem ep_rm_establishes (h : Nat) (s : EpState) :
    epNoH h (ep_poller_rm s h) := by
  intro j hj1 hj2 hj3
  simp only [ep_poller_rm, epScrub] at hj1 hj2 hj3 ⊢
  by_cases hc : s.index ≤ j ∧ j < s.nevents ∧ (s.buf j).ptr = h
  · rw [if_pos hc]
  · rw [if_neg hc] at hj3
    exact absurd ⟨hj1, hj2, hj3⟩ hc

theorem ep_rm_preserves (h g : Nat) (s : EpState) (hno : epNoH h s) :
    epNoH h (ep_poller_rm s g) := by
  intro j hj1 hj2 hj3
  simp only [ep_poller_rm, epScrub] at hj1 hj2 hj3 ⊢
  by_cases hc : s.index ≤ j ∧ j < s.nevents ∧ (s.buf j).ptr = g
  · rw [if_pos hc]
  · rw [if_neg hc] at hj3 ⊢
    exact hno j hj1 hj2 hj3

theorem ep_set_in_preserves (h g : Nat) (s : EpState) (hno : epNoH h s) :
    epNoH h (ep_poller_set_in s g) := by
  simp only [ep_poller_set_in]
  split
  · exact hno
  · exact hno

theorem ep_set_out_preserves (h g : Nat) (s : EpState) (hno : epNoH h s) :
    epNoH h (ep_poller_set_out s g) := by
  simp only [ep_poller_set_out]
  split
  · exact hno
  · exact hno

theorem ep_reset_in_preserves (h g : Nat) (s : EpState) (hno : epNoH h s) :
    epNoH h (ep_poller_reset_in s g) := by
  simp only [ep_poller_reset_in]
  split
  · exact hno
  · intro j hj1 hj2 hj3
    dsimp only at hj1 hj2 hj3 ⊢
    simp only [epScrub] at hj3 ⊢
    by_cases hc : s.index ≤ j ∧ j < s.nevents ∧ (s.buf j).ptr = g
    · rw [if_pos hc] at hj3 ⊢
      dsimp only at hj3 ⊢
      rw [hno j hj1 hj2 hj3, Nat.zero_and]
    · rw [if_neg hc] at hj3 ⊢
      exact hno j hj1 hj2 hj3

theorem ep_reset_out_preserves (h g : Nat) (s : EpState) (hno : epNoH h s) :
    epNoH h (ep_poller_reset_out s g) := by
  simp only [ep_poller_reset_out]
  split
  · exact hno
  · intro j hj1 hj2 hj3
    dsimp only at hj1 hj2 hj3 ⊢
    simp only [epScrub] at hj3 ⊢
    by_cases hc : s.index ≤ j ∧ j < s.nevents ∧ (s.buf j).ptr = g
    · rw [if_pos hc] at hj3 ⊢
      dsimp only at hj3 ⊢
      rw [hno j hj1 hj2 hj3, Nat.zero_and]
    · rw [if_neg hc] at hj3 ⊢
      exact hno j hj1 hj2 hj3

theorem ep_add_preserves (h g : Nat) (fd : Int) (s : EpState) (hno : epNoH h s) :
    epNoH h (ep_poller_add s fd g) := hno

theorem ep_apply_preserves (h : Nat) (op : EpOp) (s : EpState)
    (hop : epNonWait op = true) (hno : epNoH h s) : epNoH h (epApply op s) := by
  cases op with
  | add fd g => exact ep_add_preserves h g fd s hno
  | rm g => exact ep_rm_preserves h g s hno
  | setIn g => exact ep_set_in_preserves h g s hno
  | setOut g => exact ep_set_out_preserves h g s hno
  | resetIn g => exact ep_reset_in_preserves h g s hno
  | resetOut g => exact ep_reset_out_preserves h g s hno
  | wait t g => simp [epNonWait] at hop
  | drain => exact ep_event_preserves h s hno

theorem ep_run_avoids (h : Nat) (ops : List EpOp) :
    ∀ s : EpState, (∀ op ∈ ops, epNonWait op = true) → epNoH h s →
      ∀ q ∈ epRun s ops, q.2 ≠ h := by
  induction ops with
  | nil => intro s _ _ q hq; simp [epRun] at hq
  | cons op rest ih =>
    intro s hops hno q hq
    have hop : epNonWait op = true := hops op (List.mem_cons_self op rest)
    have hrest : ∀ o ∈ rest, epNonWait o = true :=
      fun o ho => hops o (List.mem_cons_of_mem op ho)
    cases op with
    | drain =>
      rcases he : ep_poller_event s with ⟨p?, s2⟩
      cases p? with
      | some p =>
        simp only [epRun, he, List.mem_cons] at hq
        rcases hq with hq | hq
        · subst hq
          exact ep_event_ne h s hno q s2 he
        · have hs2 : epNoH h s2 := by
            have := ep_event_preserves h s hno
            rw [he] at this
            exact this
          exact ih s2 hrest hs2 q hq
      | none =>
        simp only [epRun, he] at hq
        have hs2 : epNoH h s2 := by
          have := ep_event_preserves h s hno
          rw [he] at this
          exact this
        exact ih s2 hrest hs2 q hq
    | add fd g =>
      simp only [epRun] at hq
      exact ih _ hrest (ep_apply_preserves h _ s hop hno) q hq
    | rm g =>
      simp only [epRun] at hq
      exact ih _ hrest (ep_apply_preserves h _ s hop hno) q hq
    | setIn g =>
      simp only [epRun] at hq
      exact ih _ hrest (ep_apply_preserves h _ s hop hno) q hq
    | setOut g =>
      simp only [epRun] at hq
      exact ih _ hrest (ep_apply_preserves h _ s hop hno) q hq
    | resetIn g =>
      simp only [epRun] at hq
      exact ih _ hrest (ep_apply_preserves h _ s hop hno) q hq
    | resetOut g =>
      simp only [epRun] at hq
      exact ih _ hrest (ep_apply_preserves h _ s hop hno) q hq
    | wait t g =>
      simp [epNonWait] at hop

/-! ## Neutralization machinery, kqueue backend -/

/-- No live buffer entry of the kqueue backend still references handle h
through udata. -/
def kqNoH (h : Nat) (s : KqState) : Prop :=
  ∀ j, s.index ≤ j → j < s.nevents → (s.buf j).udata ≠ some h

theorem kqSkipGo_ge (f : Nat) (buf : Nat → KqEntry) (nev : Nat) :
    ∀ i, i ≤ kqSkipGo f buf nev i := by
  induction f with
  | zero => intro i; simp [kqSkipGo]
  | succ f ih =>
    intro i
    simp only [kqSkipGo]
    split
    · split
      · exact Nat.le_refl i
      · exact Nat.le_trans (Nat.le_succ i) (ih (i + 1))
    · exact Nat.le_refl i

theorem kqSkipGo_spec (f : Nat) (buf : Nat → KqEntry) (nev : Nat) :
    ∀ i, nev - i ≤ f →
      nev ≤ kqSkipGo f buf nev i ∨
      (kqSkipGo f buf nev i < nev ∧ (buf (kqSkipGo f buf nev i)).udata ≠ none) := by
  induction f with
  | zero =>
    intro i hf
    left
    simp only [kqSkipGo]
    omega
  | succ f ih =>
    intro i hf
    simp only [kqSkipGo]
    split
    · split
      · right
        exact ⟨by assumption, by assumption⟩
      · exact ih (i + 1) (by omega)
    · left
      omega

theorem kqSkip_ge (buf : Nat → KqEntry) (nev i : Nat) : i ≤ kqSkip buf nev i :=
  kqSkipGo_ge (nev - i) buf nev i

theorem kqSkip_spec (buf : Nat → KqEntry) (nev i : Nat) :
    nev ≤ kqSkip buf nev i ∨
    (kqSkip buf nev i < nev ∧ (buf (kqSkip buf nev i)).udata ≠ none) :=
  kqSkipGo_spec (nev - i) buf nev i (Nat.le_refl (nev - i))

theorem kq_event_char (s : KqState) (i : Nat)
    (hi : i = kqSkip s.buf s.nevents s.index) :
    (s.nevents ≤ i ∧ kq_poller_event s = (none, { s with index := i })) ∨
    (i < s.nevents ∧ (s.buf i).udata ≠ none ∧
      kq_poller_event s =
        (some ((if (s.buf i).eof then NnEv.ERR
                else if (s.buf i).filter = KFilter.write then NnEv.OUT
                else NnEv.IN),
               (s.buf i).udata.getD 0),
         { s with index := i + 1 })) := by
  have hspec := kqSkip_spec s.buf s.nevents s.index
  rw [← hi] at hspec
  unfold kq_poller_event
  rw [← hi]
  rcases hspec with hdone | ⟨hlt, hnz⟩
  · left
    exact ⟨hdone, by rw [if_pos hdone]⟩
  · right
    exact ⟨hlt, hnz, by rw [if_neg (by omega)]⟩

theorem kq_event_ne (h : Nat) (s : KqState) (hno : kqNoH h s) (p : NnEv × Nat)
    (s2 : KqState) (he : kq_poller_event s = (some p, s2)) : p.2 ≠ h := by
  have hge := kqSkip_ge s.buf s.nevents s.index
  rcases kq_event_char s _ rfl with ⟨_, hc⟩ | ⟨hlt, hnz, hc⟩
  · rw [hc] at he
    simp at he
  · rw [hc] at he
    have h1 := (Prod.mk.injEq _ _ _ _).mp he
    have hp := (Option.some.injEq _ _).mp h1.1
    have hu := hno _ hge hlt
    rcases hud : (s.buf (kqSkip s.buf s.nevents s.index)).udata with _ | u
    · exact absurd hud hnz
    · rw [← hp]
      rw [hud] at hu
      simp only [hud, Option.getD_some]
      intro hcontra
      exact hu (by rw [hcontra])

theorem kq_event_preserves (h : Nat) (s : KqState) (hno : kqNoH h s) :
    kqNoH h (kq_poller_event s).2 := by
  have hge := kqSkip_ge s.buf s.nevents s.index
  rcases kq_event_char s _ rfl with ⟨_, hc⟩ | ⟨hlt, hnz, hc⟩ <;> rw [hc] <;>
    (intro j hj1 hj2 hj3
     dsimp only at hj1 hj2 hj3 ⊢) <;>
    exact hno j (by omega) hj2 hj3

/-- Field characterization of kq_poller_rm: the kernel bookkeeping leaves
the event buffer geometry alone, and the scrub NULLs the udata of live
matching entries. -/
theorem kq_rm_fields (s : KqState) (h : Nat) :
    (kq_poller_rm s h).index = s.index ∧
    (kq_poller_rm s h).nevents = s.nevents ∧
    ∀ j, (kq_poller_rm s h).buf j =
      (if s.index ≤ j ∧ j < s.nevents ∧ (s.buf j).ident = (s.heap h).fd
       then { s.buf j with udata := none } else s.buf j) := by
  simp only [kq_poller_rm]
  split <;> split <;> simp [kqScrubFd]

theorem kq_reset_in_fields (s : KqState) (h : Nat) :
    (kq_poller_reset_in s h).index = s.index ∧
    (kq_poller_reset_in s h).nevents = s.nevents ∧
    ∀ j, (kq_poller_reset_in s h).buf j =
      (if s.index ≤ j ∧ j < s.nevents ∧ (s.buf j).ident = (s.heap h).fd ∧
          (s.buf j).filter = KFilter.read
       then { s.buf j with udata := none } else s.buf j) := by
  simp only [kq_poller_reset_in]
  split <;> simp [kqScrubFdF]

theorem kq_reset_out_fields (s : KqState) (h : Nat) :
    (kq_poller_reset_out s h).index = s.index ∧
    (kq_poller_reset_out s h).nevents = s.nevents ∧
    ∀ j, (kq_poller_reset_out s h).buf j =
      (if s.index ≤ j ∧ j < s.nevents ∧ (s.buf j).ident = (s.heap h).fd ∧
          (s.buf j).filter = KFilter.write
       then { s.buf j with udata := none } else s.buf j) := by
  simp only [kq_poller_reset_out]
  split <;> simp [kqScrubFdF]

theorem kq_rm_establishes (h : Nat) (s : KqState)
    (hfd : ∀ j, s.index ≤ j → j < s.nevents → (s.buf j).udata = some h →
             (s.buf j).ident = (s.heap h).fd) :
    kqNoH h (kq_poller_rm s h) := by
  obtain ⟨hidx, hnev, hbuf⟩ := kq_rm_fields s h
  intro j hj1 hj2
  rw [hidx] at hj1
  rw [hnev] at hj2
  rw [hbuf j]
  by_cases hc : s.index ≤ j ∧ j < s.nevents ∧ (s.buf j).ident = (s.heap h).fd
  · rw [if_pos hc]
    simp
  · rw [if_neg hc]
    intro hu
    exact hc ⟨hj1, hj2, hfd j hj1 hj2 hu⟩

theorem kq_rm_preserves (h g : Nat) (s : KqState) (hno : kqNoH h s) :
    kqNoH h (kq_poller_rm s g) := by
  obtain ⟨hidx, hnev, hbuf⟩ := kq_rm_fields s g
  intro j hj1 hj2
  rw [hidx] at hj1
  rw [hnev] at hj2
  rw [hbuf j]
  split
  · simp
  · exact hno j hj1 hj2

theorem kq_reset_in_preserves (h g : Nat) (s : KqState) (hno : kqNoH h s) :
    kqNoH h (kq_poller_reset_in s g) := by
  obtain ⟨hidx, hnev, hbuf⟩ := kq_reset_in_fields s g
  intro j hj1 hj2
  rw [hidx] at hj1
  rw [hnev] at hj2
  rw [hbuf j]
  split
  · simp
  · exact hno j hj1 hj2

theorem kq_reset_out_preserves (h g : Nat) (s : KqState) (hno : kqNoH h s) :
    kqNoH h (kq_poller_reset_out s g) := by
  obtain ⟨hidx, hnev, hbuf⟩ := kq_reset_out_fields s g
  intro j hj1 hj2
  rw [hidx] at hj1
  rw [hnev] at hj2
  rw [hbuf j]
  split
  · simp
  · exact hno j hj1 hj2

theorem kq_set_in_preserves (h g : Nat) (s : KqState) (hno : kqNoH h s) :
    kqNoH h (kq_poller_set_in s g) := by
  simp only [kq_poller_set_in]
  split
  · exact hno
  · exact hno

theorem kq_set_out_preserves (h g : Nat) (s : KqState) (hno : kqNoH h s) :
    kqNoH h (kq_poller_set_out s g) := by
  simp only [kq_poller_set_out]
  split
  · exact hno
  · exact hno

theorem kq_add_preserves (h g : Nat) (fd : Int) (s : KqState) (hno : kqNoH h s) :
    kqNoH h (kq_poller_add s fd g) := hno

theorem kq_apply_preserves (h : Nat) (op : KqOp) (s : KqState)
    (hop : kqNonWait op = true) (hno : kqNoH h s) : kqNoH h (kqApply op s) := by
  cases op with
  | add fd g => exact kq_add_preserves h g fd s hno
  | rm g => exact kq_rm_preserves h g s hno
  | setIn g => exact kq_set_in_preserves h g s hno
  | setOut g => exact kq_set_out_preserves h g s hno
  | resetIn g => exact kq_reset_in_preserves h g s hno
  | resetOut g => exact kq_reset_out_preserves h g s hno
  | wait cfg t g => simp [kqNonWait] at hop
  | drain => exact kq_event_preserves h s hno

theorem kq_run_avoids (h : Nat) (ops : List KqOp) :
    ∀ s : KqState, (∀ op ∈ ops, kqNonWait op = true) → kqNoH h s →
      ∀ q ∈ kqRun s ops, q.2 ≠ h := by
  induction ops with
  | nil => intro s _ _ q hq; simp [kqRun] at hq
  | cons op rest ih =>
    intro s hops hno q hq
    have hop : kqNonWait op = true := hops op (List.mem_cons_self op rest)
    have hrest : ∀ o ∈ rest, kqNonWait o = true :=
      fun o ho => hops o (List.mem_cons_of_mem op ho)
    cases op with
    | drain =>
      rcases he : kq_poller_event s with ⟨p?, s2⟩
      have hs2 : kqNoH h s2 := by
        have hp := kq_event_preserves h s hno
        rw [he] at hp
        exact hp
      cases p? with
      | some p =>
        simp only [kqRun, he, List.mem_cons] at hq
        rcases hq with hq | hq
        · subst hq
          exact kq_event_ne h s hno q s2 he
        · exact ih s2 hrest hs2 q hq
      | none =>
        simp only [kqRun, he] at hq
        exact ih s2 hrest hs2 q hq
    | add fd g =>
      simp only [kqRun] at hq
      exact ih _ hrest (kq_apply_preserves h _ s hop hno) q hq
    | rm g =>
      simp only [kqRun] at hq
      exact ih _ hrest (kq_apply_preserves h _ s hop hno) q hq
    | setIn g =>
      simp only [kqRun] at hq
      exact ih _ hrest (kq_apply_preserves h _ s hop hno) q hq
    | setOut g =>
      simp only [kqRun] at hq
      exact ih _ hrest (kq_apply_preserves h _ s hop hno) q hq
    | resetIn g =>
      simp only [kqRun] at hq
      exact ih _ hrest (kq_apply_preserves h _ s hop hno) q hq
    | resetOut g =>
      simp only [kqRun] at hq
      exact ih _ hrest (kq_apply_preserves h _ s hop hno) q hq
    | wait cfg t g =>
      simp [kqNonWait] at hop

/-! ## Neutralization machinery, poll backend -/

/-- No live pollset slot that still backreferences handle h carries any
undelivered revents. -/
def plNoH (h : Nat) (s : PollState) : Prop :=
  ∀ j, s.index ≤ j → j < s.size → (s.hndls j).hndl = some h →
    (s.pollset j).revents = 0

theorem plSkipGo_ge (f : Nat) (ps : Nat → PollFd) (size : Nat) :
    ∀ i, i ≤ plSkipGo f ps size i := by
  induction f with
  | zero => intro i; simp [plSkipGo]
  | succ f ih =>
    intro i
    simp only [plSkipGo]
    split
    · split
      · exact Nat.le_refl i
      · exact Nat.le_trans (Nat.le_succ i) (ih (i + 1))
    · exact Nat.le_refl i

theorem plSkipGo_spec (f : Nat) (ps : Nat → PollFd) (size : Nat) :
    ∀ i, size - i ≤ f →
      size ≤ plSkipGo f ps size i ∨
      (plSkipGo f ps size i < size ∧ (ps (plSkipGo f ps size i)).revents ≠ 0) := by
  induction f with
  | zero =>
    intro i hf
    left
    simp only [plSkipGo]
    omega
  | succ f ih =>
    intro i hf
    simp only [plSkipGo]
    split
    · split
      · right
        exact ⟨by assumption, by assumption⟩
      · exact ih (i + 1) (by omega)
    · left
      omega

theorem plSkip_ge (ps : Nat → PollFd) (size i : Nat) : i ≤ plSkip ps size i :=
  plSkipGo_ge (size - i) ps size i

theorem plSkip_spec (ps : Nat → PollFd) (size i : Nat) :
    size ≤ plSkip ps size i ∨
    (plSkip ps size i < size ∧ (ps (plSkip ps size i)).revents ≠ 0) :=
  plSkipGo_spec (size - i) ps size i (Nat.le_refl (size - i))

theorem pl_event_char (s : PollState) (i : Nat)
    (hi : i = plSkip s.pollset s.size s.index) :
    (s.size ≤ i ∧ pl_poller_event s = (none, { s with index := i })) ∨
    (i < s.size ∧ (s.pollset i).revents ≠ 0 ∧
      ((((s.pollset i).revents &&& POLLIN ≠ 0) ∧
        pl_poller_event s = (some (.IN, (s.hndls i).hndl.getD 0),
          { s with index := i,
                   pollset := upd s.pollset i
                     { s.pollset i with
                       revents := (s.pollset i).revents &&& NOT_POLLIN } })) ∨
       ((s.pollset i).revents &&& POLLIN = 0 ∧
        (s.pollset i).revents &&& POLLOUT ≠ 0 ∧
        pl_poller_event s = (some (.OUT, (s.hndls i).hndl.getD 0),
          { s with index := i,
                   pollset := upd s.pollset i
                     { s.pollset i with
                       revents := (s.pollset i).revents &&& NOT_POLLOUT } })) ∨
       ((s.pollset i).revents &&& POLLIN = 0 ∧
        (s.pollset i).revents &&& POLLOUT = 0 ∧
        pl_poller_event s = (some (.ERR, (s.hndls i).hndl.getD 0),
          { s with index := i + 1 })))) := by
  have hspec := plSkip_spec s.pollset s.size s.index
  rw [← hi] at hspec
  unfold pl_poller_event
  rw [← hi]
  rcases hspec with hdone | ⟨hlt, hnz⟩
  · left
    exact ⟨hdone, by rw [if_pos hdone]⟩
  · right
    refine ⟨hlt, hnz, ?_⟩
    rw [if_neg (by omega)]
    by_cases h1 : (s.pollset i).revents &&& POLLIN ≠ 0
    · left
      exact ⟨h1, by simp only [if_pos h1]⟩
    · push_neg at h1
      by_cases h2 : (s.pollset i).revents &&& POLLOUT ≠ 0
      · right; left
        refine ⟨h1, h2, ?_⟩
        simp only [h1, if_pos h2]
        simp
      · push_neg at h2
        right; right
        refine ⟨h1, h2, ?_⟩
        simp only [h1, h2]
        simp

theorem pl_event_ne (h : Nat) (s : PollState) (h0 : h ≠ 0) (hno : plNoH h s)
    (p : NnEv × Nat) (s2 : PollState)
    (he : pl_poller_event s = (some p, s2)) : p.2 ≠ h := by
  have hge := plSkip_ge s.pollset s.size s.index
  rcases pl_event_char s _ rfl with ⟨_, hc⟩ | ⟨hlt, hnz, hcase⟩
  · rw [hc] at he
    simp at he
  · intro hph
    have hptr : (s.hndls (plSkip s.pollset s.size s.index)).hndl.getD 0 = h := by
      rcases hcase with ⟨_, hc⟩ | ⟨_, _, hc⟩ | ⟨_, _, hc⟩ <;>
        (rw [hc] at he
         have h1 := (Prod.mk.injEq _ _ _ _).mp he
         have hp := (Option.some.injEq _ _).mp h1.1
         rw [← hp] at hph
         exact hph)
    rcases hh : (s.hndls (plSkip s.pollset s.size s.index)).hndl with _ | u
    · rw [hh] at hptr
      simp at hptr
      exact h0 hptr.symm
    · rw [hh] at hptr
      simp at hptr
      rw [hptr] at hh
      exact hnz (hno _ hge hlt hh)

theorem pl_event_preserves (h : Nat) (s : PollState) (hno : plNoH h s) :
    plNoH h (pl_poller_event s).2 := by
  have hge := plSkip_ge s.pollset s.size s.index
  rcases pl_event_char s _ rfl with ⟨_, hc⟩ | ⟨hlt, hnz, hcase⟩
  · rw [hc]
    intro j hj1 hj2 hj3
    dsimp only at hj1 hj2 hj3 ⊢
    exact hno j (by omega) hj2 hj3
  · rcases hcase with ⟨_, hc⟩ | ⟨_, _, hc⟩ | ⟨_, _, hc⟩ <;> rw [hc] <;>
      (intro j hj1 hj2 hj3
       dsimp only at hj1 hj2 hj3 ⊢)
    · by_cases hji : j = plSkip s.pollset s.size s.index
      · have h0 := hno j (by omega) hj2 hj3
        rw [hji] at h0 ⊢
        rw [upd_same]
        dsimp only
        rw [h0, Nat.zero_and]
      · rw [upd_other _ _ _ _ hji]
        exact hno j (by omega) hj2 hj3
    · by_cases hji : j = plSkip s.pollset s.size s.index
      · have h0 := hno j (by omega) hj2 hj3
        rw [hji] at h0 ⊢
        rw [upd_same]
        dsimp only
        rw [h0, Nat.zero_and]
      · rw [upd_other _ _ _ _ hji]
        exact hno j (by omega) hj2 hj3
    · exact hno j (by omega) hj2 hj3

/-- Field characterization of nn_poller_rm in the poll backend: no
structural change, only the revents of the slot of the removed handle is
zeroed, its hndl backreference is NULLed, and the free-list links are
threaded. -/
theorem pl_rm_fields (s : PollState) (h : Nat) :
    (pl_poller_rm s h).index = s.index ∧
    (pl_poller_rm s h).size = s.size ∧
    (pl_poller_rm s h).capacity = s.capacity ∧
    (pl_poller_rm s h).removed = some (s.heap h) ∧
    (pl_poller_rm s h).heap = s.heap ∧
    (∀ j, (pl_poller_rm s h).pollset j =
       (if j = s.heap h then { s.pollset (s.heap h) with revents := 0 }
        else s.pollset j)) ∧
    (∀ j, ((pl_poller_rm s h).hndls j).hndl =
       (if j = s.heap h then none else (s.hndls j).hndl)) := by
  rcases hr : s.removed with _ | r
  · refine ⟨?_, ?_, ?_, ?_, ?_, ?_, ?_⟩
    · simp [pl_poller_rm, hr]
    · simp [pl_poller_rm, hr]
    · simp [pl_poller_rm, hr]
    · simp [pl_poller_rm, hr]
    · simp [pl_poller_rm, hr]
    · intro j
      simp only [pl_poller_rm, hr, upd]
    · intro j
      simp only [pl_poller_rm, hr, upd]
      try (split <;> rfl)
  · refine ⟨?_, ?_, ?_, ?_, ?_, ?_, ?_⟩
    · simp [pl_poller_rm, hr]
    · simp [pl_poller_rm, hr]
    · simp [pl_poller_rm, hr]
    · simp [pl_poller_rm, hr]
    · simp [pl_poller_rm, hr]
    · intro j
      simp only [pl_poller_rm, hr, upd]
    · intro j
      simp only [pl_poller_rm, hr, upd]
      by_cases hj : j = s.heap h
      · simp [hj]
      · rw [if_neg hj, if_neg hj]
        by_cases hjr : j = r
        · simp [hjr]
        · rw [if_neg hjr]

theorem pl_rm_establishes (h : Nat) (s : PollState)
    (hwf : ∀ j, j < s.size → (s.hndls j).hndl = some h → j = s.heap h) :
    plNoH h (pl_poller_rm s h) := by
  obtain ⟨hidx, hsz, -, -, -, hps, hhn⟩ := pl_rm_fields s h
  intro j hj1 hj2 hj3
  rw [hsz] at hj2
  rw [hhn j] at hj3
  by_cases hj : j = s.heap h
  · rw [if_pos hj] at hj3
    exact absurd hj3 (by simp)
  · rw [if_neg hj] at hj3
    exact absurd (hwf j hj2 hj3) hj

theorem pl_rm_preserves (h g : Nat) (s : PollState) (hno : plNoH h s) :
    plNoH h (pl_poller_rm s g) := by
  obtain ⟨hidx, hsz, -, -, -, hps, hhn⟩ := pl_rm_fields s g
  intro j hj1 hj2 hj3
  rw [hidx] at hj1
  rw [hsz] at hj2
  rw [hhn j] at hj3
  rw [hps j]
  by_cases hj : j = s.heap g
  · rw [if_pos hj]
  · rw [if_neg hj] at hj3 ⊢
    exact hno j hj1 hj2 hj3

theorem pl_set_in_preserves (h g : Nat) (s : PollState) (hno : plNoH h s) :
    plNoH h (pl_poller_set_in s g) := by
  intro j hj1 hj2 hj3
  simp only [pl_poller_set_in, upd] at hj1 hj2 hj3 ⊢
  by_cases hj : j = s.heap g
  · rw [if_pos hj]
    dsimp only
    rw [← hj]
    exact hno j hj1 hj2 hj3
  · rw [if_neg hj]
    exact hno j hj1 hj2 hj3

theorem pl_set_out_preserves (h g : Nat) (s : PollState) (hno : plNoH h s) :
    plNoH h (pl_poller_set_out s g) := by
  intro j hj1 hj2 hj3
  simp only [pl_poller_set_out, upd] at hj1 hj2 hj3 ⊢
  by_cases hj : j = s.heap g
  · rw [if_pos hj]
    dsimp only
    rw [← hj]
    exact hno j hj1 hj2 hj3
  · rw [if_neg hj]
    exact hno j hj1 hj2 hj3

theorem pl_reset_in_preserves (h g : Nat) (s : PollState) (hno : plNoH h s) :
    plNoH h (pl_poller_reset_in s g) := by
  intro j hj1 hj2 hj3
  simp only [pl_poller_reset_in, upd] at hj1 hj2 hj3 ⊢
  by_cases hj : j = s.heap g
  · rw [if_pos hj]
    dsimp only
    rw [← hj]
    rw [hno j hj1 hj2 hj3, Nat.zero_and]
  · rw [if_neg hj]
    exact hno j hj1 hj2 hj3

theorem pl_reset_out_preserves (h g : Nat) (s : PollState) (hno : plNoH h s) :
    plNoH h (pl_poller_reset_out s g) := by
  intro j hj1 hj2 hj3
  simp only [pl_poller_reset_out, upd] at hj1 hj2 hj3 ⊢
  by_cases hj : j = s.heap g
  · rw [if_pos hj]
    dsimp only
    rw [← hj]
    rw [hno j hj1 hj2 hj3, Nat.zero_and]
  · rw [if_neg hj]
    exact hno j hj1 hj2 hj3

theorem pl_add_preserves (h g : Nat) (fd : Int) (s : PollState)
    (hno : plNoH h s) : plNoH h (pl_poller_add s fd g) := by
  intro j hj1 hj2 hj3
  simp only [pl_poller_add, upd] at hj1 hj2 hj3 ⊢
  by_cases hj : j = s.size
  · rw [if_pos hj]
  · rw [if_neg hj] at hj3 ⊢
    exact hno j hj1 (by omega) hj3

theorem pl_apply_preserves (h : Nat) (op : PlOp) (s : PollState)
    (hop : plNonWait op = true) (hno : plNoH h s) : plNoH h (plApply op s) := by
  cases op with
  | add fd g => exact pl_add_preserves h g fd s hno
  | rm g => exact pl_rm_preserves h g s hno
  | setIn g => exact pl_set_in_preserves h g s hno
  | setOut g => exact pl_set_out_preserves h g s hno
  | resetIn g => exact pl_reset_in_preserves h g s hno
  | resetOut g => exact pl_reset_out_preserves h g s hno
  | wait cfg t g => simp [plNonWait] at hop
  | drain => exact pl_event_preserves h s hno

theorem pl_run_avoids (h : Nat) (h0 : h ≠ 0) (ops : List PlOp) :
    ∀ s : PollState, (∀ op ∈ ops, plNonWait op = true) → plNoH h s →
      ∀ q ∈ plRun s ops, q.2 ≠ h := by
  induction ops with
  | nil => intro s _ _ q hq; simp [plRun] at hq
  | cons op rest ih =>
    intro s hops hno q hq
    have hop : plNonWait op = true := hops op (List.mem_cons_self op rest)
    have hrest : ∀ o ∈ rest, plNonWait o = true :=
      fun o ho => hops o (List.mem_cons_of_mem op ho)
    cases op with
    | drain =>
      rcases he : pl_poller_event s with ⟨p?, s2⟩
      have hs2 : plNoH h s2 := by
        have hp := pl_event_preserves h s hno
        rw [he] at hp
        exact hp
      cases p? with
      | some p =>
        simp only [plRun, he, List.mem_cons] at hq
        rcases hq with hq | hq
        · subst hq
          exact pl_event_ne h s h0 hno q s2 he
        · exact ih s2 hrest hs2 q hq
      | none =>
        simp only [plRun, he] at hq
        exact ih s2 hrest hs2 q hq
    | add fd g =>
      simp only [plRun] at hq
      exact ih _ hrest (pl_apply_preserves h _ s hop hno) q hq
    | rm g =>
      simp only [plRun] at hq
      exact ih _ hrest (pl_apply_preserves h _ s hop hno) q hq
    | setIn g =>
      simp only [plRun] at hq
      exact ih _ hrest (pl_apply_preserves h _ s hop hno) q hq
    | setOut g =>
      simp only [plRun] at hq
      exact ih _ hrest (pl_apply_preserves h _ s hop hno) q hq
    | resetIn g =>
      simp only [plRun] at hq
      exact ih _ hrest (pl_apply_preserves h _ s hop hno) q hq
    | resetOut g =>
      simp only [plRun] at hq
      exact ih _ hrest (pl_apply_preserves h _ s hop hno) q hq
    | wait cfg t g =>
      simp [plNonWait] at hop

/-- C1: for every backend, once remove(h) has run, no later drain of the
current batch returns h under any event kind, no matter which further
non-wait operations (registrations, interest changes, removals, drains)
are interleaved: remove neutralizes every live event-buffer entry that
references h.  The kqueue part assumes live entries for h carry the fd of
h (kqueue neutralizes by ident); the poll part assumes slots
backreferencing h agree with the stored index of h and that h is not the
NULL handle encoding. -/
theorem claim_C1 :
    (∀ (s : EpState) (h : Nat) (ops : List EpOp),
       (∀ op ∈ ops, epNonWait op = true) →
       h ∉ (epRun (ep_poller_rm s h) ops).map Prod.snd) ∧
    (∀ (s : KqState) (h : Nat) (ops : List KqOp),
       (∀ op ∈ ops, kqNonWait op = true) →
       (∀ j, j < s.nevents → s.index ≤ j → (s.buf j).udata = some h →
          (s.buf j).ident = (s.heap h).fd) →
       h ∉ (kqRun (kq_poller_rm s h) ops).map Prod.snd) ∧
    (∀ (s : PollState) (h : Nat) (ops : List PlOp), h ≠ 0 →
       (∀ op ∈ ops, plNonWait op = true) →
       (∀ j, j < s.size → (s.hndls j).hndl = some h → j = s.heap h) →
       h ∉ (plRun (pl_poller_rm s h) ops).map Prod.snd) := by
  refine ⟨?_, ?_, ?_⟩
  · intro s h ops hops hmem
    rcases List.mem_map.mp hmem with ⟨q, hq, hqh⟩
    exact ep_run_avoids h ops _ hops (ep_rm_establishes h s) q hq hqh
  · intro s h ops hops hfd hmem
    rcases List.mem_map.mp hmem with ⟨q, hq, hqh⟩
    exact kq_run_avoids h ops _ hops
      (kq_rm_establishes h s (fun j h1 h2 hu => hfd j h2 h1 hu)) q hq hqh
  · intro s h ops h0 hops hwf hmem
    rcases List.mem_map.mp hmem with ⟨q, hq, hqh⟩
    exact pl_run_avoids h h0 ops _ hops (pl_rm_establishes h s hwf) q hq hqh

/-- Concrete state with one buffered IN event for handle 7 on fd 5, epoll
backend. -/
def epW1 : EpState :=
  { kernel := [(5, 1, 7)],
    buf := fun j => if j = 0 then ⟨1, 7⟩ else ⟨0, 0⟩,
    nevents := 1, index := 0,
    heap := fun h => if h = 7 then ⟨5, 1⟩ else ⟨0, 0⟩, kcalls := 0 }

/-- Concrete state with one buffered read event for handle 7 on fd 5,
kqueue backend. -/
def kqW1 : KqState :=
  { kreg := [(5, .read, 7)],
    buf := fun j => if j = 0 then ⟨5, .read, false, some 7⟩ else ⟨0, .read, false, none⟩,
    nevents := 1, index := 0,
    heap := fun h => if h = 7 then ⟨5, 1⟩ else ⟨0, 0⟩, kcalls := 0 }

/-- Concrete state with one registered slot for handle 7 with a pending
POLLIN revent, poll backend. -/
def plW1 : PollState :=
  { pollset := fun j => if j = 0 then ⟨5, 1, 1⟩ else ⟨0, 0, 0⟩,
    hndls := fun j => if j = 0 then ⟨some 7, none, none⟩ else ⟨none, none, none⟩,
    size := 1, capacity := 16, index := 0, removed := none,
    heap := fun _ => 0 }

theorem claim_C1_witness :
    ((∀ op ∈ ([EpOp.drain, EpOp.drain] : List EpOp), epNonWait op = true) ∧
      7 ∉ (epRun (ep_poller_rm epW1 7) [EpOp.drain, EpOp.drain]).map Prod.snd) ∧
    ((∀ op ∈ ([KqOp.drain, KqOp.drain] : List KqOp), kqNonWait op = true) ∧
      7 ∉ (kqRun (kq_poller_rm kqW1 7) [KqOp.drain, KqOp.drain]).map Prod.snd) ∧
    ((7 : Nat) ≠ 0 ∧
      7 ∉ (plRun (pl_poller_rm plW1 7) [PlOp.drain, PlOp.drain]).map Prod.snd) :=
  ⟨⟨by decide, claim_C1.1 epW1 7 [EpOp.drain, EpOp.drain] (by decide)⟩,
   ⟨by decide, claim_C1.2.1 kqW1 7 [KqOp.drain, KqOp.drain] (by decide) (by decide)⟩,
   ⟨by decide, claim_C1.2.2 plW1 7 [PlOp.drain, PlOp.drain] (by decide) (by decide)
      (by decide)⟩⟩

/-! ## Kind-specific suppression machinery (reset_in / reset_out) -/

/-- No live epoll buffer entry for handle h still carries any bit of the
given mask. -/
def epNoMaskH (mask h : Nat) (s : EpState) : Prop :=
  ∀ j, s.index ≤ j → j < s.nevents → (s.buf j).ptr = h →
    (s.buf j).events &&& mask = 0

theorem ep_reset_in_establishes (h : Nat) (s : EpState)
    (hsync : (s.heap h).events &&& EPOLLIN = 0 → epNoMaskH EPOLLIN h s) :
    epNoMaskH EPOLLIN h (ep_poller_reset_in s h) := by
  simp only [ep_poller_reset_in]
  by_cases hbit : (s.heap h).events &&& EPOLLIN = 0
  · rw [if_pos hbit]
    exact hsync hbit
  · rw [if_neg hbit]
    intro j hj1 hj2 hj3
    dsimp only at hj1 hj2 hj3 ⊢
    simp only [epScrub] at hj3 ⊢
    by_cases hc : s.index ≤ j ∧ j < s.nevents ∧ (s.buf j).ptr = h
    · rw [if_pos hc]
      exact land_notin_in _
    · rw [if_neg hc] at hj3
      exact absurd ⟨hj1, hj2, hj3⟩ hc

theorem ep_reset_out_establishes (h : Nat) (s : EpState)
    (hsync : (s.heap h).events &&& EPOLLOUT = 0 → epNoMaskH EPOLLOUT h s) :
    epNoMaskH EPOLLOUT h (ep_poller_reset_out s h) := by
  simp only [ep_poller_reset_out]
  by_cases hbit : (s.heap h).events &&& EPOLLOUT = 0
  · rw [if_pos hbit]
    exact hsync hbit
  · rw [if_neg hbit]
    intro j hj1 hj2 hj3
    dsimp only at hj1 hj2 hj3 ⊢
    simp only [epScrub] at hj3 ⊢
    by_cases hc : s.index ≤ j ∧ j < s.nevents ∧ (s.buf j).ptr = h
    · rw [if_pos hc]
      exact land_notout_out _
    · rw [if_neg hc] at hj3
      exact absurd ⟨hj1, hj2, hj3⟩ hc

theorem ep_apply_mask_preserves (mask h : Nat)
    (hin : ∀ x : Nat, x &&& mask = 0 → x &&& NOT_EPOLLIN &&& mask = 0)
    (hout : ∀ x : Nat, x &&& mask = 0 → x &&& NOT_EPOLLOUT &&& mask = 0)
    (op : EpOp) (s : EpState) (hop : epNonWait op = true)
    (hno : epNoMaskH mask h s) : epNoMaskH mask h (epApply op s) := by
  cases op with
  | add fd g => exact hno
  | rm g =>
    intro j hj1 hj2 hj3
    simp only [epApply, ep_poller_rm, epScrub] at hj1 hj2 hj3 ⊢
    by_cases hc : s.index ≤ j ∧ j < s.nevents ∧ (s.buf j).ptr = g
    · rw [if_pos hc]
      exact Nat.zero_and mask
    · rw [if_neg hc] at hj3 ⊢
      exact hno j hj1 hj2 hj3
  | setIn g =>
    simp only [epApply, ep_poller_set_in]
    split
    · exact hno
    · exact hno
  | setOut g =>
    simp only [epApply, ep_poller_set_out]
    split
    · exact hno
    · exact hno
  | resetIn g =>
    simp only [epApply, ep_poller_reset_in]
    split
    · exact hno
    · intro j hj1 hj2 hj3
      dsimp only at hj1 hj2 hj3 ⊢
      simp only [epScrub] at hj3 ⊢
      by_cases hc : s.index ≤ j ∧ j < s.nevents ∧ (s.buf j).ptr = g
      · rw [if_pos hc] at hj3 ⊢
        dsimp only at hj3 ⊢
        exact hin _ (hno j hj1 hj2 hj3)
      · rw [if_neg hc] at hj3 ⊢
        exact hno j hj1 hj2 hj3
  | resetOut g =>
    simp only [epApply, ep_poller_reset_out]
    split
    · exact hno
    · intro j hj1 hj2 hj3
      dsimp only at hj1 hj2 hj3 ⊢
      simp only [epScrub] at hj3 ⊢
      by_cases hc : s.index ≤ j ∧ j < s.nevents ∧ (s.buf j).ptr = g
      · rw [if_pos hc] at hj3 ⊢
        dsimp only at hj3 ⊢
        exact hout _ (hno j hj1 hj2 hj3)
      · rw [if_neg hc] at hj3 ⊢
        exact hno j hj1 hj2 hj3
  | wait t g => simp [epNonWait] at hop
  | drain =>
    simp only [epApply]
    have hge := epSkip_ge s.buf s.nevents s.index
    rcases ep_event_char s _ rfl with ⟨_, hc⟩ | ⟨hlt, hnz, hcase⟩
    · rw [hc]
      intro j hj1 hj2 hj3
      dsimp only at hj1 hj2 hj3 ⊢
      exact hno j (by omega) hj2 hj3
    · rcases hcase with ⟨_, hc⟩ | ⟨_, _, hc⟩ | ⟨_, _, hc⟩ <;> rw [hc] <;>
        (intro j hj1 hj2 hj3
         dsimp only at hj1 hj2 hj3 ⊢)
      · by_cases hji : j = epSkip s.buf s.nevents s.index
        · have h0 := hno j (by omega) hj2 (by rw [hji] at hj3 ⊢; rwa [upd_same] at hj3)
          rw [hji] at h0 ⊢
          rw [upd_same]
          dsimp only
          exact hin _ h0
        · rw [upd_other _ _ _ _ hji] at hj3 ⊢
          exact hno j (by omega) hj2 hj3
      · by_cases hji : j = epSkip s.buf s.nevents s.index
        · have h0 := hno j (by omega) hj2 (by rw [hji] at hj3 ⊢; rwa [upd_same] at hj3)
          rw [hji] at h0 ⊢
          rw [upd_same]
          dsimp only
          exact hout _ h0
        · rw [upd_other _ _ _ _ hji] at hj3 ⊢
          exact hno j (by omega) hj2 hj3
      · exact hno j (by omega) hj2 hj3

theorem ep_event_no_in (h : Nat) (s : EpState) (hno : epNoMaskH EPOLLIN h s)
    (p : NnEv × Nat) (s2 : EpState) (he : ep_poller_event s = (some p, s2)) :
    p ≠ (NnEv.IN, h) := by
  have hge := epSkip_ge s.buf s.nevents s.index
  rcases ep_event_char s _ rfl with ⟨_, hc⟩ | ⟨hlt, hnz, hcase⟩
  · rw [hc] at he
    simp at he
  · rcases hcase with ⟨hbit, hc⟩ | ⟨_, _, hc⟩ | ⟨_, _, hc⟩ <;> rw [hc] at he <;>
      (have h1 := (Prod.mk.injEq _ _ _ _).mp he
       have hp := (Option.some.injEq _ _).mp h1.1
       rw [← hp]
       intro hcontra)
    · have hph := (Prod.mk.injEq _ _ _ _).mp hcontra
      exact hbit (hno _ hge hlt hph.2)
    · exact absurd ((Prod.mk.injEq _ _ _ _).mp hcontra).1 (by simp)
    · exact absurd ((Prod.mk.injEq _ _ _ _).mp hcontra).1 (by simp)

theorem ep_event_no_out (h : Nat) (s : EpState) (hno : epNoMaskH EPOLLOUT h s)
    (p : NnEv × Nat) (s2 : EpState) (he : ep_poller_event s = (some p, s2)) :
    p ≠ (NnEv.OUT, h) := by
  have hge := epSkip_ge s.buf s.nevents s.index
  rcases ep_event_char s _ rfl with ⟨_, hc⟩ | ⟨hlt, hnz, hcase⟩
  · rw [hc] at he
    simp at he
  · rcases hcase with ⟨_, hc⟩ | ⟨_, hbit, hc⟩ | ⟨_, _, hc⟩ <;> rw [hc] at he <;>
      (have h1 := (Prod.mk.injEq _ _ _ _).mp he
       have hp := (Option.some.injEq _ _).mp h1.1
       rw [← hp]
       intro hcontra)
    · exact absurd ((Prod.mk.injEq _ _ _ _).mp hcontra).1 (by simp)
    · have hph := (Prod.mk.injEq _ _ _ _).mp hcontra
      exact hbit (hno _ hge hlt hph.2)
    · exact absurd ((Prod.mk.injEq _ _ _ _).mp hcontra).1 (by simp)

theorem ep_run_no_kind (mask h : Nat) (k : NnEv)
    (hin : ∀ x : Nat, x &&& mask = 0 → x &&& NOT_EPOLLIN &&& mask = 0)
    (hout : ∀ x : Nat, x &&& mask = 0 → x &&& NOT_EPOLLOUT &&& mask = 0)
    (hyield : ∀ (s : EpState) (p : NnEv × Nat) (s2 : EpState),
       epNoMaskH mask h s → ep_poller_event s = (some p, s2) → p ≠ (k, h))
    (ops : List EpOp) :
    ∀ s : EpState, (∀ op ∈ ops, epNonWait op = true) → epNoMaskH mask h s →
      ∀ q ∈ epRun s ops, q ≠ (k, h) := by
  induction ops with
  | nil => intro s _ _ q hq; simp [epRun] at hq
  | cons op rest ih =>
    intro s hops hno q hq
    have hop : epNonWait op = true := hops op (List.mem_cons_self op rest)
    have hrest : ∀ o ∈ rest, epNonWait o = true :=
      fun o ho => hops o (List.mem_cons_of_mem op ho)
    have hnext : epNoMaskH mask h (epApply op s) :=
      ep_apply_mask_preserves mask h hin hout op s hop hno
    cases op with
    | drain =>
      rcases he : ep_poller_event s with ⟨p?, s2⟩
      have hs2 : epNoMaskH mask h s2 := by
        have hp := hnext
        simp only [epApply, he] at hp
        exact hp
      cases p? with
      | some p =>
        simp only [epRun, he, List.mem_cons] at hq
        rcases hq with hq | hq
        · subst hq
          exact hyield s q s2 hno he
        · exact ih s2 hrest hs2 q hq
      | none =>
        simp only [epRun, he] at hq
        exact ih s2 hrest hs2 q hq
    | add fd g =>
      simp only [epRun] at hq
      exact ih _ hrest hnext q hq
    | rm g =>
      simp only [epRun] at hq
      exact ih _ hrest hnext q hq
    | setIn g =>
      simp only [epRun] at hq
      exact ih _ hrest hnext q hq
    | setOut g =>
      simp only [epRun] at hq
      exact ih _ hrest hnext q hq
    | resetIn g =>
      simp only [epRun] at hq
      exact ih _ hrest hnext q hq
    | resetOut g =>
      simp only [epRun] at hq
      exact ih _ hrest hnext q hq
    | wait t g =>
      simp [epNonWait] at hop

/-- No live kqueue buffer entry for handle h on the given filter. -/
def kqNoFH (fl : KFilter) (h : Nat) (s : KqState) : Prop :=
  ∀ j, s.index ≤ j → j < s.nevents →
    ¬((s.buf j).udata = some h ∧ (s.buf j).filter = fl)

theorem kq_reset_in_establishes (h : Nat) (s : KqState)
    (hfd : ∀ j, j < s.nevents → s.index ≤ j → (s.buf j).udata = some h →
             (s.buf j).ident = (s.heap h).fd) :
    kqNoFH .read h (kq_poller_reset_in s h) := by
  obtain ⟨hidx, hnev, hbuf⟩ := kq_reset_in_fields s h
  intro j hj1 hj2
  rw [hidx] at hj1
  rw [hnev] at hj2
  rw [hbuf j]
  by_cases hc : s.index ≤ j ∧ j < s.nevents ∧ (s.buf j).ident = (s.heap h).fd ∧
      (s.buf j).filter = KFilter.read
  · rw [if_pos hc]
    simp
  · rw [if_neg hc]
    rintro ⟨hu, hf⟩
    exact hc ⟨hj1, hj2, hfd j hj2 hj1 hu, hf⟩

theorem kq_reset_out_establishes (h : Nat) (s : KqState)
    (hfd : ∀ j, j < s.nevents → s.index ≤ j → (s.buf j).udata = some h →
             (s.buf j).ident = (s.heap h).fd) :
    kqNoFH .write h (kq_poller_reset_out s h) := by
  obtain ⟨hidx, hnev, hbuf⟩ := kq_reset_out_fields s h
  intro j hj1 hj2
  rw [hidx] at hj1
  rw [hnev] at hj2
  rw [hbuf j]
  by_cases hc : s.index ≤ j ∧ j < s.nevents ∧ (s.buf j).ident = (s.heap h).fd ∧
      (s.buf j).filter = KFilter.write
  · rw [if_pos hc]
    simp
  · rw [if_neg hc]
    rintro ⟨hu, hf⟩
    exact hc ⟨hj1, hj2, hfd j hj2 hj1 hu, hf⟩

theorem kq_apply_fl_preserves (fl : KFilter) (h : Nat) (op : KqOp) (s : KqState)
    (hop : kqNonWait op = true) (hno : kqNoFH fl h s) :
    kqNoFH fl h (kqApply op s) := by
  cases op with
  | add fd g => exact hno
  | rm g =>
    obtain ⟨hidx, hnev, hbuf⟩ := kq_rm_fields s g
    simp only [kqApply]
    intro j hj1 hj2
    rw [hidx] at hj1
    rw [hnev] at hj2
    rw [hbuf j]
    split
    · simp
    · exact hno j hj1 hj2
  | setIn g =>
    simp only [kqApply, kq_poller_set_in]
    split
    · exact hno
    · exact hno
  | setOut g =>
    simp only [kqApply, kq_poller_set_out]
    split
    · exact hno
    · exact hno
  | resetIn g =>
    obtain ⟨hidx, hnev, hbuf⟩ := kq_reset_in_fields s g
    simp only [kqApply]
    intro j hj1 hj2
    rw [hidx] at hj1
    rw [hnev] at hj2
    rw [hbuf j]
    split
    · simp
    · exact hno j hj1 hj2
  | resetOut g =>
    obtain ⟨hidx, hnev, hbuf⟩ := kq_reset_out_fields s g
    simp only [kqApply]
    intro j hj1 hj2
    rw [hidx] at hj1
    rw [hnev] at hj2
    rw [hbuf j]
    split
    · simp
    · exact hno j hj1 hj2
  | wait cfg t g => simp [kqNonWait] at hop
  | drain =>
    simp only [kqApply]
    have hge := kqSkip_ge s.buf s.nevents s.index
    rcases kq_event_char s _ rfl with ⟨_, hc⟩ | ⟨hlt, hnz, hc⟩ <;> rw [hc] <;>
      (intro j hj1 hj2
       dsimp only at hj1 hj2 ⊢) <;>
      exact hno j (by omega) hj2

theorem kq_event_no_in (h : Nat) (s : KqState) (hno : kqNoFH .read h s)
    (p : NnEv × Nat) (s2 : KqState) (he : kq_poller_event s = (some p, s2)) :
    p ≠ (NnEv.IN, h) := by
  have hge := kqSkip_ge s.buf s.nevents s.index
  rcases kq_event_char s _ rfl with ⟨_, hc⟩ | ⟨hlt, hnz, hc⟩
  · rw [hc] at he
    simp at he
  · rw [hc] at he
    have h1 := (Prod.mk.injEq _ _ _ _).mp he
    have hp := (Option.some.injEq _ _).mp h1.1
    rw [← hp]
    intro hcontra
    have hph := (Prod.mk.injEq _ _ _ _).mp hcontra
    have hk := hph.1
    have hu := hph.2
    by_cases heof : (s.buf (kqSkip s.buf s.nevents s.index)).eof
    · rw [if_pos heof] at hk
      exact absurd hk (by simp)
    · rw [if_neg heof] at hk
      by_cases hw : (s.buf (kqSkip s.buf s.nevents s.index)).filter = KFilter.write
      · rw [if_pos hw] at hk
        exact absurd hk (by simp)
      · have hfr : (s.buf (kqSkip s.buf s.nevents s.index)).filter = KFilter.read := by
          rcases hf : (s.buf (kqSkip s.buf s.nevents s.index)).filter
          · rfl
          · exact absurd hf hw
        rcases hud : (s.buf (kqSkip s.buf s.nevents s.index)).udata with _ | u
        · exact hnz hud
        · rw [hud] at hu
          simp only [Option.getD_some] at hu
          exact hno _ hge hlt ⟨by rw [hud, hu], hfr⟩

theorem kq_event_no_out (h : Nat) (s : KqState) (hno : kqNoFH .write h s)
    (p : NnEv × Nat) (s2 : KqState) (he : kq_poller_event s = (some p, s2)) :
    p ≠ (NnEv.OUT, h) := by
  have hge := kqSkip_ge s.buf s.nevents s.index
  rcases kq_event_char s _ rfl with ⟨_, hc⟩ | ⟨hlt, hnz, hc⟩
  · rw [hc] at he
    simp at he
  · rw [hc] at he
    have h1 := (Prod.mk.injEq _ _ _ _).mp he
    have hp := (Option.some.injEq _ _).mp h1.1
    rw [← hp]
    intro hcontra
    have hph := (Prod.mk.injEq _ _ _ _).mp hcontra
    have hk := hph.1
    have hu := hph.2
    by_cases heof : (s.buf (kqSkip s.buf s.nevents s.index)).eof
    · rw [if_pos heof] at hk
      exact absurd hk (by simp)
    · rw [if_neg heof] at hk
      by_cases hw : (s.buf (kqSkip s.buf s.nevents s.index)).filter = KFilter.write
      · rcases hud : (s.buf (kqSkip s.buf s.nevents s.index)).udata with _ | u
        · exact hnz hud
        · rw [hud] at hu
          simp only [Option.getD_some] at hu
          exact hno _ hge hlt ⟨by rw [hud, hu], hw⟩
      · rw [if_neg hw] at hk
        exact absurd hk (by simp)

theorem kq_run_no_kind (fl : KFilter) (h : Nat) (k : NnEv)
    (hyield : ∀ (s : KqState) (p : NnEv × Nat) (s2 : KqState),
       kqNoFH fl h s → kq_poller_event s = (some p, s2) → p ≠ (k, h))
    (ops : List KqOp) :
    ∀ s : KqState, (∀ op ∈ ops, kqNonWait op = true) → kqNoFH fl h s →
      ∀ q ∈ kqRun s ops, q ≠ (k, h) := by
  induction ops with
  | nil => intro s _ _ q hq; simp [kqRun] at hq
  | cons op rest ih =>
    intro s hops hno q hq
    have hop : kqNonWait op = true := hops op (List.mem_cons_self op rest)
    have hrest : ∀ o ∈ rest, kqNonWait o = true :=
      fun o ho => hops o (List.mem_cons_of_mem op ho)
    have hnext : kqNoFH fl h (kqApply op s) :=
      kq_apply_fl_preserves fl h op s hop hno
    cases op with
    | drain =>
      rcases he : kq_poller_event s with ⟨p?, s2⟩
      have hs2 : kqNoFH fl h s2 := by
        have hp := hnext
        simp only [kqApply, he] at hp
        exact hp
      cases p? with
      | some p =>
        simp only [kqRun, he, List.mem_cons] at hq
        rcases hq with hq | hq
        · subst hq
          exact hyield s q s2 hno he
        · exact ih s2 hrest hs2 q hq
      | none =>
        simp only [kqRun, he] at hq
        exact ih s2 hrest hs2 q hq
    | add fd g =>
      simp only [kqRun] at hq
      exact ih _ hrest hnext q hq
    | rm g =>
      simp only [kqRun] at hq
      exact ih _ hrest hnext q hq
    | setIn g =>
      simp only [kqRun] at hq
      exact ih _ hrest hnext q hq
    | setOut g =>
      simp only [kqRun] at hq
      exact ih _ hrest hnext q hq
    | resetIn g =>
      simp only [kqRun] at hq
      exact ih _ hrest hnext q hq
    | resetOut g =>
      simp only [kqRun] at hq
      exact ih _ hrest hnext q hq
    | wait cfg t g =>
      simp [kqNonWait] at hop

/-- No live pollset slot backreferencing h still carries any revents bit
of the given mask. -/
def plNoMaskH (mask h : Nat) (s : PollState) : Prop :=
  ∀ j, s.index ≤ j → j < s.size → (s.hndls j).hndl = some h →
    (s.pollset j).revents &&& mask = 0

theorem pl_reset_in_establishes (h : Nat) (s : PollState)
    (hwf : ∀ j, j < s.size → (s.hndls j).hndl = some h → j = s.heap h) :
    plNoMaskH POLLIN h (pl_poller_reset_in s h) := by
  intro j hj1 hj2 hj3
  simp only [pl_poller_reset_in, upd] at hj1 hj2 hj3 ⊢
  have hj := hwf j hj2 hj3
  rw [if_pos hj]
  dsimp only
  exact land_notin_in _

theorem pl_reset_out_establishes (h : Nat) (s : PollState)
    (hwf : ∀ j, j < s.size → (s.hndls j).hndl = some h → j = s.heap h) :
    plNoMaskH POLLOUT h (pl_poller_reset_out s h) := by
  intro j hj1 hj2 hj3
  simp only [pl_poller_reset_out, upd] at hj1 hj2 hj3 ⊢
  have hj := hwf j hj2 hj3
  rw [if_pos hj]
  dsimp only
  exact land_notout_out _

theorem pl_apply_mask_preserves (mask h : Nat)
    (hin : ∀ x : Nat, x &&& mask = 0 → x &&& NOT_POLLIN &&& mask = 0)
    (hout : ∀ x : Nat, x &&& mask = 0 → x &&& NOT_POLLOUT &&& mask = 0)
    (op : PlOp) (s : PollState) (hop : plNonWait op = true)
    (hno : plNoMaskH mask h s) : plNoMaskH mask h (plApply op s) := by
  cases op with
  | add fd g =>
    intro j hj1 hj2 hj3
    simp only [plApply, pl_poller_add, upd] at hj1 hj2 hj3 ⊢
    by_cases hj : j = s.size
    · rw [if_pos hj]
      dsimp only
      exact Nat.zero_and mask
    · rw [if_neg hj] at hj3 ⊢
      exact hno j hj1 (by omega) hj3
  | rm g =>
    obtain ⟨hidx, hsz, -, -, -, hps, hhn⟩ := pl_rm_fields s g
    simp only [plApply]
    intro j hj1 hj2 hj3
    rw [hidx] at hj1
    rw [hsz] at hj2
    rw [hhn j] at hj3
    rw [hps j]
    by_cases hj : j = s.heap g
    · rw [if_pos hj]
      dsimp only
      exact Nat.zero_and mask
    · rw [if_neg hj] at hj3 ⊢
      exact hno j hj1 hj2 hj3
  | setIn g =>
    intro j hj1 hj2 hj3
    simp only [plApply, pl_poller_set_in, upd] at hj1 hj2 hj3 ⊢
    by_cases hj : j = s.heap g
    · rw [if_pos hj]
      dsimp only
      rw [← hj]
      exact hno j hj1 hj2 hj3
    · rw [if_neg hj]
      exact hno j hj1 hj2 hj3
  | setOut g =>
    intro j hj1 hj2 hj3
    simp only [plApply, pl_poller_set_out, upd] at hj1 hj2 hj3 ⊢
    by_cases hj : j = s.heap g
    · rw [if_pos hj]
      dsimp only
      rw [← hj]
      exact hno j hj1 hj2 hj3
    · rw [if_neg hj]
      exact hno j hj1 hj2 hj3
  | resetIn g =>
    intro j hj1 hj2 hj3
    simp only [plApply, pl_poller_reset_in, upd] at hj1 hj2 hj3 ⊢
    by_cases hj : j = s.heap g
    · rw [if_pos hj]
      dsimp only
      rw [← hj]
      exact hin _ (hno j hj1 hj2 hj3)
    · rw [if_neg hj]
      exact hno j hj1 hj2 hj3
  | resetOut g =>
    intro j hj1 hj2 hj3
    simp only [plApply, pl_poller_reset_out, upd] at hj1 hj2 hj3 ⊢
    by_cases hj : j = s.heap g
    · rw [if_pos hj]
      dsimp only
      rw [← hj]
      exact hout _ (hno j hj1 hj2 hj3)
    · rw [if_neg hj]
      exact hno j hj1 hj2 hj3
  | wait cfg t g => simp [plNonWait] at hop
  | drain =>
    simp only [plApply]
    have hge := plSkip_ge s.pollset s.size s.index
    rcases pl_event_char s _ rfl with ⟨_, hc⟩ | ⟨hlt, hnz, hcase⟩
    · rw [hc]
      intro j hj1 hj2 hj3
      dsimp only at hj1 hj2 hj3 ⊢
      exact hno j (by omega) hj2 hj3
    · rcases hcase with ⟨_, hc⟩ | ⟨_, _, hc⟩ | ⟨_, _, hc⟩ <;> rw [hc] <;>
        (intro j hj1 hj2 hj3
         dsimp only at hj1 hj2 hj3 ⊢)
      · by_cases hji : j = plSkip s.pollset s.size s.index
        · have h0 := hno j (by omega) hj2 hj3
          rw [hji] at h0 ⊢
          rw [upd_same]
          dsimp only
          exact hin _ h0
        · rw [upd_other _ _ _ _ hji]
          exact hno j (by omega) hj2 hj3
      · by_cases hji : j = plSkip s.pollset s.size s.index
        · have h0 := hno j (by omega) hj2 hj3
          rw [hji] at h0 ⊢
          rw [upd_same]
          dsimp only
          exact hout _ h0
        · rw [upd_other _ _ _ _ hji]
          exact hno j (by omega) hj2 hj3
      · exact hno j (by omega) hj2 hj3

theorem pl_event_no_in (h : Nat) (h0 : h ≠ 0) (s : PollState)
    (hno : plNoMaskH POLLIN h s) (p : NnEv × Nat) (s2 : PollState)
    (he : pl_poller_event s = (some p, s2)) : p ≠ (NnEv.IN, h) := by
  have hge := plSkip_ge s.pollset s.size s.index
  rcases pl_event_char s _ rfl with ⟨_, hc⟩ | ⟨hlt, hnz, hcase⟩
  · rw [hc] at he
    simp at he
  · rcases hcase with ⟨hbit, hc⟩ | ⟨_, _, hc⟩ | ⟨_, _, hc⟩ <;> rw [hc] at he <;>
      (have h1 := (Prod.mk.injEq _ _ _ _).mp he
       have hp := (Option.some.injEq _ _).mp h1.1
       rw [← hp]
       intro hcontra)
    · have hph := (Prod.mk.injEq _ _ _ _).mp hcontra
      rcases hh : (s.hndls (plSkip s.pollset s.size s.index)).hndl with _ | u
      · rw [hh] at hph
        simp at hph
        exact h0 hph.symm
      · rw [hh] at hph
        simp only [Option.getD_some] at hph
        rw [hph.2] at hh
        exact hbit (hno _ hge hlt hh)
    · exact absurd ((Prod.mk.injEq _ _ _ _).mp hcontra).1 (by simp)
    · exact absurd ((Prod.mk.injEq _ _ _ _).mp hcontra).1 (by simp)

theorem pl_event_no_out (h : Nat) (h0 : h ≠ 0) (s : PollState)
    (hno : plNoMaskH POLLOUT h s) (p : NnEv × Nat) (s2 : PollState)
    (he : pl_poller_event s = (some p, s2)) : p ≠ (NnEv.OUT, h) := by
  have hge := plSkip_ge s.pollset s.size s.index
  rcases pl_event_char s _ rfl with ⟨_, hc⟩ | ⟨hlt, hnz, hcase⟩
  · rw [hc] at he
    simp at he
  · rcases hcase with ⟨_, hc⟩ | ⟨_, hbit, hc⟩ | ⟨_, _, hc⟩ <;> rw [hc] at he <;>
      (have h1 := (Prod.mk.injEq _ _ _ _).mp he
       have hp := (Option.some.injEq _ _).mp h1.1
       rw [← hp]
       intro hcontra)
    · exact absurd ((Prod.mk.injEq _ _ _ _).mp hcontra).1 (by simp)
    · have hph := (Prod.mk.injEq _ _ _ _).mp hcontra
      rcases hh : (s.hndls (plSkip s.pollset s.size s.index)).hndl with _ | u
      · rw [hh] at hph
        simp at hph
        exact h0 hph.symm
      · rw [hh] at hph
        simp only [Option.getD_some] at hph
        rw [hph.2] at hh
        exact hbit (hno _ hge hlt hh)
    · exact absurd ((Prod.mk.injEq _ _ _ _).mp hcontra).1 (by simp)

theorem pl_run_no_kind (mask h : Nat) (k : NnEv)
    (hin : ∀ x : Nat, x &&& mask = 0 → x &&& NOT_POLLIN &&& mask = 0)
    (hout : ∀ x : Nat, x &&& mask = 0 → x &&& NOT_POLLOUT &&& mask = 0)
    (hyield : ∀ (s : PollState) (p : NnEv × Nat) (s2 : PollState),
       plNoMaskH mask h s → pl_poller_event s = (some p, s2) → p ≠ (k, h))
    (ops : List PlOp) :
    ∀ s : PollState, (∀ op ∈ ops, plNonWait op = true) → plNoMaskH mask h s →
      ∀ q ∈ plRun s ops, q ≠ (k, h) := by
  induction ops with
  | nil => intro s _ _ q hq; simp [plRun] at hq
  | cons op rest ih =>
    intro s hops hno q hq
    have hop : plNonWait op = true := hops op (List.mem_cons_self op rest)
    have hrest : ∀ o ∈ rest, plNonWait o = true :=
      fun o ho => hops o (List.mem_cons_of_mem op ho)
    have hnext : plNoMaskH mask h (plApply op s) :=
      pl_apply_mask_preserves mask h hin hout op s hop hno
    cases op with
    | drain =>
      rcases he : pl_poller_event s with ⟨p?, s2⟩
      have hs2 : plNoMaskH mask h s2 := by
        have hp := hnext
        simp only [plApply, he] at hp
        exact hp
      cases p? with
      | some p =>
        simp only [plRun, he, List.mem_cons] at hq
        rcases hq with hq | hq
        · subst hq
          exact hyield s q s2 hno he
        · exact ih s2 hrest hs2 q hq
      | none =>
        simp only [plRun, he] at hq
        exact ih s2 hrest hs2 q hq
    | add fd g =>
      simp only [plRun] at hq
      exact ih _ hrest hnext q hq
    | rm g =>
      simp only [plRun] at hq
      exact ih _ hrest hnext q hq
    | setIn g =>
      simp only [plRun] at hq
      exact ih _ hrest hnext q hq
    | setOut g =>
      simp only [plRun] at hq
      exact ih _ hrest hnext q hq
    | resetIn g =>
      simp only [plRun] at hq
      exact ih _ hrest hnext q hq
    | resetOut g =>
      simp only [plRun] at hq
      exact ih _ hrest hnext q hq
    | wait cfg t g =>
      simp [plNonWait] at hop

theorem ep_reset_in_pointwise (s : EpState) (h : Nat) :
    (ep_poller_reset_in s h).index = s.index ∧
    (ep_poller_reset_in s h).nevents = s.nevents ∧
    ∀ j, ((ep_poller_reset_in s h).buf j).ptr = (s.buf j).ptr ∧
      ((ep_poller_reset_in s h).buf j).events &&& EPOLLOUT =
        (s.buf j).events &&& EPOLLOUT ∧
      ((ep_poller_reset_in s h).buf j).events &&& EPOLLERRHUP =
        (s.buf j).events &&& EPOLLERRHUP ∧
      ((s.buf j).ptr ≠ h → (ep_poller_reset_in s h).buf j = s.buf j) := by
  simp only [ep_poller_reset_in]
  split
  · exact ⟨rfl, rfl, fun j => ⟨rfl, rfl, rfl, fun _ => rfl⟩⟩
  · refine ⟨rfl, rfl, fun j => ?_⟩
    dsimp only
    simp only [epScrub]
    by_cases hc : s.index ≤ j ∧ j < s.nevents ∧ (s.buf j).ptr = h
    · rw [if_pos hc]
      refine ⟨rfl, land_notin_out _, land_const _ _ _ _ (by decide), ?_⟩
      intro hp
      exact absurd hc.2.2 hp
    · rw [if_neg hc]
      exact ⟨rfl, rfl, rfl, fun _ => rfl⟩

theorem ep_reset_out_pointwise (s : EpState) (h : Nat) :
    (ep_poller_reset_out s h).index = s.index ∧
    (ep_poller_reset_out s h).nevents = s.nevents ∧
    ∀ j, ((ep_poller_reset_out s h).buf j).ptr = (s.buf j).ptr ∧
      ((ep_poller_reset_out s h).buf j).events &&& EPOLLIN =
        (s.buf j).events &&& EPOLLIN ∧
      ((ep_poller_reset_out s h).buf j).events &&& EPOLLERRHUP =
        (s.buf j).events &&& EPOLLERRHUP ∧
      ((s.buf j).ptr ≠ h → (ep_poller_reset_out s h).buf j = s.buf j) := by
  simp only [ep_poller_reset_out]
  split
  · exact ⟨rfl, rfl, fun j => ⟨rfl, rfl, rfl, fun _ => rfl⟩⟩
  · refine ⟨rfl, rfl, fun j => ?_⟩
    dsimp only
    simp only [epScrub]
    by_cases hc : s.index ≤ j ∧ j < s.nevents ∧ (s.buf j).ptr = h
    · rw [if_pos hc]
      refine ⟨rfl, land_notout_in _, land_const _ _ _ _ (by decide), ?_⟩
      intro hp
      exact absurd hc.2.2 hp
    · rw [if_neg hc]
      exact ⟨rfl, rfl, rfl, fun _ => rfl⟩

theorem kq_reset_in_write_unchanged (s : KqState) (h : Nat) :
    ∀ j, (s.buf j).filter = KFilter.write →
      (kq_poller_reset_in s h).buf j = s.buf j := by
  obtain ⟨-, -, hbuf⟩ := kq_reset_in_fields s h
  intro j hw
  rw [hbuf j, if_neg]
  rintro ⟨-, -, -, hr⟩
  rw [hw] at hr
  exact absurd hr (by simp)

theorem kq_reset_out_read_unchanged (s : KqState) (h : Nat) :
    ∀ j, (s.buf j).filter = KFilter.read →
      (kq_poller_reset_out s h).buf j = s.buf j := by
  obtain ⟨-, -, hbuf⟩ := kq_reset_out_fields s h
  intro j hw
  rw [hbuf j, if_neg]
  rintro ⟨-, -, -, hr⟩
  rw [hw] at hr
  exact absurd hr (by simp)

theorem pl_reset_in_pointwise (s : PollState) (h : Nat) :
    (pl_poller_reset_in s h).index = s.index ∧
    (pl_poller_reset_in s h).size = s.size ∧
    (pl_poller_reset_in s h).hndls = s.hndls ∧
    (∀ j, j ≠ s.heap h → (pl_poller_reset_in s h).pollset j = s.pollset j) ∧
    ((pl_poller_reset_in s h).pollset (s.heap h)).fd =
      (s.pollset (s.heap h)).fd ∧
    ((pl_poller_reset_in s h).pollset (s.heap h)).revents &&& POLLOUT =
      (s.pollset (s.heap h)).revents &&& POLLOUT ∧
    ((pl_poller_reset_in s h).pollset (s.heap h)).revents &&& POLLERRBITS =
      (s.pollset (s.heap h)).revents &&& POLLERRBITS := by
  refine ⟨rfl, rfl, rfl, ?_, ?_, ?_, ?_⟩
  · intro j hj
    simp only [pl_poller_reset_in]
    rw [upd_other _ _ _ _ hj]
  · simp only [pl_poller_reset_in]
    rw [upd_same]
  · simp only [pl_poller_reset_in]
    rw [upd_same]
    exact land_notin_out _
  · simp only [pl_poller_reset_in]
    rw [upd_same]
    exact land_const _ _ _ _ (by decide)

theorem pl_reset_out_pointwise (s : PollState) (h : Nat) :
    (pl_poller_reset_out s h).index = s.index ∧
    (pl_poller_reset_out s h).size = s.size ∧
    (pl_poller_reset_out s h).hndls = s.hndls ∧
    (∀ j, j ≠ s.heap h → (pl_poller_reset_out s h).pollset j = s.pollset j) ∧
    ((pl_poller_reset_out s h).pollset (s.heap h)).fd =
      (s.pollset (s.heap h)).fd ∧
    ((pl_poller_reset_out s h).pollset (s.heap h)).revents &&& POLLIN =
      (s.pollset (s.heap h)).revents &&& POLLIN ∧
    ((pl_poller_reset_out s h).pollset (s.heap h)).revents &&& POLLERRBITS =
      (s.pollset (s.heap h)).revents &&& POLLERRBITS := by
  refine ⟨rfl, rfl, rfl, ?_, ?_, ?_, ?_⟩
  · intro j hj
    simp only [pl_poller_reset_out]
    rw [upd_other _ _ _ _ hj]
  · simp only [pl_poller_reset_out]
    rw [upd_same]
  · simp only [pl_poller_reset_out]
    rw [upd_same]
    exact land_notout_in _
  · simp only [pl_poller_reset_out]
    rw [upd_same]
    exact land_const _ _ _ _ (by decide)

/-- Concrete kqueue state: the read filter of fd 5 (handle 7) fired with
EV_EOF set, so the buffered record would drain as an ERR event. -/
def kqC2 : KqState :=
  { kreg := [(5, .read, 7)],
    buf := fun j => if j = 0 then ⟨5, .read, true, some 7⟩
           else ⟨0, .read, false, none⟩,
    nevents := 1, index := 0,
    heap := fun h => if h = 7 then ⟨5, 1⟩ else ⟨0, 0⟩, kcalls := 0 }

/-- C2 counterexample: in the kqueue backend a buffered record for handle
7 that drains as an ERR event (EV_EOF on the read filter) is neutralized
by reset_in(7), so an event of a kind other than IN is suppressed by the
reset of the IN kind, contradicting the claim that buffered events of
other kinds are unaffected. -/
theorem claim_C2_counterexample :
    kqRun kqC2 [KqOp.drain] = [(NnEv.ERR, 7)] ∧
    kqRun kqC2 [KqOp.resetIn 7, KqOp.drain] = [] := by
  constructor
  · rfl
  · rfl

/-- C2 amended: reset_in(h) (resp. reset_out(h)) suppresses delivery of
buffered IN (resp. OUT) events for h in every backend, across any further
non-wait operations.  Buffered events of other kinds are unaffected in
the epoll and poll backends (pointwise: the cursor, the batch length, the
entry ownership, and the other readiness bits are preserved, and entries
of other handles are untouched).  In the kqueue backend only records of
the other filter are untouched: reset_in neutralizes whole read-filter
records, including one that would drain as ERR because of EV_EOF. -/
theorem claim_C2_amended :
    ((∀ (s : EpState) (h : Nat) (ops : List EpOp),
       (∀ op ∈ ops, epNonWait op = true) →
       ((s.heap h).events &&& EPOLLIN = 0 → epNoMaskH EPOLLIN h s) →
       (NnEv.IN, h) ∉ epRun (ep_poller_reset_in s h) ops) ∧
     (∀ (s : EpState) (h : Nat) (ops : List EpOp),
       (∀ op ∈ ops, epNonWait op = true) →
       ((s.heap h).events &&& EPOLLOUT = 0 → epNoMaskH EPOLLOUT h s) →
       (NnEv.OUT, h) ∉ epRun (ep_poller_reset_out s h) ops) ∧
     (∀ (s : EpState) (h : Nat),
       (ep_poller_reset_in s h).index = s.index ∧
       (ep_poller_reset_in s h).nevents = s.nevents ∧
       ∀ j, ((ep_poller_reset_in s h).buf j).ptr = (s.buf j).ptr ∧
         ((ep_poller_reset_in s h).buf j).events &&& EPOLLOUT =
           (s.buf j).events &&& EPOLLOUT ∧
         ((ep_poller_reset_in s h).buf j).events &&& EPOLLERRHUP =
           (s.buf j).events &&& EPOLLERRHUP ∧
         ((s.buf j).ptr ≠ h → (ep_poller_reset_in s h).buf j = s.buf j))) ∧
    ((∀ (s : KqState) (h : Nat) (ops : List KqOp),
       (∀ op ∈ ops, kqNonWait op = true) →
       (∀ j, j < s.nevents → s.index ≤ j → (s.buf j).udata = some h →
          (s.buf j).ident = (s.heap h).fd) →
       (NnEv.IN, h) ∉ kqRun (kq_poller_reset_in s h) ops) ∧
     (∀ (s : KqState) (h : Nat) (ops : List KqOp),
       (∀ op ∈ ops, kqNonWait op = true) →
       (∀ j, j < s.nevents → s.index ≤ j → (s.buf j).udata = some h →
          (s.buf j).ident = (s.heap h).fd) →
       (NnEv.OUT, h) ∉ kqRun (kq_poller_reset_out s h) ops) ∧
     (∀ (s : KqState) (h : Nat) (j : Nat),
       ((s.buf j).filter = KFilter.write →
          (kq_poller_reset_in s h).buf j = s.buf j) ∧
       ((s.buf j).filter = KFilter.read →
          (kq_poller_reset_out s h).buf j = s.buf j))) ∧
    ((∀ (s : PollState) (h : Nat) (ops : List PlOp), h ≠ 0 →
       (∀ op ∈ ops, plNonWait op = true) →
       (∀ j, j < s.size → (s.hndls j).hndl = some h → j = s.heap h) →
       (NnEv.IN, h) ∉ plRun (pl_poller_reset_in s h) ops) ∧
     (∀ (s : PollState) (h : Nat) (ops : List PlOp), h ≠ 0 →
       (∀ op ∈ ops, plNonWait op = true) →
       (∀ j, j < s.size → (s.hndls j).hndl = some h → j = s.heap h) →
       (NnEv.OUT, h) ∉ plRun (pl_poller_reset_out s h) ops) ∧
     (∀ (s : PollState) (h : Nat),
       (pl_poller_reset_in s h).index = s.index ∧
       (pl_poller_reset_in s h).hndls = s.hndls ∧
       (∀ j, j ≠ s.heap h → (pl_poller_reset_in s h).pollset j = s.pollset j) ∧
       ((pl_poller_reset_in s h).pollset (s.heap h)).revents &&& POLLOUT =
         (s.pollset (s.heap h)).revents &&& POLLOUT ∧
       ((pl_poller_reset_in s h).pollset (s.heap h)).revents &&& POLLERRBITS =
         (s.pollset (s.heap h)).revents &&& POLLERRBITS)) := by
  refine ⟨⟨?_, ?_, ?_⟩, ⟨?_, ?_, ?_⟩, ⟨?_, ?_, ?_⟩⟩
  · intro s h ops hops hsync hmem
    exact ep_run_no_kind EPOLLIN h NnEv.IN
      (fun x _ => land_notin_in x)
      (fun x hx => (land_notout_in x).trans hx)
      (fun s' p s2 hno he => ep_event_no_in h s' hno p s2 he)
      ops _ hops (ep_reset_in_establishes h s hsync) _ hmem rfl
  · intro s h ops hops hsync hmem
    exact ep_run_no_kind EPOLLOUT h NnEv.OUT
      (fun x hx => (land_notin_out x).trans hx)
      (fun x _ => land_notout_out x)
      (fun s' p s2 hno he => ep_event_no_out h s' hno p s2 he)
      ops _ hops (ep_reset_out_establishes h s hsync) _ hmem rfl
  · intro s h
    exact ep_reset_in_pointwise s h
  · intro s h ops hops hfd hmem
    exact kq_run_no_kind .read h NnEv.IN
      (fun s' p s2 hno he => kq_event_no_in h s' hno p s2 he)
      ops _ hops (kq_reset_in_establishes h s hfd) _ hmem rfl
  · intro s h ops hops hfd hmem
    exact kq_run_no_kind .write h NnEv.OUT
      (fun s' p s2 hno he => kq_event_no_out h s' hno p s2 he)
      ops _ hops (kq_reset_out_establishes h s hfd) _ hmem rfl
  · intro s h j
    exact ⟨kq_reset_in_write_unchanged s h j, kq_reset_out_read_unchanged s h j⟩
  · intro s h ops h0 hops hwf hmem
    exact pl_run_no_kind POLLIN h NnEv.IN
      (fun x _ => land_notin_in x)
      (fun x hx => (land_notout_in x).trans hx)
      (fun s' p s2 hno he => pl_event_no_in h h0 s' hno p s2 he)
      ops _ hops (pl_reset_in_establishes h s hwf) _ hmem rfl
  · intro s h ops h0 hops hwf hmem
    exact pl_run_no_kind POLLOUT h NnEv.OUT
      (fun x hx => (land_notin_out x).trans hx)
      (fun x _ => land_notout_out x)
      (fun s' p s2 hno he => pl_event_no_out h h0 s' hno p s2 he)
      ops _ hops (pl_reset_out_establishes h s hwf) _ hmem rfl
  · intro s h
    obtain ⟨h1, -, h3, h4, -, h6, h7⟩ := pl_reset_in_pointwise s h
    exact ⟨h1, h3, h4, h6, h7⟩

/-- Concrete epoll state with a buffered OUT event for handle 7. -/
def epW2 : EpState :=
  { kernel := [(5, 4, 7)],
    buf := fun j => if j = 0 then ⟨4, 7⟩ else ⟨0, 0⟩,
    nevents := 1, index := 0,
    heap := fun h => if h = 7 then ⟨5, 4⟩ else ⟨0, 0⟩, kcalls := 0 }

/-- Concrete kqueue state with a buffered write-filter event for
handle 7. -/
def kqW2 : KqState :=
  { kreg := [(5, .write, 7)],
    buf := fun j => if j = 0 then ⟨5, .write, false, some 7⟩
           else ⟨0, .read, false, none⟩,
    nevents := 1, index := 0,
    heap := fun h => if h = 7 then ⟨5, 2⟩ else ⟨0, 0⟩, kcalls := 0 }

/-- Concrete poll state with a pending POLLOUT revent for handle 7. -/
def plW2 : PollState :=
  { pollset := fun j => if j = 0 then ⟨5, 4, 4⟩ else ⟨0, 0, 0⟩,
    hndls := fun j => if j = 0 then ⟨some 7, none, none⟩ else ⟨none, none, none⟩,
    size := 1, capacity := 16, index := 0, removed := none,
    heap := fun _ => 0 }

theorem claim_C2_amended_witness :
    ((NnEv.IN, 7) ∉ epRun (ep_poller_reset_in epW1 7) [EpOp.drain, EpOp.drain] ∧
     (NnEv.OUT, 7) ∉ epRun (ep_poller_reset_out epW2 7) [EpOp.drain, EpOp.drain]) ∧
    ((NnEv.IN, 7) ∉ kqRun (kq_poller_reset_in kqW1 7) [KqOp.drain, KqOp.drain] ∧
     (NnEv.OUT, 7) ∉ kqRun (kq_poller_reset_out kqW2 7) [KqOp.drain, KqOp.drain]) ∧
    ((NnEv.IN, 7) ∉ plRun (pl_poller_reset_in plW1 7) [PlOp.drain, PlOp.drain] ∧
     (NnEv.OUT, 7) ∉ plRun (pl_poller_reset_out plW2 7) [PlOp.drain, PlOp.drain]) :=
  ⟨⟨claim_C2_amended.1.1 epW1 7 [EpOp.drain, EpOp.drain] (by decide)
      (fun hh => absurd hh (by decide)),
    claim_C2_amended.1.2.1 epW2 7 [EpOp.drain, EpOp.drain] (by decide)
      (fun hh => absurd hh (by decide))⟩,
   ⟨claim_C2_amended.2.1.1 kqW1 7 [KqOp.drain, KqOp.drain] (by decide) (by decide),
    claim_C2_amended.2.1.2.1 kqW2 7 [KqOp.drain, KqOp.drain] (by decide) (by decide)⟩,
   ⟨claim_C2_amended.2.2.1 plW1 7 [PlOp.drain, PlOp.drain] (by decide) (by decide)
      (by decide),
    claim_C2_amended.2.2.2.1 plW2 7 [PlOp.drain, PlOp.drain] (by decide) (by decide)
      (by decide)⟩⟩

theorem upd_keep_hndl (hn : Nat → HItem) (p : Nat) (it : HItem)
    (hp : it.hndl = (hn p).hndl) (j : Nat) :
    ((upd hn p it) j).hndl = (hn j).hndl := by
  by_cases hj : j = p
  · subst hj
    rw [upd_same, hp]
  · rw [upd_other _ _ _ _ hj]

theorem plStepHA_hndl (s : PollState) (i j : Nat) :
    (plStepHA s i j).hndl = (s.hndls j).hndl := by
  unfold plStepHA
  split
  · rcases hnx : (s.hndls i).next with _ | nx <;> simp only [hnx]
    apply upd_keep_hndl
    rfl
  · rfl

theorem plStepHB_hndl (s : PollState) (i j : Nat) :
    (plStepHB s i j).hndl =
      (if i ≠ s.size - 1 ∧ j = i then (s.hndls (s.size - 1)).hndl
       else (s.hndls j).hndl) := by
  unfold plStepHB
  by_cases hi : i ≠ s.size - 1
  · rw [if_pos hi]
    by_cases hj : j = i
    · subst hj
      rw [upd_same, if_pos ⟨hi, rfl⟩, plStepHA_hndl]
    · rw [upd_other _ _ _ _ hj, if_neg (fun hc => hj hc.2), plStepHA_hndl]
  · rw [if_neg hi, if_neg (fun hc => hi hc.1), plStepHA_hndl]

theorem plStepHC_hndl (s : PollState) (i j : Nat) :
    (plStepHC s i j).hndl = (plStepHB s i j).hndl := by
  unfold plStepHC
  split
  · rcases hnx : (plStepHB s i i).prev with _ | p <;> simp only [hnx]
    apply upd_keep_hndl
    rfl
  · rfl

theorem plStepHD_hndl (s : PollState) (i j : Nat) :
    (plStepHD s i j).hndl = (plStepHB s i j).hndl := by
  unfold plStepHD
  split
  · rcases hnx : (plStepHC s i i).next with _ | nx <;> simp only [hnx] <;>
      first
        | exact plStepHC_hndl s i j
        | (rw [← plStepHC_hndl s i j]
           apply upd_keep_hndl
           rfl)
  · exact plStepHC_hndl s i j

theorem plStepPS_char (s : PollState) (i j : Nat) :
    plStepPS s i j =
      (if i ≠ s.size - 1 ∧ j = i then s.pollset (s.size - 1)
       else s.pollset j) := by
  unfold plStepPS
  by_cases hi : i ≠ s.size - 1
  · rw [if_pos hi]
    by_cases hj : j = i
    · subst hj
      rw [upd_same, if_pos ⟨hi, rfl⟩]
    · rw [upd_other _ _ _ _ hj, if_neg (fun hc => hj hc.2)]
  · rw [if_neg hi, if_neg (fun hc => hi hc.1)]

/-- Each slot of the state after one compaction iteration carries the
struct pollfd and the handle backreference of one and the same slot of
the state before it. -/
theorem plCompactStep_track (s : PollState) (i j : Nat) :
    ∃ m, (plCompactStep s i).pollset j = s.pollset m ∧
         ((plCompactStep s i).hndls j).hndl = (s.hndls m).hndl := by
  by_cases hc : i ≠ s.size - 1 ∧ j = i
  · refine ⟨s.size - 1, ?_, ?_⟩
    · show plStepPS s i j = _
      rw [plStepPS_char, if_pos hc]
    · show (plStepHD s i j).hndl = _
      rw [plStepHD_hndl, plStepHB_hndl, if_pos hc]
  · refine ⟨j, ?_, ?_⟩
    · show plStepPS s i j = _
      rw [plStepPS_char, if_neg hc]
    · show (plStepHD s i j).hndl = _
      rw [plStepHD_hndl, plStepHB_hndl, if_neg hc]

theorem plCompactGo_track (fuel : Nat) :
    ∀ (s : PollState) (j : Nat),
      ∃ m, (plCompactGo fuel s).pollset j = s.pollset m ∧
           ((plCompactGo fuel s).hndls j).hndl = (s.hndls m).hndl := by
  induction fuel with
  | zero => intro s j; exact ⟨j, rfl, rfl⟩
  | succ f ih =>
    intro s j
    rw [plCompactGo]
    rcases hr : s.removed with _ | i
    · exact ⟨j, rfl, rfl⟩
    · rcases ih (plCompactStep s i) j with ⟨m1, hp1, hh1⟩
      rcases plCompactStep_track s i m1 with ⟨m, hp2, hh2⟩
      exact ⟨m, hp1.trans hp2, hh1.trans hh2⟩

/-! ## Zero-interest machinery (claim about add before set_in/set_out) -/

/-- The two maskable readiness bits EPOLLIN plus EPOLLOUT (also POLLIN
plus POLLOUT). -/
def EPINOUT : Nat := 5

theorem land_sub_zero (x a b : Nat) (hab : a &&& b = b) (hx : x &&& a = 0) :
    x &&& b = 0 := by
  rw [← hab, ← Nat.land_assoc, hx, Nat.zero_and]

theorem land5_notin (x : Nat) (hx : x &&& EPINOUT = 0) :
    x &&& NOT_EPOLLIN &&& EPINOUT = 0 := by
  rw [Nat.land_assoc]
  have h4 : NOT_EPOLLIN &&& EPINOUT = 4 := by decide
  rw [h4]
  exact land_sub_zero x EPINOUT 4 (by decide) hx

theorem land5_notout (x : Nat) (hx : x &&& EPINOUT = 0) :
    x &&& NOT_EPOLLOUT &&& EPINOUT = 0 := by
  rw [Nat.land_assoc]
  have h1 : NOT_EPOLLOUT &&& EPINOUT = 1 := by decide
  rw [h1]
  exact land_sub_zero x EPINOUT 1 (by decide) hx

/-- Zero-interest invariant for handle h in the epoll backend: the kernel
mask registered for h is all zero, the handle itself requests nothing,
and no live buffer entry for h carries a maskable readiness bit. -/
def epZeroH (h : Nat) (s : EpState) : Prop :=
  (∀ r ∈ s.kernel, r.2.2 = h → r.2.1 = 0) ∧
  (s.heap h).events = 0 ∧
  epNoMaskH EPINOUT h s

/-- Operations that keep a handle at zero interest: everything except
set_in and set_out on that handle; wait is allowed. -/
def epC3Op (h : Nat) : EpOp → Bool
  | .setIn g => g != h
  | .setOut g => g != h
  | _ => true

theorem epBatch_mem (kernel : List (Int × Nat × Nat)) (ready : Int → Nat)
    (x : EpEntry) (hx : x ∈ epBatch kernel ready) :
    ∃ r ∈ kernel, x = ⟨ready r.1 &&& (r.2.1 ||| EPOLLERRHUP), r.2.2⟩ := by
  unfold epBatch at hx
  have hx2 := List.take_subset NN_POLLER_MAX_EVENTS _ hx
  rcases List.mem_filterMap.mp hx2 with ⟨r, hr, hf⟩
  dsimp only at hf
  split at hf
  · exact ⟨r, hr, ((Option.some.injEq _ _).mp hf).symm⟩
  · exact absurd hf (by simp)

theorem ep_c3_preserves (h : Nat) (op : EpOp) (s : EpState)
    (hop : epC3Op h op = true) (hz : epZeroH h s) : epZeroH h (epApply op s) := by
  obtain ⟨hk, hh, hb⟩ := hz
  cases op with
  | add fd g =>
    refine ⟨?_, ?_, hb⟩
    · intro r hr hrh
      rcases List.mem_append.mp hr with hr | hr
      · exact hk r hr hrh
      · rcases List.mem_singleton.mp hr with rfl
        rfl
    · simp only [epApply, ep_poller_add, upd]
      by_cases hgh : h = g
      · rw [if_pos hgh]
      · rw [if_neg hgh]
        exact hh
  | rm g =>
    refine ⟨?_, hh, ?_⟩
    · intro r hr hrh
      exact hk r (List.mem_of_mem_filter hr) hrh
    · exact ep_apply_mask_preserves EPINOUT h land5_notin land5_notout
        (.rm g) s rfl hb
  | setIn g =>
    have hgh : g ≠ h := by simpa [epC3Op] using hop
    simp only [epApply, ep_poller_set_in]
    split
    · exact ⟨hk, hh, hb⟩
    · refine ⟨?_, ?_, hb⟩
      · intro r hr hrh
        rcases List.mem_map.mp hr with ⟨r0, hr0, hfr⟩
        by_cases hc : r0.1 = (s.heap g).fd
        · rw [if_pos hc] at hfr
          rw [← hfr] at hrh
          exact absurd hrh hgh
        · rw [if_neg hc] at hfr
          exact hk r0 hr0 (hfr ▸ hrh) ▸ (hfr ▸ rfl)
      · dsimp only
        rw [upd_other _ _ _ _ (fun hc => hgh hc.symm)]
        exact hh
  | setOut g =>
    have hgh : g ≠ h := by simpa [epC3Op] using hop
    simp only [epApply, ep_poller_set_out]
    split
    · exact ⟨hk, hh, hb⟩
    · refine ⟨?_, ?_, hb⟩
      · intro r hr hrh
        rcases List.mem_map.mp hr with ⟨r0, hr0, hfr⟩
        by_cases hc : r0.1 = (s.heap g).fd
        · rw [if_pos hc] at hfr
          rw [← hfr] at hrh
          exact absurd hrh hgh
        · rw [if_neg hc] at hfr
          exact hk r0 hr0 (hfr ▸ hrh) ▸ (hfr ▸ rfl)
      · dsimp only
        rw [upd_other _ _ _ _ (fun hc => hgh hc.symm)]
        exact hh
  | resetIn g =>
    have hbuf := ep_apply_mask_preserves EPINOUT h land5_notin land5_notout
      (.resetIn g) s rfl hb
    simp only [epApply, ep_poller_reset_in] at hbuf ⊢
    split
    · exact ⟨hk, hh, hb⟩
    · refine ⟨?_, ?_, ?_⟩
      · intro r hr hrh
        rcases List.mem_map.mp hr with ⟨r0, hr0, hfr⟩
        by_cases hc : r0.1 = (s.heap g).fd
        · rw [if_pos hc] at hfr
          by_cases hgh : g = h
          · rename_i hbit
            rw [hgh, hh, Nat.zero_and] at hbit
            exact absurd rfl hbit
          · rw [← hfr] at hrh
            exact absurd hrh hgh
        · rw [if_neg hc] at hfr
          exact hk r0 hr0 (hfr ▸ hrh) ▸ (hfr ▸ rfl)
      · dsimp only
        by_cases hgh : h = g
        · rename_i hbit
          rw [← hgh, hh, Nat.zero_and] at hbit
          exact absurd rfl hbit
        · rw [upd_other _ _ _ _ hgh]
          exact hh
      · rename_i hbit
        rw [if_neg hbit] at hbuf
        exact hbuf
  | resetOut g =>
    have hbuf := ep_apply_mask_preserves EPINOUT h land5_notin land5_notout
      (.resetOut g) s rfl hb
    simp only [epApply, ep_poller_reset_out] at hbuf ⊢
    split
    · exact ⟨hk, hh, hb⟩
    · refine ⟨?_, ?_, ?_⟩
      · intro r hr hrh
        rcases List.mem_map.mp hr with ⟨r0, hr0, hfr⟩
        by_cases hc : r0.1 = (s.heap g).fd
        · rw [if_pos hc] at hfr
          by_cases hgh : g = h
          · rename_i hbit
            rw [hgh, hh, Nat.zero_and] at hbit
            exact absurd rfl hbit
          · rw [← hfr] at hrh
            exact absurd hrh hgh
        · rw [if_neg hc] at hfr
          exact hk r0 hr0 (hfr ▸ hrh) ▸ (hfr ▸ rfl)
      · dsimp only
        by_cases hgh : h = g
        · rename_i hbit
          rw [← hgh, hh, Nat.zero_and] at hbit
          exact absurd rfl hbit
        · rw [upd_other _ _ _ _ hgh]
          exact hh
      · rename_i hbit
        rw [if_neg hbit] at hbuf
        exact hbuf
  | drain =>
    refine ⟨?_, ?_, ?_⟩
    · have hkeq : (epApply .drain s).kernel = s.kernel := by
        rcases ep_event_char s _ rfl with ⟨_, hc⟩ | ⟨_, _, hcase⟩
        · simp only [epApply, hc]
        · rcases hcase with ⟨_, hc⟩ | ⟨_, _, hc⟩ | ⟨_, _, hc⟩ <;>
            simp only [epApply, hc]
      rw [hkeq]
      exact hk
    · have hheq : (epApply .drain s).heap = s.heap := by
        rcases ep_event_char s _ rfl with ⟨_, hc⟩ | ⟨_, _, hcase⟩
        · simp only [epApply, hc]
        · rcases hcase with ⟨_, hc⟩ | ⟨_, _, hc⟩ | ⟨_, _, hc⟩ <;>
            simp only [epApply, hc]
      rw [hheq]
      exact hh
    · exact ep_apply_mask_preserves EPINOUT h land5_notin land5_notout
        .drain s rfl hb
  | wait t g =>
    refine ⟨hk, hh, ?_⟩
    intro j hj1 hj2 hj3
    simp only [epApply, ep_poller_wait] at hj1 hj2 hj3 ⊢
    set b := epWaitLoop g.eintrs s.kernel g.ready with hbdef
    have hbb : b = epBatch s.kernel g.ready := by
      rw [hbdef]
      clear hbdef hj1 hj2 hj3
      induction g.eintrs with
      | zero => rfl
      | succ n ih => simpa [epWaitLoop] using ih
    by_cases hjl : j < b.length
    · have hget : b.getD j ⟨0, 0⟩ = b[j] := List.getD_eq_getElem b ⟨0, 0⟩ hjl
      rw [hget] at hj3 ⊢
      have hmem : b[j] ∈ epBatch s.kernel g.ready := by
        rw [← hbb]
        exact List.getElem_mem hjl
      rcases epBatch_mem s.kernel g.ready _ hmem with ⟨r, hr, hre⟩
      rw [hre] at hj3 ⊢
      dsimp only at hj3 ⊢
      have hm0 : r.2.1 = 0 := hk r hr hj3
      rw [hm0]
      have h245 : (0 ||| EPOLLERRHUP) &&& EPINOUT = 0 := by decide
      rw [Nat.land_assoc, h245, Nat.and_zero]
    · have hget : b.getD j ⟨0, 0⟩ = ⟨0, 0⟩ := by
        apply List.getD_eq_default
        omega
      rw [hget]
      exact Nat.zero_and EPINOUT

theorem epNoMaskH_weaken (a b h : Nat) (s : EpState) (hab : a &&& b = b)
    (hno : epNoMaskH a h s) : epNoMaskH b h s :=
  fun j h1 h2 h3 => land_sub_zero _ _ _ hab (hno j h1 h2 h3)

theorem ep_c3_run (h : Nat) (ops : List EpOp) :
    ∀ s : EpState, (∀ op ∈ ops, epC3Op h op = true) → epZeroH h s →
      ∀ q ∈ epRun s ops, q ≠ (NnEv.IN, h) ∧ q ≠ (NnEv.OUT, h) := by
  induction ops with
  | nil => intro s _ _ q hq; simp [epRun] at hq
  | cons op rest ih =>
    intro s hops hz q hq
    have hop : epC3Op h op = true := hops op (List.mem_cons_self op rest)
    have hrest : ∀ o ∈ rest, epC3Op h o = true :=
      fun o ho => hops o (List.mem_cons_of_mem op ho)
    have hnext : epZeroH h (epApply op s) := ep_c3_preserves h op s hop hz
    cases op with
    | drain =>
      rcases he : ep_poller_event s with ⟨p?, s2⟩
      have hs2 : epZeroH h s2 := by
        have hp := hnext
        simp only [epApply, he] at hp
        exact hp
      cases p? with
      | some p =>
        simp only [epRun, he, List.mem_cons] at hq
        rcases hq with hq | hq
        · subst hq
          constructor
          · exact ep_event_no_in h s
              (epNoMaskH_weaken EPINOUT EPOLLIN h s (by decide) hz.2.2) q s2 he
          · exact ep_event_no_out h s
              (epNoMaskH_weaken EPINOUT EPOLLOUT h s (by decide) hz.2.2) q s2 he
        · exact ih s2 hrest hs2 q hq
      | none =>
        simp only [epRun, he] at hq
        exact ih s2 hrest hs2 q hq
    | add fd g =>
      simp only [epRun] at hq
      exact ih _ hrest hnext q hq
    | rm g =>
      simp only [epRun] at hq
      exact ih _ hrest hnext q hq
    | setIn g =>
      simp only [epRun] at hq
      exact ih _ hrest hnext q hq
    | setOut g =>
      simp only [epRun] at hq
      exact ih _ hrest hnext q hq
    | resetIn g =>
      simp only [epRun] at hq
      exact ih _ hrest hnext q hq
    | resetOut g =>
      simp only [epRun] at hq
      exact ih _ hrest hnext q hq
    | wait t g =>
      simp only [epRun] at hq
      exact ih _ hrest hnext q hq

/-- Zero-interest invariant for handle h in the kqueue backend: no filter
registration names h and no live buffer entry references h.  With no
filter registered, h can receive no event at all, ERR included. -/
def kqZeroH (h : Nat) (s : KqState) : Prop :=
  (∀ r ∈ s.kreg, r.2.2 ≠ h) ∧ kqNoH h s

def kqC3Op (h : Nat) : KqOp → Bool
  | .setIn g => g != h
  | .setOut g => g != h
  | _ => true

theorem kqBatch_mem (kreg : List (Int × KFilter × Nat))
    (ready : Int → KFilter → Option Bool) (x : KqEntry)
    (hx : x ∈ kqBatch kreg ready) :
    ∃ r ∈ kreg, x.udata = some r.2.2 := by
  unfold kqBatch at hx
  have hx2 := List.take_subset NN_POLLER_MAX_EVENTS _ hx
  rcases List.mem_filterMap.mp hx2 with ⟨r, hr, hf⟩
  split at hf
  · refine ⟨r, hr, ?_⟩
    rw [← (Option.some.injEq _ _).mp hf]
  · exact absurd hf (by simp)

theorem kq_c3_preserves (h : Nat) (op : KqOp) (s : KqState)
    (hop : kqC3Op h op = true) (hz : kqZeroH h s) : kqZeroH h (kqApply op s) := by
  obtain ⟨hk, hb⟩ := hz
  cases op with
  | add fd g => exact ⟨hk, hb⟩
  | rm g =>
    refine ⟨?_, kq_rm_preserves h g s hb⟩
    simp only [kqApply, kq_poller_rm]
    split <;> split <;>
      (intro r hr
       first
         | exact hk r hr
         | exact hk r (List.mem_of_mem_filter hr)
         | exact hk r (List.mem_of_mem_filter (List.mem_of_mem_filter hr)))
  | setIn g =>
    have hgh : g ≠ h := by simpa [kqC3Op] using hop
    refine ⟨?_, kq_set_in_preserves h g s hb⟩
    simp only [kqApply, kq_poller_set_in]
    split
    · intro r hr
      rcases List.mem_append.mp hr with hr | hr
      · exact hk r hr
      · rcases List.mem_singleton.mp hr with rfl
        exact hgh
    · exact hk
  | setOut g =>
    have hgh : g ≠ h := by simpa [kqC3Op] using hop
    refine ⟨?_, kq_set_out_preserves h g s hb⟩
    simp only [kqApply, kq_poller_set_out]
    split
    · intro r hr
      rcases List.mem_append.mp hr with hr | hr
      · exact hk r hr
      · rcases List.mem_singleton.mp hr with rfl
        exact hgh
    · exact hk
  | resetIn g =>
    refine ⟨?_, kq_reset_in_preserves h g s hb⟩
    simp only [kqApply, kq_poller_reset_in]
    split <;>
      (intro r hr
       first
         | exact hk r hr
         | exact hk r (List.mem_of_mem_filter hr))
  | resetOut g =>
    refine ⟨?_, kq_reset_out_preserves h g s hb⟩
    simp only [kqApply, kq_poller_reset_out]
    split <;>
      (intro r hr
       first
         | exact hk r hr
         | exact hk r (List.mem_of_mem_filter hr))
  | drain =>
    refine ⟨?_, kq_event_preserves h s hb⟩
    have hkeq : (kqApply .drain s).kreg = s.kreg := by
      rcases kq_event_char s _ rfl with ⟨_, hc⟩ | ⟨_, _, hc⟩ <;>
        simp only [kqApply, hc]
    rw [hkeq]
    exact hk
  | wait cfg t g =>
    constructor
    · have hkeq : (kqApply (KqOp.wait cfg t g) s).kreg = s.kreg := by
        simp only [kqApply, kq_poller_wait]
        split <;> rfl
      rw [hkeq]
      exact hk
    · intro j hj1 hj2
      simp only [kqApply, kq_poller_wait] at hj1 hj2 ⊢
      by_cases hcond : g.interrupted = true ∧ cfg = false
      · rw [if_pos hcond] at hj2
        dsimp only at hj2
        omega
      · rw [if_neg hcond] at hj1 hj2 ⊢
        dsimp only at hj1 hj2 ⊢
        set b := kqBatch s.kreg g.ready with hbdef
        by_cases hjl : j < b.length
        · have hget : b.getD j ⟨0, .read, false, none⟩ = b[j] :=
            List.getD_eq_getElem b _ hjl
          rw [hget]
          have hmem : b[j] ∈ kqBatch s.kreg g.ready := by
            rw [← hbdef]
            exact List.getElem_mem hjl
          rcases kqBatch_mem s.kreg g.ready _ hmem with ⟨r, hr, hre⟩
          rw [hre]
          intro hc
          exact hk r hr ((Option.some.injEq _ _).mp hc)
        · have hget : b.getD j ⟨0, .read, false, none⟩ = ⟨0, .read, false, none⟩ := by
            apply List.getD_eq_default
            omega
          rw [hget]
          simp

theorem kq_c3_run (h : Nat) (ops : List KqOp) :
    ∀ s : KqState, (∀ op ∈ ops, kqC3Op h op = true) → kqZeroH h s →
      ∀ q ∈ kqRun s ops, q.2 ≠ h := by
  induction ops with
  | nil => intro s _ _ q hq; simp [kqRun] at hq
  | cons op rest ih =>
    intro s hops hz q hq
    have hop : kqC3Op h op = true := hops op (List.mem_cons_self op rest)
    have hrest : ∀ o ∈ rest, kqC3Op h o = true :=
      fun o ho => hops o (List.mem_cons_of_mem op ho)
    have hnext : kqZeroH h (kqApply op s) := kq_c3_preserves h op s hop hz
    cases op with
    | drain =>
      rcases he : kq_poller_event s with ⟨p?, s2⟩
      have hs2 : kqZeroH h s2 := by
        have hp := hnext
        simp only [kqApply, he] at hp
        exact hp
      cases p? with
      | some p =>
        simp only [kqRun, he, List.mem_cons] at hq
        rcases hq with hq | hq
        · subst hq
          exact kq_event_ne h s hz.2 q s2 he
        · exact ih s2 hrest hs2 q hq
      | none =>
        simp only [kqRun, he] at hq
        exact ih s2 hrest hs2 q hq
    | add fd g =>
      simp only [kqRun] at hq
      exact ih _ hrest hnext q hq
    | rm g =>
      simp only [kqRun] at hq
      exact ih _ hrest hnext q hq
    | setIn g =>
      simp only [kqRun] at hq
      exact ih _ hrest hnext q hq
    | setOut g =>
      simp only [kqRun] at hq
      exact ih _ hrest hnext q hq
    | resetIn g =>
      simp only [kqRun] at hq
      exact ih _ hrest hnext q hq
    | resetOut g =>
      simp only [kqRun] at hq
      exact ih _ hrest hnext q hq
    | wait cfg t g =>
      simp only [kqRun] at hq
      exact ih _ hrest hnext q hq

/-- Zero-interest invariant for handle h in the poll backend: every slot
whose backreference is h has no maskable bit in either events or
revents. -/
def plZeroH (h : Nat) (s : PollState) : Prop :=
  ∀ j, (s.hndls j).hndl = some h →
    (s.pollset j).events &&& EPINOUT = 0 ∧
    (s.pollset j).revents &&& EPINOUT = 0

/-- Per-operation contract for the poll backend while h stays at zero
interest: set_in and set_out may be called on any other handle, provided
that handle is properly registered (its stored index names a slot whose
backreference is that handle, which every in-contract call site
guarantees, since nn_poller_set_in writes pollset[hndl->index]); every
other operation, wait included, is unrestricted. -/
def plC3OpOk (h : Nat) (s : PollState) : PlOp → Prop
  | .setIn g => g ≠ h ∧ (s.hndls (s.heap g)).hndl = some g
  | .setOut g => g ≠ h ∧ (s.hndls (s.heap g)).hndl = some g
  | _ => True

/-- A run is in contract when every operation satisfies the contract in
the state it actually executes in. -/
def plC3Run (h : Nat) : PollState → List PlOp → Prop
  | _, [] => True
  | s, op :: rest => plC3OpOk h s op ∧ plC3Run h (plApply op s) rest

theorem fill_mask_zero (ready ev : Nat) (hev : ev &&& EPINOUT = 0) :
    ready &&& (ev ||| POLLERRBITS) &&& EPINOUT = 0 := by
  rw [Nat.land_assoc, lor_land_distrib, hev]
  have h560 : POLLERRBITS &&& EPINOUT = 0 := by decide
  have h00 : ((0 : Nat) ||| 0) = 0 := by decide
  rw [h560, h00, Nat.and_zero]

theorem pl_c3_preserves (h : Nat) (op : PlOp) (s : PollState)
    (hop : plC3OpOk h s op) (hz : plZeroH h s) : plZeroH h (plApply op s) := by
  cases op with
  | add fd g =>
    intro j hj
    simp only [plApply, pl_poller_add, upd] at hj ⊢
    by_cases hjs : j = s.size
    · rw [if_pos hjs]
      exact ⟨Nat.zero_and _, Nat.zero_and _⟩
    · rw [if_neg hjs] at hj ⊢
      exact hz j hj
  | rm g =>
    obtain ⟨-, -, -, -, -, hps, hhn⟩ := pl_rm_fields s g
    simp only [plApply]
    intro j hj
    rw [hhn j] at hj
    rw [hps j]
    by_cases hjg : j = s.heap g
    · rw [if_pos hjg] at hj
      exact absurd hj (by simp)
    · rw [if_neg hjg] at hj ⊢
      exact hz j hj
  | setIn g =>
    obtain ⟨hgh, hreg⟩ := hop
    intro j hj
    have hj2 : (s.hndls j).hndl = some h := hj
    have hjg : j ≠ s.heap g := by
      intro hje
      rw [hje, hreg] at hj2
      exact hgh (Option.some.inj hj2)
    simp only [plApply, pl_poller_set_in, upd]
    rw [if_neg hjg]
    exact hz j hj2
  | setOut g =>
    obtain ⟨hgh, hreg⟩ := hop
    intro j hj
    have hj2 : (s.hndls j).hndl = some h := hj
    have hjg : j ≠ s.heap g := by
      intro hje
      rw [hje, hreg] at hj2
      exact hgh (Option.some.inj hj2)
    simp only [plApply, pl_poller_set_out, upd]
    rw [if_neg hjg]
    exact hz j hj2
  | resetIn g =>
    intro j hj
    simp only [plApply, pl_poller_reset_in, upd] at hj ⊢
    by_cases hjg : j = s.heap g
    · rw [if_pos hjg]
      dsimp only
      obtain ⟨h1, h2⟩ := hz j hj
      rw [hjg] at h1 h2
      exact ⟨land5_notin _ h1, land5_notin _ h2⟩
    · rw [if_neg hjg]
      exact hz j hj
  | resetOut g =>
    intro j hj
    simp only [plApply, pl_poller_reset_out, upd] at hj ⊢
    by_cases hjg : j = s.heap g
    · rw [if_pos hjg]
      dsimp only
      obtain ⟨h1, h2⟩ := hz j hj
      rw [hjg] at h1 h2
      exact ⟨land5_notout _ h1, land5_notout _ h2⟩
    · rw [if_neg hjg]
      exact hz j hj
  | drain =>
    simp only [plApply]
    rcases pl_event_char s _ rfl with ⟨_, hc⟩ | ⟨hlt, hnz, hcase⟩
    · rw [hc]
      intro j hj
      exact hz j hj
    · rcases hcase with ⟨_, hc⟩ | ⟨_, _, hc⟩ | ⟨_, _, hc⟩ <;> rw [hc] <;>
        (intro j hj
         dsimp only at hj ⊢)
      · by_cases hji : j = plSkip s.pollset s.size s.index
        · obtain ⟨h1, h2⟩ := hz j hj
          rw [hji] at h1 h2 ⊢
          rw [upd_same]
          exact ⟨h1, land5_notin _ h2⟩
        · rw [upd_other _ _ _ _ hji]
          exact hz j hj
      · by_cases hji : j = plSkip s.pollset s.size s.index
        · obtain ⟨h1, h2⟩ := hz j hj
          rw [hji] at h1 h2 ⊢
          rw [upd_same]
          exact ⟨h1, land5_notout _ h2⟩
        · rw [upd_other _ _ _ _ hji]
          exact hz j hj
      · exact hz j hj
  | wait cfg t g =>
    have hcomp : plZeroH h (plCompactGo s.size s) := by
      intro j hj
      rcases plCompactGo_track s.size s j with ⟨m, hp, hh⟩
      rw [hh] at hj
      rw [hp]
      exact hz m hj
    intro j hj
    simp only [plApply, pl_poller_wait] at hj ⊢
    by_cases hcond : g.interrupted = true ∧ cfg = false
    · rw [if_pos hcond] at hj ⊢
      dsimp only at hj ⊢
      exact hcomp j hj
    · rw [if_neg hcond] at hj ⊢
      dsimp only at hj ⊢
      by_cases hjs : j < (plCompactGo s.size s).size
      · rw [if_pos hjs]
        obtain ⟨h1, h2⟩ := hcomp j hj
        dsimp only
        exact ⟨h1, fill_mask_zero _ _ h1⟩
      · rw [if_neg hjs]
        exact hcomp j hj

theorem plZeroH_noMask_in (h : Nat) (s : PollState) (hz : plZeroH h s) :
    plNoMaskH POLLIN h s :=
  fun j _ _ hj => land_sub_zero _ _ _ (by decide) (hz j hj).2

theorem plZeroH_noMask_out (h : Nat) (s : PollState) (hz : plZeroH h s) :
    plNoMaskH POLLOUT h s :=
  fun j _ _ hj => land_sub_zero _ _ _ (by decide) (hz j hj).2

theorem pl_c3_run (h : Nat) (h0 : h ≠ 0) (ops : List PlOp) :
    ∀ s : PollState, plC3Run h s ops → plZeroH h s →
      ∀ q ∈ plRun s ops, q ≠ (NnEv.IN, h) ∧ q ≠ (NnEv.OUT, h) := by
  induction ops with
  | nil => intro s _ _ q hq; simp [plRun] at hq
  | cons op rest ih =>
    intro s hops hz q hq
    obtain ⟨hop, hrest⟩ := hops
    have hnext : plZeroH h (plApply op s) := pl_c3_preserves h op s hop hz
    cases op with
    | drain =>
      rcases he : pl_poller_event s with ⟨p?, s2⟩
      have hs2 : plZeroH h s2 := by
        have hp := hnext
        simp only [plApply, he] at hp
        exact hp
      have hr2 : plC3Run h s2 rest := by
        have hr := hrest
        simp only [plApply, he] at hr
        exact hr
      cases p? with
      | some p =>
        simp only [plRun, he, List.mem_cons] at hq
        rcases hq with hq | hq
        · subst hq
          constructor
          · exact pl_event_no_in h h0 s (plZeroH_noMask_in h s hz) q s2 he
          · exact pl_event_no_out h h0 s (plZeroH_noMask_out h s hz) q s2 he
        · exact ih s2 hr2 hs2 q hq
      | none =>
        simp only [plRun, he] at hq
        exact ih s2 hr2 hs2 q hq
    | add fd g =>
      simp only [plRun] at hq
      exact ih _ hrest hnext q hq
    | rm g =>
      simp only [plRun] at hq
      exact ih _ hrest hnext q hq
    | setIn g =>
      simp only [plRun] at hq
      exact ih _ hrest hnext q hq
    | setOut g =>
      simp only [plRun] at hq
      exact ih _ hrest hnext q hq
    | resetIn g =>
      simp only [plRun] at hq
      exact ih _ hrest hnext q hq
    | resetOut g =>
      simp only [plRun] at hq
      exact ih _ hrest hnext q hq
    | wait cfg t g =>
      simp only [plRun] at hq
      exact ih _ hrest hnext q hq

/-- The state nn_poller_init builds in the epoll backend on success. -/
def epInit0 : EpState :=
  { kernel := [], buf := fun _ => ⟨0, 0⟩, nevents := 0, index := 0,
    heap := fun _ => ⟨0, 0⟩, kcalls := 0 }

/-- The state nn_poller_init builds in the kqueue backend on success. -/
def kqInit0 : KqState :=
  { kreg := [], buf := fun _ => ⟨0, .read, false, none⟩, nevents := 0,
    index := 0, heap := fun _ => ⟨0, 0⟩, kcalls := 0 }

/-- The state nn_poller_init builds in the poll backend on success. -/
def plInit0 : PollState :=
  { pollset := fun _ => ⟨0, 0, 0⟩, hndls := fun _ => ⟨none, none, none⟩,
    size := 0, capacity := NN_POLLER_GRANULARITY, index := 0,
    removed := none, heap := fun _ => 0 }

/-- C3 counterexample: in the epoll backend a handle registered by add
with zero interest and never passed to set_in or set_out still receives
an ERR event: a hangup (EPOLLHUP, bit 0x10) is reported by the kernel
regardless of the registered mask, the batch stores it, and drain
delivers (ERR, handle).  The claim asserts no event of any kind, ERR
included. -/
theorem claim_C3_counterexample :
    epRun (ep_poller_add epInit0 5 7)
      [EpOp.wait (-1) ⟨0, fun _ => 16⟩, EpOp.drain] = [(NnEv.ERR, 7)] := by
  rfl

/-- C3 amended: a handle registered with zero interest receives no IN and
no OUT event from any later drain, across arbitrary waits, drains and
mutations of other handles, until set_in or set_out is called on it; in
the kqueue backend it receives no event at all, ERR included, because
add registers nothing with the kernel.  In the epoll and poll backends an
ERR event can still be delivered, since error and hangup conditions are
reported regardless of the requested mask.  In the poll backend a set_in
or set_out on another handle carries its call-site contract: the target
handle is registered and its stored index names its own slot, which is
what every in-contract caller guarantees and what makes the write to
pollset[hndl->index] unable to touch a slot of h.  The first conjunct of
each backend grounds the zero-interest invariant at add on a fresh
context. -/
theorem claim_C3_amended :
    ((∀ (r : Except Nat Nat) (s0 : EpState) (fd : Int) (h : Nat),
        ep_poller_init r = InitOut.ok s0 → epZeroH h (ep_poller_add s0 fd h)) ∧
     (∀ (s : EpState) (h : Nat) (ops : List EpOp),
        (∀ op ∈ ops, epC3Op h op = true) → epZeroH h s →
        (NnEv.IN, h) ∉ epRun s ops ∧ (NnEv.OUT, h) ∉ epRun s ops)) ∧
    ((∀ (r : Except Nat Nat) (s0 : KqState) (fd : Int) (h : Nat),
        kq_poller_init r = InitOut.ok s0 → kqZeroH h (kq_poller_add s0 fd h)) ∧
     (∀ (s : KqState) (h : Nat) (ops : List KqOp),
        (∀ op ∈ ops, kqC3Op h op = true) → kqZeroH h s →
        h ∉ (kqRun s ops).map Prod.snd)) ∧
    ((∀ (allocOk : Bool) (s0 : PollState) (fd : Int) (h : Nat),
        pl_poller_init allocOk = InitOut.ok s0 → plZeroH h (pl_poller_add s0 fd h)) ∧
     (∀ (s : PollState) (h : Nat) (ops : List PlOp), h ≠ 0 →
        plC3Run h s ops → plZeroH h s →
        (NnEv.IN, h) ∉ plRun s ops ∧ (NnEv.OUT, h) ∉ plRun s ops)) := by
  refine ⟨⟨?_, ?_⟩, ⟨?_, ?_⟩, ⟨?_, ?_⟩⟩
  · intro r s0 fd h hinit
    have hs0 : s0 = epInit0 := by
      cases r with
      | ok fd2 =>
        simp only [ep_poller_init] at hinit
        cases hinit
        rfl
      | error e =>
        simp only [ep_poller_init] at hinit
        split at hinit <;> cases hinit
    subst hs0
    refine ⟨?_, ?_, ?_⟩
    · intro q hq hqh
      simp only [ep_poller_add, epInit0, List.nil_append] at hq
      rcases List.mem_singleton.mp hq with rfl
      rfl
    · simp [ep_poller_add, upd]
    · intro j hj1 hj2 hj3
      exact absurd hj2 (by simp [ep_poller_add, epInit0])
  · intro s h ops hops hz
    constructor
    · intro hmem
      exact (ep_c3_run h ops s hops hz _ hmem).1 rfl
    · intro hmem
      exact (ep_c3_run h ops s hops hz _ hmem).2 rfl
  · intro r s0 fd h hinit
    have hs0 : s0 = kqInit0 := by
      cases r with
      | ok fd2 =>
        simp only [kq_poller_init] at hinit
        cases hinit
        rfl
      | error e =>
        simp only [kq_poller_init] at hinit
        split at hinit <;> cases hinit
    subst hs0
    refine ⟨?_, ?_⟩
    · intro q hq
      simp [kq_poller_add, kqInit0] at hq
    · intro j hj1 hj2
      exact absurd hj2 (by simp [kq_poller_add, kqInit0])
  · intro s h ops hops hz hmem
    rcases List.mem_map.mp hmem with ⟨q, hq, hqh⟩
    exact kq_c3_run h ops s hops hz q hq hqh
  · intro allocOk s0 fd h hinit
    have hs0 : s0 = plInit0 := by
      cases allocOk with
      | true =>
        simp only [pl_poller_init] at hinit
        cases hinit
        rfl
      | false =>
        simp only [pl_poller_init] at hinit
        cases hinit
    subst hs0
    intro j hj
    simp only [pl_poller_add, plInit0, upd] at hj ⊢
    by_cases hj0 : j = 0
    · rw [if_pos hj0]
      exact ⟨Nat.zero_and _, Nat.zero_and _⟩
    · rw [if_neg hj0] at hj
      exact absurd hj (by simp)
  · intro s h ops h0 hrun hz
    constructor
    · intro hmem
      exact (pl_c3_run h h0 ops s hrun hz _ hmem).1 rfl
    · intro hmem
      exact (pl_c3_run h h0 ops s hrun hz _ hmem).2 rfl

/-- Two-handle poll context for the C3 witness: handle 7 added with zero
interest at slot 0, handle 9 added at slot 1. -/
def plW3 : PollState := pl_poller_add (pl_poller_add plInit0 5 7) 6 9

theorem claim_C3_amended_witness :
    ((NnEv.IN, 7) ∉ epRun (ep_poller_add epInit0 5 7)
        [EpOp.wait (-1) ⟨0, fun _ => 21⟩, EpOp.drain, EpOp.drain] ∧
     (NnEv.OUT, 7) ∉ epRun (ep_poller_add epInit0 5 7)
        [EpOp.wait (-1) ⟨0, fun _ => 21⟩, EpOp.drain, EpOp.drain]) ∧
    (7 ∉ (kqRun (kq_poller_add kqInit0 5 7)
        [KqOp.wait false (-1) ⟨false, fun _ _ => some false⟩, KqOp.drain]).map
          Prod.snd) ∧
    ((NnEv.IN, 7) ∉ plRun plW3
        [PlOp.setIn 9, PlOp.wait false (-1) ⟨false, fun _ => 21⟩,
         PlOp.drain, PlOp.drain] ∧
     (NnEv.OUT, 7) ∉ plRun plW3
        [PlOp.setIn 9, PlOp.wait false (-1) ⟨false, fun _ => 21⟩,
         PlOp.drain, PlOp.drain]) := by
  have hz : plZeroH 7 plW3 := by
    intro j hj
    by_cases h0 : j = 0
    · subst h0
      exact ⟨by decide, by decide⟩
    · by_cases h1 : j = 1
      · subst h1
        exact absurd hj (by decide)
      · exact absurd hj (by simp [plW3, pl_poller_add, plInit0, upd, h0, h1])
  have hrun : plC3Run 7 plW3
      [PlOp.setIn 9, PlOp.wait false (-1) ⟨false, fun _ => 21⟩,
       PlOp.drain, PlOp.drain] :=
    ⟨⟨by decide, by decide⟩, trivial, trivial, trivial, trivial⟩
  exact
    ⟨claim_C3_amended.1.2 (ep_poller_add epInit0 5 7) 7
       [EpOp.wait (-1) ⟨0, fun _ => 21⟩, EpOp.drain, EpOp.drain] (by decide)
       (claim_C3_amended.1.1 (Except.ok 3) epInit0 5 7 rfl),
     claim_C3_amended.2.1.2 (kq_poller_add kqInit0 5 7) 7
       [KqOp.wait false (-1) ⟨false, fun _ _ => some false⟩, KqOp.drain]
       (by decide)
       (claim_C3_amended.2.1.1 (Except.ok 3) kqInit0 5 7 rfl),
     claim_C3_amended.2.2.2 plW3 7
       [PlOp.setIn 9, PlOp.wait false (-1) ⟨false, fun _ => 21⟩,
        PlOp.drain, PlOp.drain] (by decide) hrun hz⟩

theorem upd_upd_same {α : Type} (f : Nat → α) (i : Nat) (a b : α) :
    upd (upd f i a) i b = upd f i b := by
  funext j
  by_cases hj : j = i
  · rw [hj, upd_same, upd_same]
  · rw [upd_other _ _ _ _ hj, upd_other _ _ _ _ hj, upd_other _ _ _ _ hj]

theorem ep_set_in_already (s : EpState) (h : Nat)
    (hbit : (s.heap h).events &&& EPOLLIN ≠ 0) : ep_poller_set_in s h = s := by
  simp only [ep_poller_set_in, if_pos hbit]

theorem ep_set_in_fresh (s : EpState) (h : Nat)
    (hbit : (s.heap h).events &&& EPOLLIN = 0) :
    (ep_poller_set_in s h).kcalls = s.kcalls + 1 ∧
    ((ep_poller_set_in s h).heap h).events &&& EPOLLIN ≠ 0 := by
  rw [ep_poller_set_in, if_neg (by simpa using hbit)]
  refine ⟨rfl, ?_⟩
  dsimp only
  rw [upd_same]
  exact lor_in_has_in _

theorem ep_set_out_already (s : EpState) (h : Nat)
    (hbit : (s.heap h).events &&& EPOLLOUT ≠ 0) : ep_poller_set_out s h = s := by
  simp only [ep_poller_set_out, if_pos hbit]

theorem ep_set_out_fresh (s : EpState) (h : Nat)
    (hbit : (s.heap h).events &&& EPOLLOUT = 0) :
    (ep_poller_set_out s h).kcalls = s.kcalls + 1 ∧
    ((ep_poller_set_out s h).heap h).events &&& EPOLLOUT ≠ 0 := by
  rw [ep_poller_set_out, if_neg (by simpa using hbit)]
  refine ⟨rfl, ?_⟩
  dsimp only
  rw [upd_same]
  exact lor_out_has_out _

theorem kq_set_in_already (s : KqState) (h : Nat)
    (hbit : (s.heap h).events &&& NN_POLLER_EVENT_IN ≠ 0) :
    kq_poller_set_in s h = s := by
  simp only [kq_poller_set_in, if_neg (by simpa using hbit)]

theorem kq_set_in_fresh (s : KqState) (h : Nat)
    (hbit : (s.heap h).events &&& NN_POLLER_EVENT_IN = 0) :
    (kq_poller_set_in s h).kcalls = s.kcalls + 1 ∧
    ((kq_poller_set_in s h).heap h).events &&& NN_POLLER_EVENT_IN ≠ 0 := by
  rw [kq_poller_set_in, if_pos hbit]
  refine ⟨rfl, ?_⟩
  dsimp only
  rw [upd_same]
  exact lor_in_has_in _

theorem lor_out2_has_out2 (m : Nat) :
    (m ||| NN_POLLER_EVENT_OUT) &&& NN_POLLER_EVENT_OUT ≠ 0 := by
  intro h
  have ht : ((m ||| NN_POLLER_EVENT_OUT) &&& NN_POLLER_EVENT_OUT).testBit 1 = true := by
    simp only [Nat.testBit_land, Nat.testBit_lor, NN_POLLER_EVENT_OUT]
    have h2 : Nat.testBit 2 1 = true := by decide
    rw [h2, Bool.or_true, Bool.true_and]
  rw [h] at ht
  simp [Nat.zero_testBit] at ht

theorem kq_set_out_already (s : KqState) (h : Nat)
    (hbit : (s.heap h).events &&& NN_POLLER_EVENT_OUT ≠ 0) :
    kq_poller_set_out s h = s := by
  simp only [kq_poller_set_out, if_neg (by simpa using hbit)]

theorem kq_set_out_fresh (s : KqState) (h : Nat)
    (hbit : (s.heap h).events &&& NN_POLLER_EVENT_OUT = 0) :
    (kq_poller_set_out s h).kcalls = s.kcalls + 1 ∧
    ((kq_poller_set_out s h).heap h).events &&& NN_POLLER_EVENT_OUT ≠ 0 := by
  rw [kq_poller_set_out, if_pos hbit]
  refine ⟨rfl, ?_⟩
  dsimp only
  rw [upd_same]
  exact lor_out2_has_out2 _

/-- C4: set_in and set_out are idempotent.  In the epoll and kqueue
backends, a call finding the interest bit already set leaves the whole
state unchanged and issues no kernel registration call; a call finding it
unset issues exactly one (kcalls grows by one) and sets the bit; two
consecutive set_in calls equal one, and from a clear bit they issue
exactly one registration call in total.  reset_in with the bit unset
issues no kernel call (in the epoll backend it is a complete no-op).  In
the poll backend interest changes involve no kernel call at all and
set_in twice equals set_in once. -/
theorem claim_C4 :
    ((∀ (s : EpState) (h : Nat), (s.heap h).events &&& EPOLLIN ≠ 0 →
        ep_poller_set_in s h = s) ∧
     (∀ (s : EpState) (h : Nat), (s.heap h).events &&& EPOLLIN = 0 →
        (ep_poller_set_in s h).kcalls = s.kcalls + 1 ∧
        ((ep_poller_set_in s h).heap h).events &&& EPOLLIN ≠ 0) ∧
     (∀ (s : EpState) (h : Nat),
        ep_poller_set_in (ep_poller_set_in s h) h = ep_poller_set_in s h) ∧
     (∀ (s : EpState) (h : Nat), (s.heap h).events &&& EPOLLIN = 0 →
        (ep_poller_set_in (ep_poller_set_in s h) h).kcalls = s.kcalls + 1) ∧
     (∀ (s : EpState) (h : Nat), (s.heap h).events &&& EPOLLOUT ≠ 0 →
        ep_poller_set_out s h = s) ∧
     (∀ (s : EpState) (h : Nat),
        ep_poller_set_out (ep_poller_set_out s h) h = ep_poller_set_out s h) ∧
     (∀ (s : EpState) (h : Nat), (s.heap h).events &&& EPOLLIN = 0 →
        ep_poller_reset_in s h = s) ∧
     (∀ (s : EpState) (h : Nat), (s.heap h).events &&& EPOLLOUT = 0 →
        ep_poller_reset_out s h = s)) ∧
    ((∀ (s : KqState) (h : Nat), (s.heap h).events &&& NN_POLLER_EVENT_IN ≠ 0 →
        kq_poller_set_in s h = s) ∧
     (∀ (s : KqState) (h : Nat), (s.heap h).events &&& NN_POLLER_EVENT_IN = 0 →
        (kq_poller_set_in s h).kcalls = s.kcalls + 1 ∧
        ((kq_poller_set_in s h).heap h).events &&& NN_POLLER_EVENT_IN ≠ 0) ∧
     (∀ (s : KqState) (h : Nat),
        kq_poller_set_in (kq_poller_set_in s h) h = kq_poller_set_in s h) ∧
     (∀ (s : KqState) (h : Nat), (s.heap h).events &&& NN_POLLER_EVENT_IN = 0 →
        (kq_poller_set_in (kq_poller_set_in s h) h).kcalls = s.kcalls + 1) ∧
     (∀ (s : KqState) (h : Nat), (s.heap h).events &&& NN_POLLER_EVENT_OUT ≠ 0 →
        kq_poller_set_out s h = s) ∧
     (∀ (s : KqState) (h : Nat),
        kq_poller_set_out (kq_poller_set_out s h) h = kq_poller_set_out s h) ∧
     (∀ (s : KqState) (h : Nat), (s.heap h).events &&& NN_POLLER_EVENT_IN = 0 →
        (kq_poller_reset_in s h).kcalls = s.kcalls) ∧
     (∀ (s : KqState) (h : Nat), (s.heap h).events &&& NN_POLLER_EVENT_OUT = 0 →
        (kq_poller_reset_out s h).kcalls = s.kcalls)) ∧
    ((∀ (s : PollState) (h : Nat),
        pl_poller_set_in (pl_poller_set_in s h) h = pl_poller_set_in s h) ∧
     (∀ (s : PollState) (h : Nat),
        pl_poller_set_out (pl_poller_set_out s h) h = pl_poller_set_out s h)) := by
  refine ⟨⟨?_, ?_, ?_, ?_, ?_, ?_, ?_, ?_⟩, ⟨?_, ?_, ?_, ?_, ?_, ?_, ?_, ?_⟩,
    ⟨?_, ?_⟩⟩
  · exact ep_set_in_already
  · exact ep_set_in_fresh
  · intro s h
    by_cases hbit : (s.heap h).events &&& EPOLLIN ≠ 0
    · rw [ep_set_in_already s h hbit]
      exact ep_set_in_already s h hbit
    · push_neg at hbit
      exact ep_set_in_already _ h (ep_set_in_fresh s h hbit).2
  · intro s h hbit
    rw [ep_set_in_already _ h (ep_set_in_fresh s h hbit).2]
    exact (ep_set_in_fresh s h hbit).1
  · exact ep_set_out_already
  · intro s h
    by_cases hbit : (s.heap h).events &&& EPOLLOUT ≠ 0
    · rw [ep_set_out_already s h hbit]
      exact ep_set_out_already s h hbit
    · push_neg at hbit
      exact ep_set_out_already _ h (ep_set_out_fresh s h hbit).2
  · intro s h hbit
    simp only [ep_poller_reset_in, if_pos hbit]
  · intro s h hbit
    simp only [ep_poller_reset_out, if_pos hbit]
  · exact kq_set_in_already
  · exact kq_set_in_fresh
  · intro s h
    by_cases hbit : (s.heap h).events &&& NN_POLLER_EVENT_IN ≠ 0
    · rw [kq_set_in_already s h hbit]
      exact kq_set_in_already s h hbit
    · push_neg at hbit
      exact kq_set_in_already _ h (kq_set_in_fresh s h hbit).2
  · intro s h hbit
    rw [kq_set_in_already _ h (kq_set_in_fresh s h hbit).2]
    exact (kq_set_in_fresh s h hbit).1
  · exact kq_set_out_already
  · intro s h
    by_cases hbit : (s.heap h).events &&& NN_POLLER_EVENT_OUT ≠ 0
    · rw [kq_set_out_already s h hbit]
      exact kq_set_out_already s h hbit
    · push_neg at hbit
      exact kq_set_out_already _ h (kq_set_out_fresh s h hbit).2
  · intro s h hbit
    rw [kq_poller_reset_in]
    rw [if_neg (by simpa using hbit)]
  · intro s h hbit
    rw [kq_poller_reset_out]
    rw [if_neg (by simpa using hbit)]
  · intro s h
    simp only [pl_poller_set_in]
    rw [upd_same]
    dsimp only
    rw [upd_upd_same]
    rw [Nat.lor_assoc, Nat.or_self]
  · intro s h
    simp only [pl_poller_set_out]
    rw [upd_same]
    dsimp only
    rw [upd_upd_same]
    rw [Nat.lor_assoc, Nat.or_self]

theorem claim_C4_witness :
    (epW1.heap 7).events &&& EPOLLIN ≠ 0 ∧
    ep_poller_set_in epW1 7 = epW1 ∧
    (epInit0.heap 7).events &&& EPOLLIN = 0 ∧
    (ep_poller_set_in epInit0 7).kcalls = epInit0.kcalls + 1 ∧
    (ep_poller_set_in (ep_poller_set_in epInit0 7) 7).kcalls = epInit0.kcalls + 1 ∧
    ep_poller_reset_in epInit0 7 = epInit0 ∧
    (kqInit0.heap 7).events &&& NN_POLLER_EVENT_IN = 0 ∧
    (kq_poller_set_in kqInit0 7).kcalls = kqInit0.kcalls + 1 ∧
    (kq_poller_set_in (kq_poller_set_in kqInit0 7) 7).kcalls = kqInit0.kcalls + 1 ∧
    (kq_poller_reset_in kqInit0 7).kcalls = kqInit0.kcalls ∧
    pl_poller_set_in (pl_poller_set_in plW1 7) 7 = pl_poller_set_in plW1 7 :=
  ⟨by decide,
   claim_C4.1.1 epW1 7 (by decide),
   by decide,
   (claim_C4.1.2.1 epInit0 7 (by decide)).1,
   claim_C4.1.2.2.2.1 epInit0 7 (by decide),
   claim_C4.1.2.2.2.2.2.2.1 epInit0 7 (by decide),
   by decide,
   (claim_C4.2.1.2.1 kqInit0 7 (by decide)).1,
   claim_C4.2.1.2.2.2.1 kqInit0 7 (by decide),
   claim_C4.2.1.2.2.2.2.2.2.1 kqInit0 7 (by decide),
   claim_C4.2.2.1 plW1 7⟩

/-- C5: init returns the resource-exhaustion error -EMFILE exactly when
the kernel queue allocation fails with ENFILE or EMFILE (descriptor table
full); on success the event buffer is empty with the cursor at zero; any
other failure aborts (errno_assert / alloc_assert), and in the poll
backend, which allocates no kernel resource, a failed array allocation
aborts and no resource-exhaustion error is ever returned. -/
theorem claim_C5 :
    ((∀ e : Nat, ep_poller_init (.error e) = InitOut.emfile ↔
        (e = ENFILE ∨ e = EMFILE)) ∧
     (∀ e : Nat, e ≠ ENFILE → e ≠ EMFILE →
        ep_poller_init (.error e) = InitOut.fatal) ∧
     (∀ fd : Nat, ep_poller_init (.ok fd) = InitOut.ok epInit0 ∧
        epInit0.nevents = 0 ∧ epInit0.index = 0)) ∧
    ((∀ e : Nat, kq_poller_init (.error e) = InitOut.emfile ↔
        (e = ENFILE ∨ e = EMFILE)) ∧
     (∀ e : Nat, e ≠ ENFILE → e ≠ EMFILE →
        kq_poller_init (.error e) = InitOut.fatal) ∧
     (∀ fd : Nat, kq_poller_init (.ok fd) = InitOut.ok kqInit0 ∧
        kqInit0.nevents = 0 ∧ kqInit0.index = 0)) ∧
    (pl_poller_init true = InitOut.ok plInit0 ∧
     plInit0.size = 0 ∧ plInit0.index = 0 ∧ plInit0.removed = none ∧
     plInit0.capacity = NN_POLLER_GRANULARITY ∧
     pl_poller_init false = InitOut.fatal ∧
     ∀ a : Bool, pl_poller_init a ≠ InitOut.emfile) := by
  refine ⟨⟨?_, ?_, ?_⟩, ⟨?_, ?_, ?_⟩, rfl, rfl, rfl, rfl, rfl, rfl, ?_⟩
  · intro e
    constructor
    · intro hinit
      by_cases hc : e = ENFILE ∨ e = EMFILE
      · exact hc
      · rw [ep_poller_init, if_neg hc] at hinit
        cases hinit
    · intro hc
      rw [ep_poller_init, if_pos hc]
  · intro e h1 h2
    rw [ep_poller_init, if_neg]
    rintro (hc | hc)
    · exact h1 hc
    · exact h2 hc
  · intro fd
    exact ⟨rfl, rfl, rfl⟩
  · intro e
    constructor
    · intro hinit
      by_cases hc : e = ENFILE ∨ e = EMFILE
      · exact hc
      · rw [kq_poller_init, if_neg hc] at hinit
        cases hinit
    · intro hc
      rw [kq_poller_init, if_pos hc]
  · intro e h1 h2
    rw [kq_poller_init, if_neg]
    rintro (hc | hc)
    · exact h1 hc
    · exact h2 hc
  · intro fd
    exact ⟨rfl, rfl, rfl⟩
  · intro a
    cases a <;> intro hc <;> cases hc

theorem claim_C5_witness :
    (ep_poller_init (.error EMFILE) = InitOut.emfile ∧
     ep_poller_init (.error 13) = InitOut.fatal ∧
     ep_poller_init (.ok 4) = InitOut.ok epInit0) ∧
    (kq_poller_init (.error ENFILE) = InitOut.emfile ∧
     kq_poller_init (.error 12) = InitOut.fatal ∧
     kq_poller_init (.ok 4) = InitOut.ok kqInit0) ∧
    pl_poller_init true ≠ InitOut.emfile :=
  ⟨⟨(claim_C5.1.1 EMFILE).mpr (Or.inr rfl),
    claim_C5.1.2.1 13 (by decide) (by decide),
    (claim_C5.1.2.2 4).1⟩,
   ⟨(claim_C5.2.1.1 ENFILE).mpr (Or.inl rfl),
    claim_C5.2.1.2.1 12 (by decide) (by decide),
    (claim_C5.2.1.2.2 4).1⟩,
   claim_C5.2.2.2.2.2.2.2.2 true⟩

/-- The stored batch of an epoll-backend state as a list. -/
def epBufList (s : EpState) : List EpEntry :=
  (List.range s.nevents).map s.buf

/-- The stored batch of a kqueue-backend state as a list. -/
def kqBufList (s : KqState) : List KqEntry :=
  (List.range s.nevents).map s.buf

/-- The revents words of all registered slots of a poll-backend state. -/
def plReventsList (s : PollState) : List Nat :=
  (List.range s.size).map (fun j => (s.pollset j).revents)

theorem range_map_getD {α : Type} (b : List α) (d : α) :
    (List.range b.length).map (fun j => b.getD j d) = b := by
  apply List.ext_getElem
  · simp
  · intro i h1 h2
    simp only [List.getElem_map, List.getElem_range]
    exact List.getD_eq_getElem b d h2

theorem epWaitLoop_eq (n : Nat) (k : List (Int × Nat × Nat)) (ready : Int → Nat) :
    epWaitLoop n k ready = epBatch k ready := by
  induction n with
  | zero => rfl
  | succ m ih => simpa [epWaitLoop] using ih

/-- C6 counterexample: in the poll backend, a wait that surfaces EINTR
resets the cursor but leaves the previous revents in place, so a drain
that follows it delivers an event of the previous batch even though the
kernel reported nothing at all in this cycle (the readiness oracle is
identically zero), contradicting the claim that every wait call replaces
the event-buffer contents with a fresh batch. -/
theorem claim_C6_counterexample :
    plRun plW1 [PlOp.wait false (-1) ⟨true, fun _ => 0⟩, PlOp.drain] =
      [(NnEv.IN, 7)] := by
  rfl

/-- C6 amended: every wait call resets the drain cursor to zero, a
negative timeout blocks indefinitely, zero polls, and a positive timeout
bounds the wait in milliseconds (the kqueue backend converts it to a
timespec with the same total duration).  A wait that completes replaces
the event-buffer contents with the fresh kernel batch; a wait that
surfaces EINTR cannot happen in the epoll backend (it always retries),
leaves the buffer empty in the kqueue backend, and in the poll backend
leaves the undelivered revents of the previous batch in place behind the
reset cursor. -/
theorem claim_C6_amended :
    ((∀ (s : EpState) (t : Int) (g : EpOracle),
        (ep_poller_wait s t g).1 = 0 ∧
        (ep_poller_wait s t g).2.index = 0 ∧
        epBufList (ep_poller_wait s t g).2 = epBatch s.kernel g.ready) ∧
     (∀ t : Int, t < 0 → epWaitBlock t = BlockSpec.indefinite) ∧
     (∀ t : Int, 0 ≤ t → epWaitBlock t = BlockSpec.boundedNs (t * 1000000))) ∧
    ((∀ (cfg : Bool) (s : KqState) (t : Int) (g : KqOracle),
        (kq_poller_wait cfg s t g).2.index = 0) ∧
     (∀ (cfg : Bool) (s : KqState) (t : Int) (g : KqOracle),
        ¬(g.interrupted = true ∧ cfg = false) →
        (kq_poller_wait cfg s t g).1 = 0 ∧
        kqBufList (kq_poller_wait cfg s t g).2 = kqBatch s.kreg g.ready) ∧
     (∀ (s : KqState) (t : Int) (g : KqOracle), g.interrupted = true →
        (kq_poller_wait false s t g).1 = -4 ∧
        (kq_poller_wait false s t g).2.nevents = 0) ∧
     (∀ t : Int, t < 0 → kqWaitBlock t = BlockSpec.indefinite) ∧
     (∀ t : Int, 0 ≤ t → kqWaitBlock t = BlockSpec.boundedNs (t * 1000000))) ∧
    ((∀ (cfg : Bool) (s : PollState) (t : Int) (g : PlOracle),
        (pl_poller_wait cfg s t g).2.index = 0) ∧
     (∀ (cfg : Bool) (s : PollState) (t : Int) (g : PlOracle),
        ¬(g.interrupted = true ∧ cfg = false) →
        (pl_poller_wait cfg s t g).1 = 0 ∧
        plReventsList (pl_poller_wait cfg s t g).2 =
          (List.range (plCompactGo s.size s).size).map (fun j =>
            g.ready ((plCompactGo s.size s).pollset j).fd &&&
              (((plCompactGo s.size s).pollset j).events ||| POLLERRBITS))) ∧
     (∀ (s : PollState) (t : Int) (g : PlOracle), g.interrupted = true →
        (pl_poller_wait false s t g).1 = -4 ∧
        (pl_poller_wait false s t g).2.pollset =
          (plCompactGo s.size s).pollset) ∧
     (∀ t : Int, t < 0 → plWaitBlock t = BlockSpec.indefinite) ∧
     (∀ t : Int, 0 ≤ t → plWaitBlock t = BlockSpec.boundedNs (t * 1000000))) := by
  refine ⟨⟨?_, ?_, ?_⟩, ⟨?_, ?_, ?_, ?_, ?_⟩, ⟨?_, ?_, ?_, ?_, ?_⟩⟩
  · intro s t g
    refine ⟨rfl, rfl, ?_⟩
    simp only [ep_poller_wait, epBufList]
    rw [epWaitLoop_eq]
    exact range_map_getD (epBatch s.kernel g.ready) ⟨0, 0⟩
  · intro t ht
    rw [epWaitBlock, if_pos ht]
  · intro t ht
    rw [epWaitBlock, if_neg (by omega)]
  · intro cfg s t g
    simp only [kq_poller_wait]
    split <;> rfl
  · intro cfg s t g hcond
    rw [kq_poller_wait, if_neg hcond]
    refine ⟨rfl, ?_⟩
    simp only [kqBufList]
    exact range_map_getD (kqBatch s.kreg g.ready) ⟨0, .read, false, none⟩
  · intro s t g hint
    rw [kq_poller_wait, if_pos ⟨hint, rfl⟩]
    exact ⟨rfl, rfl⟩
  · intro t ht
    rw [kqWaitBlock, if_neg (by omega)]
  · intro t ht
    rw [kqWaitBlock, if_pos ht]
    have h1 : t.ediv 1000 = t / 1000 := rfl
    have h2 : t.emod 1000 = t % 1000 := rfl
    congr 1
    rw [h1, h2]
    omega
  · intro cfg s t g
    simp only [pl_poller_wait]
    split <;> rfl
  · intro cfg s t g hcond
    rw [pl_poller_wait, if_neg hcond]
    refine ⟨rfl, ?_⟩
    simp only [plReventsList]
    apply List.map_congr_left
    intro j hj
    rw [if_pos (List.mem_range.mp hj)]
  · intro s t g hint
    rw [pl_poller_wait]
    dsimp only
    rw [if_pos ⟨hint, rfl⟩]
    exact ⟨rfl, rfl⟩
  · intro t ht
    rw [plWaitBlock, if_pos ht]
  · intro t ht
    rw [plWaitBlock, if_neg (by omega)]

theorem claim_C6_amended_witness :
    ((0 : Int) ≤ 2500 ∧
     kqWaitBlock 2500 = BlockSpec.boundedNs 2500000000 ∧
     epWaitBlock (-1) = BlockSpec.indefinite ∧
     plWaitBlock 0 = BlockSpec.boundedNs 0) ∧
    ((1 : Int) < 0 → False) ∧
    ((kq_poller_wait false kqW1 (-1) ⟨true, fun _ _ => none⟩).1 = -4 ∧
     (kq_poller_wait false kqW1 (-1) ⟨true, fun _ _ => none⟩).2.nevents = 0) ∧
    ((pl_poller_wait false plW1 (-1) ⟨true, fun _ => 0⟩).1 = -4 ∧
     (pl_poller_wait false plW1 (-1) ⟨true, fun _ => 0⟩).2.pollset =
       (plCompactGo plW1.size plW1).pollset) :=
  ⟨⟨by decide,
    claim_C6_amended.2.1.2.2.2.2 2500 (by decide),
    claim_C6_amended.1.2.1 (-1) (by decide),
    claim_C6_amended.2.2.2.2.2.2 0 (by decide)⟩,
   fun hc => absurd hc (by decide),
   claim_C6_amended.2.1.2.2.1 kqW1 (-1) ⟨true, fun _ _ => none⟩ rfl,
   claim_C6_amended.2.2.2.2.1 plW1 (-1) ⟨true, fun _ => 0⟩ rfl⟩

/-- C7: return values of nn_poller_wait.  The epoll backend always
returns 0 and its behaviour does not depend on how many times epoll_wait
is interrupted, because it retries the call unconditionally on EINTR.
The kqueue and poll backends return 0 or -EINTR and return -EINTR exactly
when the kernel call is interrupted and NN_IGNORE_EINTR is not defined;
with NN_IGNORE_EINTR defined an interruption is invisible. -/
theorem claim_C7 :
    (∀ (s : EpState) (t : Int) (g : EpOracle),
        (ep_poller_wait s t g).1 = 0 ∧
        (∀ n : Nat, ep_poller_wait s t ⟨n, g.ready⟩ =
                    ep_poller_wait s t ⟨0, g.ready⟩)) ∧
    (∀ (cfg : Bool) (s : KqState) (t : Int) (g : KqOracle),
        ((kq_poller_wait cfg s t g).1 = 0 ∨
         (kq_poller_wait cfg s t g).1 = -4) ∧
        ((kq_poller_wait cfg s t g).1 = -4 ↔
          (g.interrupted = true ∧ cfg = false)) ∧
        kq_poller_wait true s t g = kq_poller_wait true s t ⟨false, g.ready⟩) ∧
    (∀ (cfg : Bool) (s : PollState) (t : Int) (g : PlOracle),
        ((pl_poller_wait cfg s t g).1 = 0 ∨
         (pl_poller_wait cfg s t g).1 = -4) ∧
        ((pl_poller_wait cfg s t g).1 = -4 ↔
          (g.interrupted = true ∧ cfg = false)) ∧
        pl_poller_wait true s t g = pl_poller_wait true s t ⟨false, g.ready⟩) := by
  refine ⟨?_, ?_, ?_⟩
  · intro s t g
    refine ⟨rfl, ?_⟩
    intro n
    simp only [ep_poller_wait]
    rw [epWaitLoop_eq, epWaitLoop_eq]
  · intro cfg s t g
    have h3 : kq_poller_wait true s t g = kq_poller_wait true s t ⟨false, g.ready⟩ := by
      rw [kq_poller_wait, kq_poller_wait,
          if_neg (show ¬(g.interrupted = true ∧ true = false) by simp),
          if_neg (show ¬((false : Bool) = true ∧ (true : Bool) = false) by simp)]
    by_cases hc : g.interrupted = true ∧ cfg = false
    · rw [kq_poller_wait, if_pos hc]
      exact ⟨Or.inr rfl, ⟨fun _ => hc, fun _ => rfl⟩, h3⟩
    · rw [kq_poller_wait, if_neg hc]
      exact ⟨Or.inl rfl, ⟨fun hz => absurd hz (by simp), fun hh => absurd hh hc⟩, h3⟩
  · intro cfg s t g
    have h3 : pl_poller_wait true s t g = pl_poller_wait true s t ⟨false, g.ready⟩ := by
      rw [pl_poller_wait, pl_poller_wait,
          if_neg (show ¬(g.interrupted = true ∧ true = false) by simp),
          if_neg (show ¬((false : Bool) = true ∧ (true : Bool) = false) by simp)]
    by_cases hc : g.interrupted = true ∧ cfg = false
    · rw [pl_poller_wait, if_pos hc]
      exact ⟨Or.inr rfl, ⟨fun _ => hc, fun _ => rfl⟩, h3⟩
    · rw [pl_poller_wait, if_neg hc]
      exact ⟨Or.inl rfl, ⟨fun hz => absurd hz (by simp), fun hh => absurd hh hc⟩, h3⟩

/-- C9 counterexample: a second term() call on the same context is not a
safe no-op.  In the epoll backend it calls nn_closefd on the
already-closed queue descriptor, which treats the EBADF failure as
fatal; in the poll backend it calls nn_free twice on the same arrays,
which is undefined behaviour.  Both are the none outcome, not the
no-further-effect outcome the claim promises. -/
theorem claim_C9_counterexample :
    ep_poller_term { qOpen := true, regFds := [3, 4] } =
      some { qOpen := false, regFds := [3, 4] } ∧
    Option.bind (ep_poller_term { qOpen := true, regFds := [3, 4] })
      ep_poller_term = none ∧
    Option.bind (pl_poller_term
        { pollsetAlive := true, hndlsAlive := true, regFds := [3] })
      pl_poller_term = none := by
  decide

/-- C9 amended: on a live context, term() releases the kernel resource
(or the two backend-private arrays) exactly once and never touches the
registered caller-owned descriptors; but it is not idempotent: a second
term() call on the same context closes an already-closed descriptor
(fatal) or frees an already-freed array (undefined behaviour). -/
theorem claim_C9_amended :
    (∀ s : QRes, s.qOpen = true →
        ep_poller_term s = some { qOpen := false, regFds := s.regFds } ∧
        Option.bind (ep_poller_term s) ep_poller_term = none) ∧
    (∀ s : QRes, s.qOpen = true →
        kq_poller_term s = some { qOpen := false, regFds := s.regFds } ∧
        Option.bind (kq_poller_term s) kq_poller_term = none) ∧
    (∀ s : PlRes, s.pollsetAlive = true → s.hndlsAlive = true →
        pl_poller_term s =
          some { pollsetAlive := false, hndlsAlive := false,
                 regFds := s.regFds } ∧
        Option.bind (pl_poller_term s) pl_poller_term = none) := by
  refine ⟨?_, ?_, ?_⟩
  · intro s hs
    cases s
    simp_all [ep_poller_term, nn_closefd, Option.bind]
  · intro s hs
    cases s
    simp_all [kq_poller_term, nn_closefd, Option.bind]
  · intro s h1 h2
    cases s
    simp_all [pl_poller_term, nn_free, Option.bind]

def qResW : QRes := { qOpen := true, regFds := [5] }

def plResW : PlRes := { pollsetAlive := true, hndlsAlive := true, regFds := [5, 6] }

theorem claim_C9_amended_witness :
    (qResW.qOpen = true ∧
     kq_poller_term qResW = some { qOpen := false, regFds := [5] }) ∧
    (plResW.pollsetAlive = true ∧
     Option.bind (pl_poller_term plResW) pl_poller_term = none) :=
  ⟨⟨by decide, (claim_C9_amended.2.1 qResW (by decide)).1⟩,
   ⟨by decide, (claim_C9_amended.2.2 plResW (by decide) (by decide)).2⟩⟩

/-! ## Per-record delivery order and drain traces (C10) -/

theorem pl_land_notin_in (m : Nat) : m &&& NOT_POLLIN &&& POLLIN = 0 := by
  rw [land_const m NOT_POLLIN POLLIN 0 (by decide), Nat.and_zero]

theorem pl_land_notout_out (m : Nat) : m &&& NOT_POLLOUT &&& POLLOUT = 0 := by
  rw [land_const m NOT_POLLOUT POLLOUT 0 (by decide), Nat.and_zero]

theorem pl_land_notin_out (m : Nat) :
    m &&& NOT_POLLIN &&& POLLOUT = m &&& POLLOUT :=
  land_const m NOT_POLLIN POLLOUT POLLOUT (by decide)

theorem pl_land_notout_in (m : Nat) :
    m &&& NOT_POLLOUT &&& POLLIN = m &&& POLLIN :=
  land_const m NOT_POLLOUT POLLIN POLLIN (by decide)

theorem epSkip_here (buf : Nat → EpEntry) (nev i : Nat) (hi : i < nev)
    (hnz : (buf i).events ≠ 0) : epSkip buf nev i = i := by
  have h0 : nev - i ≠ 0 := by omega
  rcases hf : nev - i with _ | m
  · exact absurd hf h0
  · rw [epSkip, hf]
    simp only [epSkipGo]
    rw [if_pos hi, if_pos hnz]

theorem plSkip_here (ps : Nat → PollFd) (size i : Nat) (hi : i < size)
    (hnz : (ps i).revents ≠ 0) : plSkip ps size i = i := by
  have h0 : size - i ≠ 0 := by omega
  rcases hf : size - i with _ | m
  · exact absurd hf h0
  · rw [plSkip, hf]
    simp only [plSkipGo]
    rw [if_pos hi, if_pos hnz]

/-- Trace of one drain sequence, epoll backend: the slot index and kind
of every delivered event, in order, while fuel lasts. -/
def epDrainIdx : Nat → EpState → List (Nat × NnEv)
  | 0, _ => []
  | f + 1, s =>
    match ep_poller_event s with
    | (none, _) => []
    | (some (k, _), s2) => (epSkip s.buf s.nevents s.index, k) :: epDrainIdx f s2

/-- Trace of one drain sequence, poll backend. -/
def plDrainIdx : Nat → PollState → List (Nat × NnEv)
  | 0, _ => []
  | f + 1, s =>
    match pl_poller_event s with
    | (none, _) => []
    | (some (k, _), s2) =>
        (plSkip s.pollset s.size s.index, k) :: plDrainIdx f s2

theorem ep_event_index_ge (s : EpState) :
    s.index ≤ (ep_poller_event s).2.index := by
  have hge := epSkip_ge s.buf s.nevents s.index
  rcases ep_event_char s (epSkip s.buf s.nevents s.index) rfl with
    ⟨h1, hev⟩ | ⟨h1, h2, ⟨h3, hev⟩ | ⟨h3, h4, hev⟩ | ⟨h3, h4, hev⟩⟩ <;>
    rw [hev] <;> dsimp only <;> omega

theorem pl_event_index_ge (s : PollState) :
    s.index ≤ (pl_poller_event s).2.index := by
  have hge := plSkip_ge s.pollset s.size s.index
  rcases pl_event_char s (plSkip s.pollset s.size s.index) rfl with
    ⟨h1, hev⟩ | ⟨h1, h2, ⟨h3, hev⟩ | ⟨h3, h4, hev⟩ | ⟨h3, h4, hev⟩⟩ <;>
    rw [hev] <;> dsimp only <;> omega

theorem ep_event_in_mono (s : EpState) (j : Nat)
    (hin : ((ep_poller_event s).2.buf j).events &&& EPOLLIN ≠ 0) :
    (s.buf j).events &&& EPOLLIN ≠ 0 := by
  rcases ep_event_char s (epSkip s.buf s.nevents s.index) rfl with
    ⟨h1, hev⟩ | ⟨h1, h2, ⟨h3, hev⟩ | ⟨h3, h4, hev⟩ | ⟨h3, h4, hev⟩⟩ <;>
    rw [hev] at hin <;> dsimp only at hin
  · exact hin
  · by_cases hji : j = epSkip s.buf s.nevents s.index
    · rw [hji, upd_same] at hin
      dsimp only at hin
      exact absurd (land_notin_in _) hin
    · rw [upd_other _ _ _ _ hji] at hin
      exact hin
  · by_cases hji : j = epSkip s.buf s.nevents s.index
    · rw [hji] at hin ⊢
      rw [upd_same] at hin
      dsimp only at hin
      rw [land_notout_in] at hin
      exact hin
    · rw [upd_other _ _ _ _ hji] at hin
      exact hin
  · exact hin

theorem ep_event_out_mono (s : EpState) (j : Nat)
    (hout : ((ep_poller_event s).2.buf j).events &&& EPOLLOUT ≠ 0) :
    (s.buf j).events &&& EPOLLOUT ≠ 0 := by
  rcases ep_event_char s (epSkip s.buf s.nevents s.index) rfl with
    ⟨h1, hev⟩ | ⟨h1, h2, ⟨h3, hev⟩ | ⟨h3, h4, hev⟩ | ⟨h3, h4, hev⟩⟩ <;>
    rw [hev] at hout <;> dsimp only at hout
  · exact hout
  · by_cases hji : j = epSkip s.buf s.nevents s.index
    · rw [hji] at hout ⊢
      rw [upd_same] at hout
      dsimp only at hout
      rw [land_notin_out] at hout
      exact hout
    · rw [upd_other _ _ _ _ hji] at hout
      exact hout
  · by_cases hji : j = epSkip s.buf s.nevents s.index
    · rw [hji, upd_same] at hout
      dsimp only at hout
      exact absurd (land_notout_out _) hout
    · rw [upd_other _ _ _ _ hji] at hout
      exact hout
  · exact hout

theorem pl_event_in_mono (s : PollState) (j : Nat)
    (hin : ((pl_poller_event s).2.pollset j).revents &&& POLLIN ≠ 0) :
    (s.pollset j).revents &&& POLLIN ≠ 0 := by
  rcases pl_event_char s (plSkip s.pollset s.size s.index) rfl with
    ⟨h1, hev⟩ | ⟨h1, h2, ⟨h3, hev⟩ | ⟨h3, h4, hev⟩ | ⟨h3, h4, hev⟩⟩ <;>
    rw [hev] at hin <;> dsimp only at hin
  · exact hin
  · by_cases hji : j = plSkip s.pollset s.size s.index
    · rw [hji, upd_same] at hin
      dsimp only at hin
      exact absurd (pl_land_notin_in _) hin
    · rw [upd_other _ _ _ _ hji] at hin
      exact hin
  · by_cases hji : j = plSkip s.pollset s.size s.index
    · rw [hji] at hin ⊢
      rw [upd_same] at hin
      dsimp only at hin
      rw [pl_land_notout_in] at hin
      exact hin
    · rw [upd_other _ _ _ _ hji] at hin
      exact hin
  · exact hin

theorem pl_event_out_mono (s : PollState) (j : Nat)
    (hout : ((pl_poller_event s).2.pollset j).revents &&& POLLOUT ≠ 0) :
    (s.pollset j).revents &&& POLLOUT ≠ 0 := by
  rcases pl_event_char s (plSkip s.pollset s.size s.index) rfl with
    ⟨h1, hev⟩ | ⟨h1, h2, ⟨h3, hev⟩ | ⟨h3, h4, hev⟩ | ⟨h3, h4, hev⟩⟩ <;>
    rw [hev] at hout <;> dsimp only at hout
  · exact hout
  · by_cases hji : j = plSkip s.pollset s.size s.index
    · rw [hji] at hout ⊢
      rw [upd_same] at hout
      dsimp only at hout
      rw [pl_land_notin_out] at hout
      exact hout
    · rw [upd_other _ _ _ _ hji] at hout
      exact hout
  · by_cases hji : j = plSkip s.pollset s.size s.index
    · rw [hji, upd_same] at hout
      dsimp only at hout
      exact absurd (pl_land_notout_out _) hout
    · rw [upd_other _ _ _ _ hji] at hout
      exact hout
  · exact hout

theorem epDrainIdx_ge (f : Nat) :
    ∀ (s : EpState) (p : Nat × NnEv), p ∈ epDrainIdx f s → s.index ≤ p.1 := by
  induction f with
  | zero =>
    intro s p hp
    simp [epDrainIdx] at hp
  | succ f ih =>
    intro s p hp
    rcases he : ep_poller_event s with ⟨r, s2⟩
    rcases r with _ | ⟨k, hh⟩
    · simp only [epDrainIdx, he] at hp
      exact absurd hp (List.not_mem_nil p)
    · simp only [epDrainIdx, he] at hp
      rcases List.mem_cons.mp hp with hhd | htl
      · rw [hhd]
        exact epSkip_ge s.buf s.nevents s.index
      · have hle := ep_event_index_ge s
        rw [he] at hle
        exact Nat.le_trans hle (ih s2 p htl)

theorem plDrainIdx_ge (f : Nat) :
    ∀ (s : PollState) (p : Nat × NnEv), p ∈ plDrainIdx f s → s.index ≤ p.1 := by
  induction f with
  | zero =>
    intro s p hp
    simp [plDrainIdx] at hp
  | succ f ih =>
    intro s p hp
    rcases he : pl_poller_event s with ⟨r, s2⟩
    rcases r with _ | ⟨k, hh⟩
    · simp only [plDrainIdx, he] at hp
      exact absurd hp (List.not_mem_nil p)
    · simp only [plDrainIdx, he] at hp
      rcases List.mem_cons.mp hp with hhd | htl
      · rw [hhd]
        exact plSkip_ge s.pollset s.size s.index
      · have hle := pl_event_index_ge s
        rw [he] at hle
        exact Nat.le_trans hle (ih s2 p htl)

theorem epDrainIdx_bit_in (f : Nat) :
    ∀ (s : EpState) (j : Nat), (j, NnEv.IN) ∈ epDrainIdx f s →
      (s.buf j).events &&& EPOLLIN ≠ 0 := by
  induction f with
  | zero =>
    intro s j hp
    simp [epDrainIdx] at hp
  | succ f ih =>
    intro s j hp
    rcases he : ep_poller_event s with ⟨r, s2⟩
    rcases r with _ | ⟨k, hh⟩
    · simp only [epDrainIdx, he] at hp
      exact absurd hp (List.not_mem_nil _)
    · simp only [epDrainIdx, he] at hp
      rcases List.mem_cons.mp hp with hhd | htl
      · have hj : j = epSkip s.buf s.nevents s.index :=
          congrArg Prod.fst hhd
        have hk : NnEv.IN = k := congrArg Prod.snd hhd
        rcases ep_event_char s (epSkip s.buf s.nevents s.index) rfl with
          ⟨h1, hev⟩ | ⟨h1, h2, ⟨h3, hev⟩ | ⟨h3, h4, hev⟩ | ⟨h3, h4, hev⟩⟩ <;>
          rw [he] at hev
        · exact Option.noConfusion (congrArg Prod.fst hev)
        · rw [hj]
          exact h3
        · have hkk : k = NnEv.OUT :=
            congrArg Prod.fst (Option.some.inj (congrArg Prod.fst hev))
          exact absurd (hk.trans hkk) (by decide)
        · have hkk : k = NnEv.ERR :=
            congrArg Prod.fst (Option.some.inj (congrArg Prod.fst hev))
          exact absurd (hk.trans hkk) (by decide)
      · have hbit := ih s2 j htl
        have hin : ((ep_poller_event s).2.buf j).events &&& EPOLLIN ≠ 0 := by
          rw [he]
          exact hbit
        exact ep_event_in_mono s j hin

theorem epDrainIdx_bit_out (f : Nat) :
    ∀ (s : EpState) (j : Nat), (j, NnEv.OUT) ∈ epDrainIdx f s →
      (s.buf j).events &&& EPOLLOUT ≠ 0 := by
  induction f with
  | zero =>
    intro s j hp
    simp [epDrainIdx] at hp
  | succ f ih =>
    intro s j hp
    rcases he : ep_poller_event s with ⟨r, s2⟩
    rcases r with _ | ⟨k, hh⟩
    · simp only [epDrainIdx, he] at hp
      exact absurd hp (List.not_mem_nil _)
    · simp only [epDrainIdx, he] at hp
      rcases List.mem_cons.mp hp with hhd | htl
      · have hj : j = epSkip s.buf s.nevents s.index :=
          congrArg Prod.fst hhd
        have hk : NnEv.OUT = k := congrArg Prod.snd hhd
        rcases ep_event_char s (epSkip s.buf s.nevents s.index) rfl with
          ⟨h1, hev⟩ | ⟨h1, h2, ⟨h3, hev⟩ | ⟨h3, h4, hev⟩ | ⟨h3, h4, hev⟩⟩ <;>
          rw [he] at hev
        · exact Option.noConfusion (congrArg Prod.fst hev)
        · have hkk : k = NnEv.IN :=
            congrArg Prod.fst (Option.some.inj (congrArg Prod.fst hev))
          exact absurd (hk.trans hkk) (by decide)
        · rw [hj]
          exact h4
        · have hkk : k = NnEv.ERR :=
            congrArg Prod.fst (Option.some.inj (congrArg Prod.fst hev))
          exact absurd (hk.trans hkk) (by decide)
      · have hbit := ih s2 j htl
        have hout : ((ep_poller_event s).2.buf j).events &&& EPOLLOUT ≠ 0 := by
          rw [he]
          exact hbit
        exact ep_event_out_mono s j hout

theorem plDrainIdx_bit_in (f : Nat) :
    ∀ (s : PollState) (j : Nat), (j, NnEv.IN) ∈ plDrainIdx f s →
      (s.pollset j).revents &&& POLLIN ≠ 0 := by
  induction f with
  | zero =>
    intro s j hp
    simp [plDrainIdx] at hp
  | succ f ih =>
    intro s j hp
    rcases he : pl_poller_event s with ⟨r, s2⟩
    rcases r with _ | ⟨k, hh⟩
    · simp only [plDrainIdx, he] at hp
      exact absurd hp (List.not_mem_nil _)
    · simp only [plDrainIdx, he] at hp
      rcases List.mem_cons.mp hp with hhd | htl
      · have hj : j = plSkip s.pollset s.size s.index :=
          congrArg Prod.fst hhd
        have hk : NnEv.IN = k := congrArg Prod.snd hhd
        rcases pl_event_char s (plSkip s.pollset s.size s.index) rfl with
          ⟨h1, hev⟩ | ⟨h1, h2, ⟨h3, hev⟩ | ⟨h3, h4, hev⟩ | ⟨h3, h4, hev⟩⟩ <;>
          rw [he] at hev
        · exact Option.noConfusion (congrArg Prod.fst hev)
        · rw [hj]
          exact h3
        · have hkk : k = NnEv.OUT :=
            congrArg Prod.fst (Option.some.inj (congrArg Prod.fst hev))
          exact absurd (hk.trans hkk) (by decide)
        · have hkk : k = NnEv.ERR :=
            congrArg Prod.fst (Option.some.inj (congrArg Prod.fst hev))
          exact absurd (hk.trans hkk) (by decide)
      · have hbit := ih s2 j htl
        have hin : ((pl_poller_event s).2.pollset j).revents &&& POLLIN ≠ 0 := by
          rw [he]
          exact hbit
        exact pl_event_in_mono s j hin

theorem plDrainIdx_bit_out (f : Nat) :
    ∀ (s : PollState) (j : Nat), (j, NnEv.OUT) ∈ plDrainIdx f s →
      (s.pollset j).revents &&& POLLOUT ≠ 0 := by
  induction f with
  | zero =>
    intro s j hp
    simp [plDrainIdx] at hp
  | succ f ih =>
    intro s j hp
    rcases he : pl_poller_event s with ⟨r, s2⟩
    rcases r with _ | ⟨k, hh⟩
    · simp only [plDrainIdx, he] at hp
      exact absurd hp (List.not_mem_nil _)
    · simp only [plDrainIdx, he] at hp
      rcases List.mem_cons.mp hp with hhd | htl
      · have hj : j = plSkip s.pollset s.size s.index :=
          congrArg Prod.fst hhd
        have hk : NnEv.OUT = k := congrArg Prod.snd hhd
        rcases pl_event_char s (plSkip s.pollset s.size s.index) rfl with
          ⟨h1, hev⟩ | ⟨h1, h2, ⟨h3, hev⟩ | ⟨h3, h4, hev⟩ | ⟨h3, h4, hev⟩⟩ <;>
          rw [he] at hev
        · exact Option.noConfusion (congrArg Prod.fst hev)
        · have hkk : k = NnEv.IN :=
            congrArg Prod.fst (Option.some.inj (congrArg Prod.fst hev))
          exact absurd (hk.trans hkk) (by decide)
        · rw [hj]
          exact h4
        · have hkk : k = NnEv.ERR :=
            congrArg Prod.fst (Option.some.inj (congrArg Prod.fst hev))
          exact absurd (hk.trans hkk) (by decide)
      · have hbit := ih s2 j htl
        have hout : ((pl_poller_event s).2.pollset j).revents &&& POLLOUT ≠ 0 := by
          rw [he]
          exact hbit
        exact pl_event_out_mono s j hout

theorem epDrainIdx_nodup (f : Nat) : ∀ s : EpState, (epDrainIdx f s).Nodup := by
  induction f with
  | zero =>
    intro s
    simp [epDrainIdx]
  | succ f ih =>
    intro s
    rcases he : ep_poller_event s with ⟨r, s2⟩
    rcases r with _ | ⟨k, hh⟩
    · simp only [epDrainIdx, he]
      exact List.nodup_nil
    · simp only [epDrainIdx, he]
      refine List.nodup_cons.mpr ⟨?_, ih s2⟩
      intro hmem
      rcases ep_event_char s (epSkip s.buf s.nevents s.index) rfl with
        ⟨h1, hev⟩ | ⟨h1, h2, ⟨h3, hev⟩ | ⟨h3, h4, hev⟩ | ⟨h3, h4, hev⟩⟩ <;>
        rw [he] at hev
      · exact Option.noConfusion (congrArg Prod.fst hev)
      · have hk : k = NnEv.IN :=
          congrArg Prod.fst (Option.some.inj (congrArg Prod.fst hev))
        have hs2 := congrArg Prod.snd hev
        dsimp only at hs2
        rw [hk] at hmem
        have hbit := epDrainIdx_bit_in f s2 (epSkip s.buf s.nevents s.index) hmem
        rw [hs2] at hbit
        dsimp only at hbit
        rw [upd_same] at hbit
        dsimp only at hbit
        exact absurd (land_notin_in _) hbit
      · have hk : k = NnEv.OUT :=
          congrArg Prod.fst (Option.some.inj (congrArg Prod.fst hev))
        have hs2 := congrArg Prod.snd hev
        dsimp only at hs2
        rw [hk] at hmem
        have hbit := epDrainIdx_bit_out f s2 (epSkip s.buf s.nevents s.index) hmem
        rw [hs2] at hbit
        dsimp only at hbit
        rw [upd_same] at hbit
        dsimp only at hbit
        exact absurd (land_notout_out _) hbit
      · have hs2 := congrArg Prod.snd hev
        dsimp only at hs2
        have hge := epDrainIdx_ge f s2 (epSkip s.buf s.nevents s.index, k) hmem
        rw [hs2] at hge
        dsimp only at hge
        omega

theorem plDrainIdx_nodup (f : Nat) :
    ∀ s : PollState, (plDrainIdx f s).Nodup := by
  induction f with
  | zero =>
    intro s
    simp [plDrainIdx]
  | succ f ih =>
    intro s
    rcases he : pl_poller_event s with ⟨r, s2⟩
    rcases r with _ | ⟨k, hh⟩
    · simp only [plDrainIdx, he]
      exact List.nodup_nil
    · simp only [plDrainIdx, he]
      refine List.nodup_cons.mpr ⟨?_, ih s2⟩
      intro hmem
      rcases pl_event_char s (plSkip s.pollset s.size s.index) rfl with
        ⟨h1, hev⟩ | ⟨h1, h2, ⟨h3, hev⟩ | ⟨h3, h4, hev⟩ | ⟨h3, h4, hev⟩⟩ <;>
        rw [he] at hev
      · exact Option.noConfusion (congrArg Prod.fst hev)
      · have hk : k = NnEv.IN :=
          congrArg Prod.fst (Option.some.inj (congrArg Prod.fst hev))
        have hs2 := congrArg Prod.snd hev
        dsimp only at hs2
        rw [hk] at hmem
        have hbit := plDrainIdx_bit_in f s2 (plSkip s.pollset s.size s.index) hmem
        rw [hs2] at hbit
        dsimp only at hbit
        rw [upd_same] at hbit
        dsimp only at hbit
        exact absurd (pl_land_notin_in _) hbit
      · have hk : k = NnEv.OUT :=
          congrArg Prod.fst (Option.some.inj (congrArg Prod.fst hev))
        have hs2 := congrArg Prod.snd hev
        dsimp only at hs2
        rw [hk] at hmem
        have hbit := plDrainIdx_bit_out f s2 (plSkip s.pollset s.size s.index) hmem
        rw [hs2] at hbit
        dsimp only at hbit
        rw [upd_same] at hbit
        dsimp only at hbit
        exact absurd (pl_land_notout_out _) hbit
      · have hs2 := congrArg Prod.snd hev
        dsimp only at hs2
        have hge := plDrainIdx_ge f s2 (plSkip s.pollset s.size s.index, k) hmem
        rw [hs2] at hge
        dsimp only at hge
        omega

theorem ep_event_step1 (s : EpState) (hidx : s.index < s.nevents)
    (hin : (s.buf s.index).events &&& EPOLLIN ≠ 0) :
    ep_poller_event s = (some (.IN, (s.buf s.index).ptr),
      { s with index := s.index,
               buf := upd s.buf s.index
                 ⟨(s.buf s.index).events &&& NOT_EPOLLIN,
                  (s.buf s.index).ptr⟩ }) := by
  have hnz : (s.buf s.index).events ≠ 0 := land_ne_zero_ne_zero hin
  have hsk : epSkip s.buf s.nevents s.index = s.index :=
    epSkip_here s.buf s.nevents s.index hidx hnz
  rcases ep_event_char s s.index hsk.symm with
    ⟨h1, hev⟩ | ⟨h1, h2, ⟨h3, hev⟩ | ⟨h3, h4, hev⟩ | ⟨h3, h4, hev⟩⟩
  · omega
  · exact hev
  · exact absurd h3 hin
  · exact absurd h3 hin

theorem ep_event_step2 (s : EpState) (hidx : s.index < s.nevents)
    (hin0 : (s.buf s.index).events &&& EPOLLIN = 0)
    (hout : (s.buf s.index).events &&& EPOLLOUT ≠ 0) :
    ep_poller_event s = (some (.OUT, (s.buf s.index).ptr),
      { s with index := s.index,
               buf := upd s.buf s.index
                 ⟨(s.buf s.index).events &&& NOT_EPOLLOUT,
                  (s.buf s.index).ptr⟩ }) := by
  have hnz : (s.buf s.index).events ≠ 0 := land_ne_zero_ne_zero hout
  have hsk : epSkip s.buf s.nevents s.index = s.index :=
    epSkip_here s.buf s.nevents s.index hidx hnz
  rcases ep_event_char s s.index hsk.symm with
    ⟨h1, hev⟩ | ⟨h1, h2, ⟨h3, hev⟩ | ⟨h3, h4, hev⟩ | ⟨h3, h4, hev⟩⟩
  · omega
  · exact absurd hin0 h3
  · exact hev
  · exact absurd h4 hout

theorem pl_event_step1 (s : PollState) (hidx : s.index < s.size)
    (hin : (s.pollset s.index).revents &&& POLLIN ≠ 0) :
    pl_poller_event s = (some (.IN, (s.hndls s.index).hndl.getD 0),
      { s with index := s.index,
               pollset := upd s.pollset s.index
                 { s.pollset s.index with
                   revents := (s.pollset s.index).revents &&& NOT_POLLIN } }) := by
  have hnz : (s.pollset s.index).revents ≠ 0 := land_ne_zero_ne_zero hin
  have hsk : plSkip s.pollset s.size s.index = s.index :=
    plSkip_here s.pollset s.size s.index hidx hnz
  rcases pl_event_char s s.index hsk.symm with
    ⟨h1, hev⟩ | ⟨h1, h2, ⟨h3, hev⟩ | ⟨h3, h4, hev⟩ | ⟨h3, h4, hev⟩⟩
  · omega
  · exact hev
  · exact absurd h3 hin
  · exact absurd h3 hin

theorem pl_event_step2 (s : PollState) (hidx : s.index < s.size)
    (hin0 : (s.pollset s.index).revents &&& POLLIN = 0)
    (hout : (s.pollset s.index).revents &&& POLLOUT ≠ 0) :
    pl_poller_event s = (some (.OUT, (s.hndls s.index).hndl.getD 0),
      { s with index := s.index,
               pollset := upd s.pollset s.index
                 { s.pollset s.index with
                   revents := (s.pollset s.index).revents &&& NOT_POLLOUT } }) := by
  have hnz : (s.pollset s.index).revents ≠ 0 := land_ne_zero_ne_zero hout
  have hsk : plSkip s.pollset s.size s.index = s.index :=
    plSkip_here s.pollset s.size s.index hidx hnz
  rcases pl_event_char s s.index hsk.symm with
    ⟨h1, hev⟩ | ⟨h1, h2, ⟨h3, hev⟩ | ⟨h3, h4, hev⟩ | ⟨h3, h4, hev⟩⟩
  · omega
  · exact absurd hin0 h3
  · exact hev
  · exact absurd h4 hout

/-- C10: in the epoll and poll backends, a buffered record carrying both
the IN and the OUT readiness bits for a handle is delivered as two
consecutive drain results, first IN then OUT, with the cursor staying on
the record in between and each delivery clearing its readiness bit in
the record; moreover a drain trace never yields the same (slot, kind)
pair twice, so no (kind, handle) pair originating from one record is
ever returned twice within one batch. -/
theorem claim_C10 :
    (∀ s : EpState, s.index < s.nevents →
      (s.buf s.index).events &&& EPOLLIN ≠ 0 →
      (s.buf s.index).events &&& EPOLLOUT ≠ 0 →
      (ep_poller_event s).1 = some (NnEv.IN, (s.buf s.index).ptr) ∧
      (ep_poller_event s).2.index = s.index ∧
      ((ep_poller_event s).2.buf s.index).events &&& EPOLLIN = 0 ∧
      (ep_poller_event (ep_poller_event s).2).1 =
        some (NnEv.OUT, (s.buf s.index).ptr) ∧
      ((ep_poller_event (ep_poller_event s).2).2.buf s.index).events &&&
        EPOLLIN = 0 ∧
      ((ep_poller_event (ep_poller_event s).2).2.buf s.index).events &&&
        EPOLLOUT = 0) ∧
    (∀ s : PollState, s.index < s.size →
      (s.pollset s.index).revents &&& POLLIN ≠ 0 →
      (s.pollset s.index).revents &&& POLLOUT ≠ 0 →
      (pl_poller_event s).1 =
        some (NnEv.IN, (s.hndls s.index).hndl.getD 0) ∧
      (pl_poller_event s).2.index = s.index ∧
      ((pl_poller_event s).2.pollset s.index).revents &&& POLLIN = 0 ∧
      (pl_poller_event (pl_poller_event s).2).1 =
        some (NnEv.OUT, (s.hndls s.index).hndl.getD 0) ∧
      ((pl_poller_event (pl_poller_event s).2).2.pollset s.index).revents &&&
        POLLIN = 0 ∧
      ((pl_poller_event (pl_poller_event s).2).2.pollset s.index).revents &&&
        POLLOUT = 0) ∧
    (∀ (f : Nat) (s : EpState), (epDrainIdx f s).Nodup) ∧
    (∀ (f : Nat) (s : PollState), (plDrainIdx f s).Nodup) := by
  refine ⟨?_, ?_, epDrainIdx_nodup, plDrainIdx_nodup⟩
  · intro s hidx hin hout
    have hs1 := ep_event_step1 s hidx hin
    have hb1 : (ep_poller_event s).2.buf s.index =
        ⟨(s.buf s.index).events &&& NOT_EPOLLIN, (s.buf s.index).ptr⟩ := by
      rw [hs1]
      dsimp only
      exact upd_same _ _ _
    have hidx1 : (ep_poller_event s).2.index = s.index := by
      rw [hs1]
    have hnev1 : (ep_poller_event s).2.nevents = s.nevents := by
      rw [hs1]
    have hin0 : ((ep_poller_event s).2.buf (ep_poller_event s).2.index).events
        &&& EPOLLIN = 0 := by
      rw [hidx1, hb1]
      exact land_notin_in _
    have hout1 : ((ep_poller_event s).2.buf (ep_poller_event s).2.index).events
        &&& EPOLLOUT ≠ 0 := by
      rw [hidx1, hb1]
      dsimp only
      rw [land_notin_out]
      exact hout
    have hlt1 : (ep_poller_event s).2.index < (ep_poller_event s).2.nevents := by
      rw [hidx1, hnev1]
      exact hidx
    have hs2 := ep_event_step2 (ep_poller_event s).2 hlt1 hin0 hout1
    have hb2 : ((ep_poller_event (ep_poller_event s).2).2.buf s.index).events =
        (s.buf s.index).events &&& NOT_EPOLLIN &&& NOT_EPOLLOUT := by
      rw [hs2]
      dsimp only
      rw [hidx1, upd_same]
      dsimp only
      rw [hb1]
    refine ⟨?_, hidx1, ?_, ?_, ?_, ?_⟩
    · rw [hs1]
    · rw [hb1]
      exact land_notin_in _
    · rw [hs2]
      dsimp only
      rw [hidx1, hb1]
    · rw [hb2, land_notout_in]
      exact land_notin_in _
    · rw [hb2]
      exact land_notout_out _
  · intro s hidx hin hout
    have hs1 := pl_event_step1 s hidx hin
    have hb1 : (pl_poller_event s).2.pollset s.index =
        { s.pollset s.index with
          revents := (s.pollset s.index).revents &&& NOT_POLLIN } := by
      rw [hs1]
      dsimp only
      exact upd_same _ _ _
    have hidx1 : (pl_poller_event s).2.index = s.index := by
      rw [hs1]
    have hsz1 : (pl_poller_event s).2.size = s.size := by
      rw [hs1]
    have hh1 : (pl_poller_event s).2.hndls = s.hndls := by
      rw [hs1]
    have hin0 : ((pl_poller_event s).2.pollset
        (pl_poller_event s).2.index).revents &&& POLLIN = 0 := by
      rw [hidx1, hb1]
      exact pl_land_notin_in _
    have hout1 : ((pl_poller_event s).2.pollset
        (pl_poller_event s).2.index).revents &&& POLLOUT ≠ 0 := by
      rw [hidx1, hb1]
      dsimp only
      rw [pl_land_notin_out]
      exact hout
    have hlt1 : (pl_poller_event s).2.index < (pl_poller_event s).2.size := by
      rw [hidx1, hsz1]
      exact hidx
    have hs2 := pl_event_step2 (pl_poller_event s).2 hlt1 hin0 hout1
    have hb2 : ((pl_poller_event (pl_poller_event s).2).2.pollset
        s.index).revents =
        (s.pollset s.index).revents &&& NOT_POLLIN &&& NOT_POLLOUT := by
      rw [hs2]
      dsimp only
      rw [hidx1, upd_same]
      dsimp only
      rw [hb1]
    refine ⟨?_, hidx1, ?_, ?_, ?_, ?_⟩
    · rw [hs1]
    · rw [hb1]
      exact pl_land_notin_in _
    · rw [hs2]
      dsimp only
      rw [hidx1, hh1]
    · rw [hb2, pl_land_notout_in]
      exact pl_land_notin_in _
    · rw [hb2]
      exact pl_land_notout_out _

/-- Concrete epoll state whose single buffered record carries both the
IN and the OUT bit for handle 7. -/
def epW10 : EpState :=
  { kernel := [(5, 5, 7)],
    buf := fun j => if j = 0 then ⟨5, 7⟩ else ⟨0, 0⟩,
    nevents := 1, index := 0,
    heap := fun h => if h = 7 then ⟨5, 5⟩ else ⟨0, 0⟩, kcalls := 0 }

/-- Concrete poll state whose single slot has both POLLIN and POLLOUT
pending for handle 7. -/
def plW10 : PollState :=
  { pollset := fun j => if j = 0 then ⟨5, 5, 5⟩ else ⟨0, 0, 0⟩,
    hndls := fun j => if j = 0 then ⟨some 7, none, none⟩ else ⟨none, none, none⟩,
    size := 1, capacity := 16, index := 0, removed := none,
    heap := fun _ => 0 }

theorem claim_C10_witness :
    (epW10.index < epW10.nevents ∧
     (ep_poller_event epW10).1 = some (NnEv.IN, (epW10.buf epW10.index).ptr) ∧
     (pl_poller_event plW10).1 =
       some (NnEv.IN, (plW10.hndls plW10.index).hndl.getD 0)) ∧
    (epDrainIdx 4 epW10).Nodup ∧ (plDrainIdx 4 plW10).Nodup :=
  ⟨⟨by decide,
    (claim_C10.1 epW10 (by decide) (by decide) (by decide)).1,
    (claim_C10.2.1 plW10 (by decide) (by decide) (by decide)).1⟩,
   claim_C10.2.2.1 4 epW10, claim_C10.2.2.2 4 plW10⟩

/-! ## Free-list well-formedness and compaction correctness (C8) -/

theorem plStepHA_next (s : PollState) (i j : Nat) :
    (plStepHA s i j).next = (s.hndls j).next := by
  unfold plStepHA
  split
  · rcases hnx : (s.hndls i).next with _ | nx <;> simp only [hnx]
    by_cases hj : j = nx
    · rw [hj, upd_same]
    · rw [upd_other _ _ _ _ hj]
  · rfl

theorem plStepHA_prev_miss (s : PollState) (i j : Nat)
    (hj : ¬ (i ≠ s.size - 1 ∧ (s.hndls i).next = some j)) :
    (plStepHA s i j).prev = (s.hndls j).prev := by
  unfold plStepHA
  by_cases hi : i ≠ s.size - 1
  · rw [if_pos hi]
    rcases hnx : (s.hndls i).next with _ | nx <;> simp only [hnx]
    by_cases hjn : j = nx
    · exact absurd ⟨hi, by rw [← hjn] at hnx; exact hnx⟩ hj
    · rw [upd_other _ _ _ _ hjn]
  · rw [if_neg hi]

theorem plStepHA_prev_hit (s : PollState) (i j : Nat) (hi : i ≠ s.size - 1)
    (hj : (s.hndls i).next = some j) : (plStepHA s i j).prev = none := by
  unfold plStepHA
  rw [if_pos hi]
  simp only [hj]
  rw [upd_same]

theorem plStepHB_next (s : PollState) (i j : Nat) :
    (plStepHB s i j).next =
      (if i ≠ s.size - 1 ∧ j = i then (s.hndls (s.size - 1)).next
       else (s.hndls j).next) := by
  unfold plStepHB
  by_cases hi : i ≠ s.size - 1
  · rw [if_pos hi]
    by_cases hj : j = i
    · rw [hj, upd_same, if_pos ⟨hi, rfl⟩, plStepHA_next]
    · rw [upd_other _ _ _ _ hj, if_neg (fun hc => hj hc.2), plStepHA_next]
  · rw [if_neg hi, if_neg (fun hc => hi hc.1), plStepHA_next]

theorem plStepHB_prev (s : PollState) (i j : Nat) :
    (plStepHB s i j).prev =
      (if i ≠ s.size - 1 ∧ j = i then (plStepHA s i (s.size - 1)).prev
       else (plStepHA s i j).prev) := by
  unfold plStepHB
  by_cases hi : i ≠ s.size - 1
  · rw [if_pos hi]
    by_cases hj : j = i
    · rw [hj, upd_same, if_pos ⟨hi, rfl⟩]
    · rw [upd_other _ _ _ _ hj, if_neg (fun hc => hj hc.2)]
  · rw [if_neg hi, if_neg (fun hc => hi hc.1)]

theorem plStepHC_prev (s : PollState) (i j : Nat) :
    (plStepHC s i j).prev = (plStepHB s i j).prev := by
  unfold plStepHC
  split
  · rcases hp : (plStepHB s i i).prev with _ | p <;> simp only [hp]
    by_cases hj : j = p
    · rw [hj, upd_same]
    · rw [upd_other _ _ _ _ hj]
  · rfl

theorem plStepHC_next_char (s : PollState) (i j : Nat) :
    (plStepHC s i j).next =
      (if (plStepHB s i i).hndl = none ∧ (plStepHB s i i).prev = some j
       then some i else (plStepHB s i j).next) := by
  unfold plStepHC
  by_cases hc : (plStepHB s i i).hndl = none
  · rw [if_pos hc]
    rcases hp : (plStepHB s i i).prev with _ | p <;> simp only [hp]
    · rw [if_neg (fun hx => Option.noConfusion hx.2)]
    · by_cases hj : j = p
      · rw [hj, upd_same, if_pos ⟨hc, rfl⟩]
      · rw [upd_other _ _ _ _ hj,
            if_neg (fun hx => hj (Option.some.inj hx.2).symm)]
  · rw [if_neg hc, if_neg (fun hx => hc hx.1)]

theorem plStepHD_next (s : PollState) (i j : Nat) :
    (plStepHD s i j).next = (plStepHC s i j).next := by
  unfold plStepHD
  split
  · rcases hp : (plStepHC s i i).next with _ | nx <;> simp only [hp]
    by_cases hj : j = nx
    · rw [hj, upd_same]
    · rw [upd_other _ _ _ _ hj]
  · rfl

theorem plStepHD_prev_char (s : PollState) (i j : Nat) :
    (plStepHD s i j).prev =
      (if (plStepHB s i i).hndl = none ∧ (plStepHC s i i).next = some j
       then some i else (plStepHC s i j).prev) := by
  unfold plStepHD
  by_cases hc : (plStepHB s i i).hndl = none
  · rw [if_pos hc]
    rcases hp : (plStepHC s i i).next with _ | nx <;> simp only [hp]
    · rw [if_neg (fun hx => Option.noConfusion hx.2)]
    · by_cases hj : j = nx
      · rw [hj, upd_same, if_pos ⟨hc, rfl⟩]
      · rw [upd_other _ _ _ _ hj,
            if_neg (fun hx => hj (Option.some.inj hx.2).symm)]
  · rw [if_neg hc, if_neg (fun hx => hc hx.1)]

theorem plStepHeap_nonmove (s : PollState) (i : Nat) (hi : ¬ i ≠ s.size - 1) :
    plStepHeap s i = s.heap := by
  unfold plStepHeap
  rw [if_neg hi]

theorem plStepHeap_dead (s : PollState) (i : Nat) (hi : i ≠ s.size - 1)
    (hd : (plStepHB s i i).hndl = none) : plStepHeap s i = s.heap := by
  unfold plStepHeap
  rw [if_pos hi]
  simp only [hd]

theorem plStepHeap_live (s : PollState) (i g : Nat) (hi : i ≠ s.size - 1)
    (hd : (plStepHB s i i).hndl = some g) :
    plStepHeap s i = upd s.heap g i := by
  unfold plStepHeap
  rw [if_pos hi]
  simp only [hd]

/-- The removed pointer matches the head of the free-list chain. -/
def plHeadOk (s : PollState) (l : List Nat) : Prop :=
  s.removed = l.head?

/-- The next links thread the chain in order, ending in the NULL
sentinel. -/
def plNextOk (s : PollState) (l : List Nat) : Prop :=
  ∀ k, k < l.length →
    (s.hndls (l.getD k 0)).next =
      (if k + 1 < l.length then some (l.getD (k + 1) 0) else none)

/-- Every non-head chain member has its prev link at its predecessor. -/
def plPrevOk (s : PollState) (l : List Nat) : Prop :=
  ∀ k, k < l.length → 1 ≤ k →
    (s.hndls (l.getD k 0)).prev = some (l.getD (k - 1) 0)

/-- The head of the chain has prev NULL or pointing beyond the live
range (the only stale value an earlier non-move pop can leave). -/
def plHeadPrevOk (s : PollState) (l : List Nat) : Prop :=
  ∀ a q, l.head? = some a → (s.hndls a).prev = some q → s.size ≤ q

/-- Every chain member is a live-range slot. -/
def plBounds (s : PollState) (l : List Nat) : Prop :=
  ∀ x, x ∈ l → x < s.size

/-- The slots with a NULL handle backreference are exactly the chain
members. -/
def plFreeIff (s : PollState) (l : List Nat) : Prop :=
  ∀ j, j < s.size → ((s.hndls j).hndl = none ↔ j ∈ l)

/-- Every registered handle has its stored index at its own slot. -/
def plHeapOk (s : PollState) : Prop :=
  ∀ j, j < s.size → ∀ g, (s.hndls j).hndl = some g → s.heap g = j

/-- Well-formedness of a poll-backend state with free-list chain l. -/
def plWF (s : PollState) (l : List Nat) : Prop :=
  plHeadOk s l ∧ plNextOk s l ∧ plPrevOk s l ∧ plHeadPrevOk s l ∧
  plBounds s l ∧ l.Nodup ∧ plFreeIff s l ∧ plHeapOk s

theorem headD_eq_head {α : Type} [Inhabited α] (l : List α) :
    (if 0 < l.length then some (l.getD 0 default) else none) = l.head? := by
  cases l <;> simp

theorem getD_map_lt (f : Nat → Nat) (l : List Nat) (k : Nat)
    (hk : k < l.length) : (l.map f).getD k 0 = f (l.getD k 0) := by
  rw [List.getD_eq_getElem _ _ (by simpa using hk),
      List.getD_eq_getElem _ _ hk, List.getElem_map]

theorem getD_mem (l : List Nat) (k : Nat) (hk : k < l.length) :
    l.getD k 0 ∈ l := by
  rw [List.getD_eq_getElem _ _ hk]
  exact List.getElem_mem hk

theorem nodup_getD_inj (l : List Nat) (hnd : l.Nodup) (k1 k2 : Nat)
    (h1 : k1 < l.length) (h2 : k2 < l.length)
    (heq : l.getD k1 0 = l.getD k2 0) : k1 = k2 := by
  rw [List.getD_eq_getElem _ _ h1, List.getD_eq_getElem _ _ h2] at heq
  exact (List.Nodup.getElem_inj_iff hnd).mp heq

/-- Renaming of chain slots performed by one compaction iteration: the
moved last slot becomes the popped slot, all others keep their place. -/
def plSub (s : PollState) (i : Nat) (x : Nat) : Nat :=
  if x = s.size - 1 then i else x

theorem plStep_bounds (s : PollState) (i : Nat) (l : List Nat)
    (hB : plBounds s (i :: l)) (hNd : (i :: l).Nodup) :
    plBounds (plCompactStep s i) (l.map (plSub s i)) := by
  intro x hx
  rcases List.mem_map.mp hx with ⟨y, hy, hxy⟩
  have hyb : y < s.size := hB y (List.mem_cons_of_mem i hy)
  have hib : i < s.size := hB i (List.mem_cons_self i l)
  have hil : i ∉ l := (List.nodup_cons.mp hNd).1
  show x < s.size - 1
  unfold plSub at hxy
  by_cases hym : y = s.size - 1
  · rw [if_pos hym] at hxy
    by_cases him : i = s.size - 1
    · have hyi : y = i := by omega
      rw [hyi] at hy
      exact absurd hy hil
    · omega
  · rw [if_neg hym] at hxy
    omega

theorem plStep_nodup (s : PollState) (i : Nat) (l : List Nat)
    (hNd : (i :: l).Nodup) : (l.map (plSub s i)).Nodup := by
  have hil : i ∉ l := (List.nodup_cons.mp hNd).1
  refine List.Nodup.map_on ?_ (List.nodup_cons.mp hNd).2
  intro x hx y hy hxy
  unfold plSub at hxy
  by_cases hxm : x = s.size - 1 <;> by_cases hym : y = s.size - 1
  · omega
  · rw [if_pos hxm, if_neg hym] at hxy
    exact absurd (hxy ▸ hy) hil
  · rw [if_neg hxm, if_pos hym] at hxy
    exact absurd (hxy ▸ hx) hil
  · rw [if_neg hxm, if_neg hym] at hxy
    exact hxy

theorem plSub_mem (s : PollState) (i : Nat) (l : List Nat) (hil : i ∉ l)
    (j : Nat) (hjm : j ≠ s.size - 1) (hji : j ≠ i) :
    j ∈ l.map (plSub s i) ↔ j ∈ l := by
  constructor
  · intro hj
    rcases List.mem_map.mp hj with ⟨y, hy, hxy⟩
    unfold plSub at hxy
    by_cases hym : y = s.size - 1
    · rw [if_pos hym] at hxy
      exact absurd hxy.symm hji
    · rw [if_neg hym] at hxy
      exact hxy ▸ hy
  · intro hj
    refine List.mem_map.mpr ⟨j, hj, ?_⟩
    unfold plSub
    rw [if_neg hjm]

theorem plSub_mem_i (s : PollState) (i : Nat) (l : List Nat) (hil : i ∉ l) :
    i ∈ l.map (plSub s i) ↔ s.size - 1 ∈ l := by
  constructor
  · intro hj
    rcases List.mem_map.mp hj with ⟨y, hy, hxy⟩
    unfold plSub at hxy
    by_cases hym : y = s.size - 1
    · exact hym ▸ hy
    · rw [if_neg hym] at hxy
      exact absurd (hxy ▸ hy) hil
  · intro hj
    refine List.mem_map.mpr ⟨s.size - 1, hj, ?_⟩
    unfold plSub
    rw [if_pos rfl]

theorem plStep_free (s : PollState) (i : Nat) (l : List Nat)
    (hB : plBounds s (i :: l)) (hNd : (i :: l).Nodup)
    (hF : plFreeIff s (i :: l)) :
    plFreeIff (plCompactStep s i) (l.map (plSub s i)) := by
  intro j hj
  have hjs : j < s.size - 1 := hj
  have hib : i < s.size := hB i (List.mem_cons_self i l)
  have hil : i ∉ l := (List.nodup_cons.mp hNd).1
  have hms : s.size - 1 < s.size := by omega
  show (plStepHD s i j).hndl = none ↔ _
  rw [plStepHD_hndl, plStepHB_hndl]
  by_cases hc : i ≠ s.size - 1 ∧ j = i
  · rw [if_pos hc]
    rw [hF (s.size - 1) hms]
    rw [hc.2, plSub_mem_i s i l hil]
    constructor
    · intro hm
      rcases List.mem_cons.mp hm with hm1 | hm2
      · exact absurd hm1.symm hc.1
      · exact hm2
    · intro hm
      exact List.mem_cons_of_mem i hm
  · rw [if_neg hc]
    rw [hF j (by omega)]
    have hji : j ≠ i := by
      intro hji
      by_cases him : i = s.size - 1
      · omega
      · exact hc ⟨him, hji⟩
    rw [plSub_mem s i l hil j (by omega) hji]
    constructor
    · intro hm
      rcases List.mem_cons.mp hm with hm1 | hm2
      · exact absurd hm1 hji
      · exact hm2
    · intro hm
      exact List.mem_cons_of_mem i hm

theorem plStep_heap (s : PollState) (i : Nat) (l : List Nat)
    (hB : plBounds s (i :: l)) (hHeap : plHeapOk s) :
    plHeapOk (plCompactStep s i) := by
  intro j hj g hg
  have hjs : j < s.size - 1 := hj
  have hib : i < s.size := hB i (List.mem_cons_self i l)
  have hms : s.size - 1 < s.size := by omega
  rw [show ((plCompactStep s i).hndls j).hndl = (plStepHD s i j).hndl from rfl,
      plStepHD_hndl, plStepHB_hndl] at hg
  show plStepHeap s i g = j
  by_cases hc : i ≠ s.size - 1 ∧ j = i
  · rw [if_pos hc] at hg
    rw [plStepHeap_live s i g hc.1 (by rw [plStepHB_hndl, if_pos ⟨hc.1, rfl⟩]; exact hg)]
    rw [upd_same]
    exact hc.2.symm
  · rw [if_neg hc] at hg
    by_cases him : i = s.size - 1
    · rw [plStepHeap_nonmove s i (by omega)]
      exact hHeap j (by omega) g hg
    · have hji : j ≠ i := fun hji => hc ⟨him, hji⟩
      rcases hm : (s.hndls (s.size - 1)).hndl with _ | g0
      · rw [plStepHeap_dead s i him (by rw [plStepHB_hndl, if_pos ⟨him, rfl⟩]; exact hm)]
        exact hHeap j (by omega) g hg
      · rw [plStepHeap_live s i g0 him (by rw [plStepHB_hndl, if_pos ⟨him, rfl⟩]; exact hm)]
        have hgg : g ≠ g0 := by
          intro hgg
          rw [hgg] at hg
          have h1 := hHeap j (by omega) g0 hg
          have h2 := hHeap (s.size - 1) hms g0 hm
          omega
        rw [upd_other _ _ _ _ hgg]
        exact hHeap j (by omega) g hg

theorem plNextOk_head (s : PollState) (i : Nat) (l : List Nat)
    (hN : plNextOk s (i :: l)) : (s.hndls i).next = l.head? := by
  have h0 := hN 0 (by simp)
  cases l with
  | nil => simpa using h0
  | cons c rest => simpa using h0

theorem plStep_head (s : PollState) (i : Nat) (l : List Nat)
    (hN : plNextOk s (i :: l)) (hB : plBounds s (i :: l))
    (hNd : (i :: l).Nodup) (hF : plFreeIff s (i :: l)) :
    plHeadOk (plCompactStep s i) (l.map (plSub s i)) := by
  have hni := plNextOk_head s i l hN
  have hil : i ∉ l := (List.nodup_cons.mp hNd).1
  have hib : i < s.size := hB i (List.mem_cons_self i l)
  show plStepRem s i = (l.map (plSub s i)).head?
  unfold plStepRem
  cases l with
  | nil =>
    have hni2 : (s.hndls i).next = none := hni
    rw [hni2, if_neg (fun hx => Option.noConfusion hx.2)]
    rfl
  | cons c rest =>
    have hni2 : (s.hndls i).next = some c := hni
    by_cases hcm : c = s.size - 1
    · have him : i ≠ s.size - 1 := by
        intro hic
        apply hil
        rw [show i = c by omega]
        exact List.mem_cons_self c rest
      have hmb : s.size - 1 < s.size := by omega
      have hmm : (s.hndls (s.size - 1)).hndl = none :=
        (hF _ hmb).mpr
          (by rw [← hcm]
              exact List.mem_cons_of_mem i (List.mem_cons_self c rest))
      rw [if_pos ⟨by rw [plStepHB_hndl, if_pos ⟨him, rfl⟩]; exact hmm,
                  by rw [hni2, hcm]⟩]
      simp [plSub, hcm]
    · rw [if_neg (fun hx => hcm (Option.some.inj (hni2.symm.trans hx.2)))]
      rw [hni2]
      simp [plSub, hcm]

theorem plNextOk_tail (s : PollState) (i : Nat) (l : List Nat)
    (hN : plNextOk s (i :: l)) :
    ∀ k, k < l.length → (s.hndls (l.getD k 0)).next =
      (if k + 1 < l.length then some (l.getD (k + 1) 0) else none) := by
  intro k hk
  have h1 := hN (k + 1) (by simp only [List.length_cons]; omega)
  simp only [List.getD_cons_succ, List.length_cons] at h1
  by_cases hlt : k + 1 < l.length
  · rw [if_pos (by omega : k + 1 + 1 < l.length + 1)] at h1
    rw [if_pos hlt]
    exact h1
  · rw [if_neg (by omega : ¬ k + 1 + 1 < l.length + 1)] at h1
    rw [if_neg hlt]
    exact h1

theorem plPrevOk_tail (s : PollState) (i : Nat) (l : List Nat)
    (hP : plPrevOk s (i :: l)) :
    ∀ k, k < l.length → 1 ≤ k →
      (s.hndls (l.getD k 0)).prev = some (l.getD (k - 1) 0) := by
  intro k hk h1k
  have h1 := hP (k + 1) (by simp only [List.length_cons]; omega) (by omega)
  obtain ⟨kp, rfl⟩ : ∃ kp, k = kp + 1 := ⟨k - 1, by omega⟩
  simp only [List.getD_cons_succ] at h1
  simpa using h1

theorem plPrevOk_one (s : PollState) (i : Nat) (l : List Nat)
    (hP : plPrevOk s (i :: l)) (hl : 0 < l.length) :
    (s.hndls (l.getD 0 0)).prev = some i := by
  have h1 := hP 1 (by simp only [List.length_cons]; omega) (by omega)
  simpa using h1

theorem plHead_getD (l : List Nat) (hl : 0 < l.length) :
    l.head? = some (l.getD 0 0) := by
  cases l with
  | nil => simp at hl
  | cons c rest => rfl

theorem plStep_pBB_nonmove (s : PollState) (i : Nat)
    (him : i = s.size - 1) :
    (plStepHB s i i).prev = (s.hndls i).prev := by
  rw [plStepHB_prev, if_neg (fun hx => hx.1 him)]
  exact plStepHA_prev_miss s i i (fun hx => hx.1 him)

theorem plStep_pBB_move (s : PollState) (i : Nat) (l : List Nat) (k0 : Nat)
    (hN : plNextOk s (i :: l)) (hP : plPrevOk s (i :: l))
    (hNd : (i :: l).Nodup) (him : i ≠ s.size - 1)
    (hk0lt : k0 < l.length) (hk0d : l.getD k0 0 = s.size - 1) :
    (plStepHB s i i).prev =
      (if k0 = 0 then none else some (l.getD (k0 - 1) 0)) := by
  have hni := plNextOk_head s i l hN
  have hndl : l.Nodup := (List.nodup_cons.mp hNd).2
  rw [plStepHB_prev, if_pos ⟨him, rfl⟩]
  by_cases hk00 : k0 = 0
  · rw [if_pos hk00]
    apply plStepHA_prev_hit s i _ him
    rw [hni, plHead_getD l (by omega)]
    rw [hk00] at hk0d
    rw [hk0d]
  · rw [if_neg hk00]
    rw [plStepHA_prev_miss s i _ ?nohit]
    case nohit =>
      intro hx
      rw [hni, plHead_getD l (by omega)] at hx
      have h0 : l.getD 0 0 = s.size - 1 := Option.some.inj hx.2
      exact hk00 (nodup_getD_inj l hndl k0 0 hk0lt (by omega)
        (by rw [hk0d, h0]))
    rw [← hk0d]
    exact plPrevOk_tail s i l hP k0 hk0lt (by omega)

theorem plStep_cBB_move_dead (s : PollState) (i : Nat)
    (him : i ≠ s.size - 1) (hm : (s.hndls (s.size - 1)).hndl = none) :
    (plStepHB s i i).hndl = none := by
  rw [plStepHB_hndl, if_pos ⟨him, rfl⟩]
  exact hm

theorem plStep_cBB_nonmove (s : PollState) (i : Nat)
    (him : i = s.size - 1) (hhi : (s.hndls i).hndl = none) :
    (plStepHB s i i).hndl = none := by
  rw [plStepHB_hndl, if_neg (fun hx => hx.1 him)]
  exact hhi

theorem plStep_nxi_nonmove (s : PollState) (i : Nat) (l : List Nat)
    (hN : plNextOk s (i :: l)) (hHP : plHeadPrevOk s (i :: l))
    (him : i = s.size - 1) (hib : i < s.size) :
    (plStepHC s i i).next = l.head? := by
  have hni := plNextOk_head s i l hN
  rw [plStepHC_next_char]
  rw [if_neg ?hc]
  case hc =>
    intro hx
    rw [plStep_pBB_nonmove s i him] at hx
    rcases hpv : (s.hndls i).prev with _ | q
    · rw [hpv] at hx
      exact Option.noConfusion hx.2
    · have hq := hHP i q rfl hpv
      rw [hpv] at hx
      have hqi : q = i := Option.some.inj hx.2
      omega
  rw [plStepHB_next, if_neg (fun hx => hx.1 him)]
  exact hni

theorem plStep_nxi_move (s : PollState) (i : Nat) (l : List Nat) (k0 : Nat)
    (hN : plNextOk s (i :: l)) (hP : plPrevOk s (i :: l))
    (hNd : (i :: l).Nodup) (him : i ≠ s.size - 1)
    (hk0lt : k0 < l.length) (hk0d : l.getD k0 0 = s.size - 1) :
    (plStepHC s i i).next =
      (if k0 + 1 < l.length then some (l.getD (k0 + 1) 0) else none) := by
  have hil : i ∉ l := (List.nodup_cons.mp hNd).1
  rw [plStepHC_next_char]
  rw [if_neg ?hc]
  case hc =>
    intro hx
    rw [plStep_pBB_move s i l k0 hN hP hNd him hk0lt hk0d] at hx
    by_cases hk00 : k0 = 0
    · rw [if_pos hk00] at hx
      exact Option.noConfusion hx.2
    · rw [if_neg hk00] at hx
      have hpi : l.getD (k0 - 1) 0 = i := Option.some.inj hx.2
      exact hil (hpi ▸ getD_mem l (k0 - 1) (by omega))
  rw [plStepHB_next, if_pos ⟨him, rfl⟩, ← hk0d]
  exact plNextOk_tail s i l hN k0 hk0lt

theorem plSub_ne (s : PollState) (i x : Nat) (hx : x ≠ s.size - 1) :
    plSub s i x = x := by
  unfold plSub
  rw [if_neg hx]

theorem plSub_eq (s : PollState) (i x : Nat) (hx : x = s.size - 1) :
    plSub s i x = i := by
  unfold plSub
  rw [if_pos hx]

theorem plStep_nextOk (s : PollState) (i : Nat) (l : List Nat)
    (hN : plNextOk s (i :: l)) (hP : plPrevOk s (i :: l))
    (hHP : plHeadPrevOk s (i :: l)) (hB : plBounds s (i :: l))
    (hNd : (i :: l).Nodup) (hF : plFreeIff s (i :: l)) :
    plNextOk (plCompactStep s i) (l.map (plSub s i)) := by
  have hni := plNextOk_head s i l hN
  have hil : i ∉ l := (List.nodup_cons.mp hNd).1
  have hndl : l.Nodup := (List.nodup_cons.mp hNd).2
  have hib : i < s.size := hB i (List.mem_cons_self i l)
  have hhi : (s.hndls i).hndl = none := (hF i hib).mpr (List.mem_cons_self i l)
  intro k hk
  simp only [List.length_map] at hk
  show (plStepHD s i ((l.map (plSub s i)).getD k 0)).next =
    (if k + 1 < (l.map (plSub s i)).length then
      some ((l.map (plSub s i)).getD (k + 1) 0) else none)
  simp only [List.length_map]
  rw [getD_map_lt _ l k hk]
  have hxmem : l.getD k 0 ∈ l := getD_mem l k hk
  have hxb : l.getD k 0 < s.size := hB _ (List.mem_cons_of_mem i hxmem)
  have hxi : l.getD k 0 ≠ i := fun hc => hil (hc ▸ hxmem)
  have hnx := plNextOk_tail s i l hN k hk
  by_cases him : i = s.size - 1
  · have hxm : l.getD k 0 ≠ s.size - 1 := by omega
    rw [plSub_ne s i _ hxm]
    rw [plStepHD_next, plStepHC_next_char]
    rw [if_neg ?hc1]
    case hc1 =>
      intro hx
      rw [plStep_pBB_nonmove s i him] at hx
      rcases hpv : (s.hndls i).prev with _ | q
      · rw [hpv] at hx
        exact Option.noConfusion hx.2
      · have hq := hHP i q rfl hpv
        rw [hpv] at hx
        have hqx : q = l.getD k 0 := Option.some.inj hx.2
        omega
    rw [plStepHB_next, if_neg (fun hx => hx.1 him)]
    rw [hnx]
    by_cases hk1 : k + 1 < l.length
    · rw [if_pos hk1, if_pos hk1, getD_map_lt _ l (k + 1) hk1]
      have hsm : l.getD (k + 1) 0 ≠ s.size - 1 := by
        have hmem2 : l.getD (k + 1) 0 ∈ l := getD_mem l (k + 1) hk1
        intro hc
        rw [← him] at hc
        exact hil (hc ▸ hmem2)
      rw [plSub_ne s i _ hsm]
    · rw [if_neg hk1, if_neg hk1]
  · rcases hm : (s.hndls (s.size - 1)).hndl with _ | g
    · have hmlt : s.size - 1 < s.size := by omega
      have hmem : s.size - 1 ∈ l := by
        rcases List.mem_cons.mp ((hF _ hmlt).mp hm) with h1 | h2
        · exact absurd h1.symm him
        · exact h2
      obtain ⟨k0, hk0lt, hk0g⟩ := List.getElem_of_mem hmem
      have hk0d : l.getD k0 0 = s.size - 1 := by
        rw [List.getD_eq_getElem _ _ hk0lt]
        exact hk0g
      have hcBB := plStep_cBB_move_dead s i him hm
      by_cases hkk0 : k = k0
      · have hxm : l.getD k 0 = s.size - 1 := by
          rw [hkk0]
          exact hk0d
        rw [plSub_eq s i _ hxm]
        rw [plStepHD_next]
        rw [plStep_nxi_move s i l k0 hN hP hNd him hk0lt hk0d]
        by_cases hk1 : k + 1 < l.length
        · rw [if_pos (by omega : k0 + 1 < l.length), if_pos hk1,
              getD_map_lt _ l (k + 1) hk1]
          have hsm : l.getD (k + 1) 0 ≠ s.size - 1 := by
            intro hc
            have hj := nodup_getD_inj l hndl (k + 1) k0 hk1 hk0lt
              (by rw [hc, hk0d])
            omega
          rw [plSub_ne s i _ hsm, hkk0]
        · rw [if_neg (by omega : ¬ k0 + 1 < l.length), if_neg hk1]
      · have hxm : l.getD k 0 ≠ s.size - 1 := by
          intro hc
          exact hkk0 (nodup_getD_inj l hndl k k0 hk hk0lt (by rw [hc, hk0d]))
        rw [plSub_ne s i _ hxm]
        rw [plStepHD_next, plStepHC_next_char]
        by_cases hpred : k0 = k + 1
        · have hreq : (plStepHB s i i).prev = some (l.getD k 0) := by
            rw [plStep_pBB_move s i l k0 hN hP hNd him hk0lt hk0d,
                if_neg (by omega : ¬ k0 = 0)]
            rw [hpred]
            rfl
          rw [if_pos ⟨hcBB, hreq⟩]
          have hk1 : k + 1 < l.length := by omega
          rw [if_pos hk1, getD_map_lt _ l (k + 1) hk1]
          rw [show l.getD (k + 1) 0 = s.size - 1 from by rw [← hpred]; exact hk0d]
          rw [plSub_eq s i _ rfl]
        · rw [if_neg ?hcn]
          case hcn =>
            intro hx
            rw [plStep_pBB_move s i l k0 hN hP hNd him hk0lt hk0d] at hx
            by_cases hk00 : k0 = 0
            · rw [if_pos hk00] at hx
              exact Option.noConfusion hx.2
            · rw [if_neg hk00] at hx
              have heq : l.getD (k0 - 1) 0 = l.getD k 0 := Option.some.inj hx.2
              have hj := nodup_getD_inj l hndl (k0 - 1) k (by omega) hk heq
              omega
          rw [plStepHB_next, if_neg (fun hx => hxi hx.2)]
          rw [hnx]
          by_cases hk1 : k + 1 < l.length
          · rw [if_pos hk1, if_pos hk1, getD_map_lt _ l (k + 1) hk1]
            have hsm : l.getD (k + 1) 0 ≠ s.size - 1 := by
              intro hc
              have hj := nodup_getD_inj l hndl (k + 1) k0 hk1 hk0lt
                (by rw [hc, hk0d])
              omega
            rw [plSub_ne s i _ hsm]
          · rw [if_neg hk1, if_neg hk1]
    · have hcBB : (plStepHB s i i).hndl = some g := by
        rw [plStepHB_hndl, if_pos ⟨him, rfl⟩]
        exact hm
      have hxm : l.getD k 0 ≠ s.size - 1 := by
        intro hc
        have hmm : (s.hndls (s.size - 1)).hndl = none :=
          (hF _ (by omega)).mpr (List.mem_cons_of_mem i (hc ▸ hxmem))
        rw [hm] at hmm
        exact Option.noConfusion hmm
      rw [plSub_ne s i _ hxm]
      rw [plStepHD_next, plStepHC_next_char,
          if_neg (fun hx => Option.noConfusion (hcBB.symm.trans hx.1))]
      rw [plStepHB_next, if_neg (fun hx => hxi hx.2)]
      rw [hnx]
      by_cases hk1 : k + 1 < l.length
      · rw [if_pos hk1, if_pos hk1, getD_map_lt _ l (k + 1) hk1]
        have hsm : l.getD (k + 1) 0 ≠ s.size - 1 := by
          intro hc
          have hmm : (s.hndls (s.size - 1)).hndl = none :=
            (hF _ (by omega)).mpr
              (List.mem_cons_of_mem i (hc ▸ getD_mem l (k + 1) hk1))
          rw [hm] at hmm
          exact Option.noConfusion hmm
        rw [plSub_ne s i _ hsm]
      · rw [if_neg hk1, if_neg hk1]

theorem plStep_prevOk (s : PollState) (i : Nat) (l : List Nat)
    (hN : plNextOk s (i :: l)) (hP : plPrevOk s (i :: l))
    (hHP : plHeadPrevOk s (i :: l)) (hB : plBounds s (i :: l))
    (hNd : (i :: l).Nodup) (hF : plFreeIff s (i :: l)) :
    plPrevOk (plCompactStep s i) (l.map (plSub s i)) := by
  have hni := plNextOk_head s i l hN
  have hil : i ∉ l := (List.nodup_cons.mp hNd).1
  have hndl : l.Nodup := (List.nodup_cons.mp hNd).2
  have hib : i < s.size := hB i (List.mem_cons_self i l)
  have hhi : (s.hndls i).hndl = none := (hF i hib).mpr (List.mem_cons_self i l)
  intro k hk h1k
  simp only [List.length_map] at hk
  show (plStepHD s i ((l.map (plSub s i)).getD k 0)).prev =
    some ((l.map (plSub s i)).getD (k - 1) 0)
  rw [getD_map_lt _ l k hk, getD_map_lt _ l (k - 1) (by omega)]
  have hxmem : l.getD k 0 ∈ l := getD_mem l k hk
  have hxb : l.getD k 0 < s.size := hB _ (List.mem_cons_of_mem i hxmem)
  have hxi : l.getD k 0 ≠ i := fun hc => hil (hc ▸ hxmem)
  have hpmem : l.getD (k - 1) 0 ∈ l := getD_mem l (k - 1) (by omega)
  have hpi : l.getD (k - 1) 0 ≠ i := fun hc => hil (hc ▸ hpmem)
  have hpx := plPrevOk_tail s i l hP k hk h1k
  by_cases him : i = s.size - 1
  · have hxm : l.getD k 0 ≠ s.size - 1 := by omega
    have hpm : l.getD (k - 1) 0 ≠ s.size - 1 := by omega
    rw [plSub_ne s i _ hxm, plSub_ne s i _ hpm]
    rw [plStepHD_prev_char]
    rw [if_neg ?hd1]
    case hd1 =>
      intro hx
      rw [plStep_nxi_nonmove s i l hN hHP him hib] at hx
      rw [plHead_getD l (by omega)] at hx
      have hc1 : l.getD 0 0 = l.getD k 0 := Option.some.inj hx.2
      have hj := nodup_getD_inj l hndl 0 k (by omega) hk hc1
      omega
    rw [plStepHC_prev, plStepHB_prev, if_neg (fun hx => hx.1 him)]
    rw [plStepHA_prev_miss s i _ (fun hx => hx.1 him)]
    exact hpx
  · rcases hm : (s.hndls (s.size - 1)).hndl with _ | g
    · have hmlt : s.size - 1 < s.size := by omega
      have hmem : s.size - 1 ∈ l := by
        rcases List.mem_cons.mp ((hF _ hmlt).mp hm) with h1 | h2
        · exact absurd h1.symm him
        · exact h2
      obtain ⟨k0, hk0lt, hk0g⟩ := List.getElem_of_mem hmem
      have hk0d : l.getD k0 0 = s.size - 1 := by
        rw [List.getD_eq_getElem _ _ hk0lt]
        exact hk0g
      have hcBB := plStep_cBB_move_dead s i him hm
      have hnxi := plStep_nxi_move s i l k0 hN hP hNd him hk0lt hk0d
      by_cases hkk0 : k = k0
      · have hxm : l.getD k 0 = s.size - 1 := by
          rw [hkk0]
          exact hk0d
        have hpm : l.getD (k - 1) 0 ≠ s.size - 1 := by
          intro hc
          have hj := nodup_getD_inj l hndl (k - 1) k0 (by omega) hk0lt
            (by rw [hc, hk0d])
          omega
        rw [plSub_eq s i _ hxm, plSub_ne s i _ hpm]
        rw [plStepHD_prev_char]
        rw [if_neg ?hd2]
        case hd2 =>
          intro hx
          rw [hnxi] at hx
          by_cases hk1 : k0 + 1 < l.length
          · rw [if_pos hk1] at hx
            have hc : l.getD (k0 + 1) 0 = i := Option.some.inj hx.2
            exact hil (hc ▸ getD_mem l (k0 + 1) hk1)
          · rw [if_neg hk1] at hx
            exact Option.noConfusion hx.2
        rw [plStepHC_prev, plStepHB_prev, if_pos ⟨him, rfl⟩]
        rw [show (plStepHA s i (s.size - 1)).prev = (plStepHB s i i).prev from
              by rw [plStepHB_prev, if_pos ⟨him, rfl⟩]]
        rw [plStep_pBB_move s i l k0 hN hP hNd him hk0lt hk0d,
            if_neg (by omega : ¬ k0 = 0), hkk0]
      · by_cases hsucc : k = k0 + 1
        · have hxm : l.getD k 0 ≠ s.size - 1 := by
            intro hc
            exact hkk0 (nodup_getD_inj l hndl k k0 hk hk0lt (by rw [hc, hk0d]))
          have hpm : l.getD (k - 1) 0 = s.size - 1 := by
            rw [hsucc]
            exact hk0d
          rw [plSub_ne s i _ hxm, plSub_eq s i _ hpm]
          have hd3 : (plStepHC s i i).next = some (l.getD k 0) := by
            rw [hnxi, if_pos (by omega : k0 + 1 < l.length), ← hsucc]
          rw [plStepHD_prev_char]
          rw [if_pos ⟨hcBB, hd3⟩]
        · have hxm : l.getD k 0 ≠ s.size - 1 := by
            intro hc
            exact hkk0 (nodup_getD_inj l hndl k k0 hk hk0lt (by rw [hc, hk0d]))
          have hpm : l.getD (k - 1) 0 ≠ s.size - 1 := by
            intro hc
            have hj := nodup_getD_inj l hndl (k - 1) k0 (by omega) hk0lt
              (by rw [hc, hk0d])
            omega
          rw [plSub_ne s i _ hxm, plSub_ne s i _ hpm]
          rw [plStepHD_prev_char]
          rw [if_neg ?hd4]
          case hd4 =>
            intro hx
            rw [hnxi] at hx
            by_cases hk1 : k0 + 1 < l.length
            · rw [if_pos hk1] at hx
              have hc : l.getD (k0 + 1) 0 = l.getD k 0 := Option.some.inj hx.2
              have hj := nodup_getD_inj l hndl (k0 + 1) k hk1 hk hc
              omega
            · rw [if_neg hk1] at hx
              exact Option.noConfusion hx.2
          rw [plStepHC_prev, plStepHB_prev, if_neg (fun hx => hxi hx.2)]
          rw [plStepHA_prev_miss s i _ ?hd5]
          case hd5 =>
            intro hx
            rw [hni, plHead_getD l (by omega)] at hx
            have hc : l.getD 0 0 = l.getD k 0 := Option.some.inj hx.2
            have hj := nodup_getD_inj l hndl 0 k (by omega) hk hc
            omega
          exact hpx
    · have hcBB : (plStepHB s i i).hndl = some g := by
        rw [plStepHB_hndl, if_pos ⟨him, rfl⟩]
        exact hm
      have hxm : l.getD k 0 ≠ s.size - 1 := by
        intro hc
        have hmm : (s.hndls (s.size - 1)).hndl = none :=
          (hF _ (by omega)).mpr (List.mem_cons_of_mem i (hc ▸ hxmem))
        rw [hm] at hmm
        exact Option.noConfusion hmm
      have hpm : l.getD (k - 1) 0 ≠ s.size - 1 := by
        intro hc
        have hmm : (s.hndls (s.size - 1)).hndl = none :=
          (hF _ (by omega)).mpr (List.mem_cons_of_mem i (hc ▸ hpmem))
        rw [hm] at hmm
        exact Option.noConfusion hmm
      rw [plSub_ne s i _ hxm, plSub_ne s i _ hpm]
      rw [plStepHD_prev_char,
          if_neg (fun hx => Option.noConfusion (hcBB.symm.trans hx.1))]
      rw [plStepHC_prev, plStepHB_prev, if_neg (fun hx => hxi hx.2)]
      rw [plStepHA_prev_miss s i _ ?hd6]
      case hd6 =>
        intro hx
        rw [hni, plHead_getD l (by omega)] at hx
        have hc : l.getD 0 0 = l.getD k 0 := Option.some.inj hx.2
        have hj := nodup_getD_inj l hndl 0 k (by omega) hk hc
        omega
      exact hpx

theorem plStep_headPrevOk (s : PollState) (i : Nat) (l : List Nat)
    (hN : plNextOk s (i :: l)) (hP : plPrevOk s (i :: l))
    (hHP : plHeadPrevOk s (i :: l)) (hB : plBounds s (i :: l))
    (hNd : (i :: l).Nodup) (hF : plFreeIff s (i :: l)) :
    plHeadPrevOk (plCompactStep s i) (l.map (plSub s i)) := by
  have hni := plNextOk_head s i l hN
  have hil : i ∉ l := (List.nodup_cons.mp hNd).1
  have hndl : l.Nodup := (List.nodup_cons.mp hNd).2
  have hib : i < s.size := hB i (List.mem_cons_self i l)
  have hhi : (s.hndls i).hndl = none := (hF i hib).mpr (List.mem_cons_self i l)
  intro a q ha hq
  show s.size - 1 ≤ q
  have hl0 : 0 < l.length := by
    rcases l with _ | ⟨c1, rest⟩
    · simp at ha
    · simp
  have hc1mem : l.getD 0 0 ∈ l := getD_mem l 0 hl0
  have hc1i : l.getD 0 0 ≠ i := fun hc => hil (hc ▸ hc1mem)
  have hhead := plHead_getD (l.map (plSub s i)) (by simpa using hl0)
  have ha2 : a = plSub s i (l.getD 0 0) := by
    have hsome := Option.some.inj (hhead.symm.trans ha)
    rw [getD_map_lt _ l 0 hl0] at hsome
    exact hsome.symm
  subst ha2
  have hqh : (plStepHD s i (plSub s i (l.getD 0 0))).prev = some q := hq
  by_cases him : i = s.size - 1
  · have hc1m : l.getD 0 0 ≠ s.size - 1 := by omega
    rw [plSub_ne s i _ hc1m] at hqh
    have hd : (plStepHC s i i).next = some (l.getD 0 0) := by
      rw [plStep_nxi_nonmove s i l hN hHP him hib, plHead_getD l hl0]
    rw [plStepHD_prev_char,
        if_pos ⟨plStep_cBB_nonmove s i him hhi, hd⟩] at hqh
    have hqi : i = q := Option.some.inj hqh
    omega
  · rcases hm : (s.hndls (s.size - 1)).hndl with _ | g
    · have hmlt : s.size - 1 < s.size := by omega
      have hmem : s.size - 1 ∈ l := by
        rcases List.mem_cons.mp ((hF _ hmlt).mp hm) with h1 | h2
        · exact absurd h1.symm him
        · exact h2
      obtain ⟨k0, hk0lt, hk0g⟩ := List.getElem_of_mem hmem
      have hk0d : l.getD k0 0 = s.size - 1 := by
        rw [List.getD_eq_getElem _ _ hk0lt]
        exact hk0g
      have hnxi := plStep_nxi_move s i l k0 hN hP hNd him hk0lt hk0d
      by_cases hk00 : k0 = 0
      · have hc1m : l.getD 0 0 = s.size - 1 := by
          rw [← hk0d, hk00]
        rw [plSub_eq s i _ hc1m] at hqh
        rw [plStepHD_prev_char] at hqh
        rw [if_neg ?he1] at hqh
        case he1 =>
          intro hx
          rw [hnxi] at hx
          by_cases hk1 : k0 + 1 < l.length
          · rw [if_pos hk1] at hx
            have hc : l.getD (k0 + 1) 0 = i := Option.some.inj hx.2
            exact hil (hc ▸ getD_mem l (k0 + 1) hk1)
          · rw [if_neg hk1] at hx
            exact Option.noConfusion hx.2
        rw [plStepHC_prev, plStepHB_prev, if_pos ⟨him, rfl⟩] at hqh
        rw [show (plStepHA s i (s.size - 1)).prev = (plStepHB s i i).prev from
              by rw [plStepHB_prev, if_pos ⟨him, rfl⟩],
            plStep_pBB_move s i l k0 hN hP hNd him hk0lt hk0d,
            if_pos hk00] at hqh
        exact Option.noConfusion hqh
      · have hc1m : l.getD 0 0 ≠ s.size - 1 := by
          intro hc
          exact hk00 (nodup_getD_inj l hndl k0 0 hk0lt hl0 (by rw [hc, hk0d]))
        rw [plSub_ne s i _ hc1m] at hqh
        rw [plStepHD_prev_char] at hqh
        rw [if_neg ?he2] at hqh
        case he2 =>
          intro hx
          rw [hnxi] at hx
          by_cases hk1 : k0 + 1 < l.length
          · rw [if_pos hk1] at hx
            have hc : l.getD (k0 + 1) 0 = l.getD 0 0 := Option.some.inj hx.2
            have hj := nodup_getD_inj l hndl (k0 + 1) 0 hk1 hl0 hc
            omega
          · rw [if_neg hk1] at hx
            exact Option.noConfusion hx.2
        rw [plStepHC_prev, plStepHB_prev, if_neg (fun hx => hc1i hx.2)] at hqh
        rw [plStepHA_prev_hit s i _ him
              (by rw [hni, plHead_getD l hl0])] at hqh
        exact Option.noConfusion hqh
    · rw [plSub_ne s i _ ?hgm] at hqh
      case hgm =>
        intro hc
        have hmm : (s.hndls (s.size - 1)).hndl = none :=
          (hF _ (by omega)).mpr (List.mem_cons_of_mem i (hc ▸ hc1mem))
        rw [hm] at hmm
        exact Option.noConfusion hmm
      have hcBB : (plStepHB s i i).hndl = some g := by
        rw [plStepHB_hndl, if_pos ⟨him, rfl⟩]
        exact hm
      rw [plStepHD_prev_char,
          if_neg (fun hx => Option.noConfusion (hcBB.symm.trans hx.1))] at hqh
      rw [plStepHC_prev, plStepHB_prev, if_neg (fun hx => hc1i hx.2)] at hqh
      rw [plStepHA_prev_hit s i _ him
            (by rw [hni, plHead_getD l hl0])] at hqh
      exact Option.noConfusion hqh

theorem plCompactStep_wf (s : PollState) (i : Nat) (l : List Nat)
    (hwf : plWF s (i :: l)) :
    plWF (plCompactStep s i) (l.map (plSub s i)) := by
  obtain ⟨hH, hN, hP, hHP, hB, hNd, hF, hHeap⟩ := hwf
  exact ⟨plStep_head s i l hN hB hNd hF,
         plStep_nextOk s i l hN hP hHP hB hNd hF,
         plStep_prevOk s i l hN hP hHP hB hNd hF,
         plStep_headPrevOk s i l hN hP hHP hB hNd hF,
         plStep_bounds s i l hB hNd,
         plStep_nodup s i l hNd,
         plStep_free s i l hB hNd hF,
         plStep_heap s i l hB hHeap⟩

theorem plCompactGo_wf (fuel : Nat) :
    ∀ (s : PollState) (l : List Nat), plWF s l → l.length ≤ fuel →
      plWF (plCompactGo fuel s) [] := by
  induction fuel with
  | zero =>
    intro s l hwf hlen
    have hl : l = [] := List.eq_nil_of_length_eq_zero (by omega)
    rw [hl] at hwf
    exact hwf
  | succ f ih =>
    intro s l hwf hlen
    rw [plCompactGo]
    cases l with
    | nil =>
      have hrm : s.removed = none := hwf.1
      rw [hrm]
      exact hwf
    | cons a rest =>
      have hrm : s.removed = some a := hwf.1
      rw [hrm]
      exact ih (plCompactStep s a) (rest.map (plSub s a))
        (plCompactStep_wf s a rest hwf)
        (by simp only [List.length_map]
            simp only [List.length_cons] at hlen
            omega)

theorem plWF_len (s : PollState) (l : List Nat) (hB : plBounds s l)
    (hNd : l.Nodup) : l.length ≤ s.size := by
  have hsub : l.toFinset ⊆ Finset.range s.size := by
    intro x hx
    exact Finset.mem_range.mpr (hB x (List.mem_toFinset.mp hx))
  have hcard := Finset.card_le_card hsub
  rw [Finset.card_range] at hcard
  rw [← List.toFinset_card_of_nodup hNd]
  exact hcard

theorem pl_rm_hndls_slot (s : PollState) (h : Nat) :
    (pl_poller_rm s h).hndls (s.heap h) = ⟨none, none, s.removed⟩ := by
  rcases hr : s.removed with _ | r
  · simp only [pl_poller_rm, hr]
    rw [upd_same]
  · simp only [pl_poller_rm, hr]
    rw [upd_same]

theorem pl_rm_hndls_old_head (s : PollState) (h : Nat) :
    ∀ r, s.removed = some r → r ≠ s.heap h →
      (pl_poller_rm s h).hndls r =
        { s.hndls r with prev := some (s.heap h) } := by
  intro r hr hne
  simp only [pl_poller_rm, hr]
  rw [upd_other _ _ _ _ hne, upd_same]

theorem pl_rm_hndls_other (s : PollState) (h : Nat) :
    ∀ j, j ≠ s.heap h → (∀ r, s.removed = some r → j ≠ r) →
      (pl_poller_rm s h).hndls j = s.hndls j := by
  intro j hj hjr
  rcases hr : s.removed with _ | r
  · simp only [pl_poller_rm, hr]
    rw [upd_other _ _ _ _ hj]
  · simp only [pl_poller_rm, hr]
    rw [upd_other _ _ _ _ hj, upd_other _ _ _ _ (hjr r hr)]

/-- C8: removal in the poll backend is two-phase.  nn_poller_rm touches
no registration structure: size, capacity, cursor and stored indices are
unchanged and every other slot keeps its pollfd; it only zeroes the
revents of the slot of the removed handle and threads that slot onto the
free list (slot marked with a NULL handle and NULL prev, next at the old
head, removed at the slot, the old head pointing back at it).  Physical
compaction is done by the removed-fds loop at the start of nn_poller_wait
and nowhere else: wait hands its poll phase exactly the compacted
structure, while set_in, set_out, reset_in, reset_out and nn_poller_event
never touch hndls, size or removed.  From any well-formed state the
compaction loop empties the free list, and afterwards every slot below
the new size holds a live handle whose stored index is that slot. -/
theorem claim_C8 :
    (∀ (s : PollState) (h : Nat),
        (pl_poller_rm s h).size = s.size ∧
        (pl_poller_rm s h).capacity = s.capacity ∧
        (pl_poller_rm s h).index = s.index ∧
        (pl_poller_rm s h).heap = s.heap ∧
        (∀ j, j ≠ s.heap h → (pl_poller_rm s h).pollset j = s.pollset j) ∧
        (pl_poller_rm s h).pollset (s.heap h) =
          { s.pollset (s.heap h) with revents := 0 } ∧
        (pl_poller_rm s h).removed = some (s.heap h) ∧
        (pl_poller_rm s h).hndls (s.heap h) = ⟨none, none, s.removed⟩ ∧
        (∀ r, s.removed = some r → r ≠ s.heap h →
          (pl_poller_rm s h).hndls r =
            { s.hndls r with prev := some (s.heap h) }) ∧
        (∀ j, j ≠ s.heap h → (∀ r, s.removed = some r → j ≠ r) →
          (pl_poller_rm s h).hndls j = s.hndls j)) ∧
    (∀ (cfg : Bool) (s : PollState) (t : Int) (g : PlOracle),
        (pl_poller_wait cfg s t g).2.size = (plCompactGo s.size s).size ∧
        (pl_poller_wait cfg s t g).2.hndls = (plCompactGo s.size s).hndls ∧
        (pl_poller_wait cfg s t g).2.heap = (plCompactGo s.size s).heap ∧
        (pl_poller_wait cfg s t g).2.removed =
          (plCompactGo s.size s).removed) ∧
    (∀ (s : PollState) (h : Nat),
        (pl_poller_set_in s h).hndls = s.hndls ∧
        (pl_poller_set_in s h).size = s.size ∧
        (pl_poller_set_in s h).removed = s.removed ∧
        (pl_poller_set_out s h).hndls = s.hndls ∧
        (pl_poller_set_out s h).size = s.size ∧
        (pl_poller_set_out s h).removed = s.removed ∧
        (pl_poller_reset_in s h).hndls = s.hndls ∧
        (pl_poller_reset_in s h).size = s.size ∧
        (pl_poller_reset_in s h).removed = s.removed ∧
        (pl_poller_reset_out s h).hndls = s.hndls ∧
        (pl_poller_reset_out s h).size = s.size ∧
        (pl_poller_reset_out s h).removed = s.removed ∧
        (pl_poller_event s).2.hndls = s.hndls ∧
        (pl_poller_event s).2.size = s.size ∧
        (pl_poller_event s).2.removed = s.removed) ∧
    (∀ (s : PollState) (l : List Nat), plWF s l →
        (plCompactGo s.size s).removed = none ∧
        (∀ j, j < (plCompactGo s.size s).size →
          ((plCompactGo s.size s).hndls j).hndl ≠ none) ∧
        (∀ j, j < (plCompactGo s.size s).size → ∀ g2,
          ((plCompactGo s.size s).hndls j).hndl = some g2 →
          (plCompactGo s.size s).heap g2 = j)) := by
  refine ⟨?_, ?_, ?_, ?_⟩
  · intro s h
    obtain ⟨hidx, hsz, hcap, hrem, hheap, hps, hhn⟩ := pl_rm_fields s h
    refine ⟨hsz, hcap, hidx, hheap, ?_, ?_, hrem, pl_rm_hndls_slot s h,
            pl_rm_hndls_old_head s h, pl_rm_hndls_other s h⟩
    · intro j hj
      rw [hps j, if_neg hj]
    · rw [hps (s.heap h), if_pos rfl]
  · intro cfg s t g
    simp only [pl_poller_wait]
    split <;> exact ⟨rfl, rfl, rfl, rfl⟩
  · intro s h
    refine ⟨rfl, rfl, rfl, rfl, rfl, rfl, rfl, rfl, rfl, rfl, rfl, rfl,
            ?_, ?_, ?_⟩ <;>
      (rcases pl_event_char s (plSkip s.pollset s.size s.index) rfl with
        ⟨h1, hev⟩ | ⟨h1, h2, ⟨h3, hev⟩ | ⟨h3, h4, hev⟩ | ⟨h3, h4, hev⟩⟩ <;>
        rw [hev])
  · intro s l hwf
    have hlen := plWF_len s l hwf.2.2.2.2.1 hwf.2.2.2.2.2.1
    have hres := plCompactGo_wf s.size s l hwf hlen
    obtain ⟨hH2, hN2, hP2, hHP2, hB2, hNd2, hF2, hHeap2⟩ := hres
    refine ⟨hH2, ?_, hHeap2⟩
    intro j hj hnone
    exact absurd ((hF2 j hj).mp hnone) (List.not_mem_nil j)

/-- Concrete two-slot poll state: slot 0 live with handle 7, slot 1
marked removed and threaded as the single free-list element. -/
def plW8 : PollState :=
  { pollset := fun j => if j = 0 then ⟨5, 1, 0⟩ else ⟨0, 0, 0⟩,
    hndls := fun j => if j = 0 then ⟨some 7, none, none⟩
             else ⟨none, none, none⟩,
    size := 2, capacity := 16, index := 0, removed := some 1,
    heap := fun _ => 0 }

theorem claim_C8_witness :
    (pl_poller_rm plW1 7).removed = some (plW1.heap 7) ∧
    (plCompactGo plW8.size plW8).removed = none ∧
    ((plCompactGo plW8.size plW8).hndls 0).hndl ≠ none ∧
    (plCompactGo plW8.size plW8).heap 7 = 0 := by
  have hwf8 : plWF plW8 [1] := by
    refine ⟨rfl, ?_, ?_, ?_, ?_, ?_, ?_, ?_⟩
    · intro k hk
      simp only [List.length_cons, List.length_nil] at hk
      have hk0 : k = 0 := by omega
      subst hk0
      decide
    · intro k hk h1k
      simp only [List.length_cons, List.length_nil] at hk
      omega
    · intro a q ha hq
      have h1a : 1 = a := Option.some.inj ha
      rw [← h1a] at hq
      have hnone : (plW8.hndls 1).prev = none := rfl
      rw [hnone] at hq
      exact Option.noConfusion hq
    · intro x hx
      have := List.mem_singleton.mp hx
      show x < 2
      omega
    · decide
    · intro j hj
      have hj2 : j < 2 := hj
      interval_cases j <;> simp [plW8]
    · intro j hj g2 hg
      have hj2 : j < 2 := hj
      interval_cases j
      · have hg7 : g2 = 7 := by
          have h7 : (plW8.hndls 0).hndl = some 7 := rfl
          rw [h7] at hg
          exact (Option.some.inj hg).symm
        rw [hg7]
        rfl
      · have hn : (plW8.hndls 1).hndl = none := rfl
        rw [hn] at hg
        exact Option.noConfusion hg
  refine ⟨(claim_C8.1 plW1 7).2.2.2.2.2.2.1,
          (claim_C8.2.2.2 plW8 [1] hwf8).1,
          (claim_C8.2.2.2 plW8 [1] hwf8).2.1 0 (by decide),
          (claim_C8.2.2.2 plW8 [1] hwf8).2.2 0 (by decide) 7 (by decide)⟩
